import Mathlib

/-!
# The registry: blob engine, resolvers, stores and CID cache

A shallow embedding of `isBlob`, `blobs.handle`, `blobs.get` and `blobs.remove`
(`server/registry/blobs.go`), of the composite and file resolvers
(`server/registry/net/resolv.go`), of `digest`, `computeCID`, `saveCID` and the
`Save`, `Resolve` and read methods of the stores (`server/registry/store`), and
of the CID cache (`server/registry/cids.go`).

* Go strings are `String`, byte slices are `List UInt8`.
* The three tables of the engine are Go maps that the code only looks up,
  assigns and deletes from (it never ranges over them), so a table is a
  function from keys to optional values. The maps of an image and of the memory
  store are ranged over, so they are lists of entries with distinct keys. The
  maps of an image are never assigned to and are listed in the order a `range`
  visits them; the order of a `range` over the map of the memory store, which
  Go leaves open, is an argument of the call that ranges.
* `sync.Mutex` is one boolean of the engine state; a `Lock` on a held mutex
  never returns, which is the outcome `blocks`. For `HEAD` the calls that take
  and release the mutex are also listed as events, in order, with the calls
  that leave the process.
* An out-of-range index or slice expression is the outcome `panics`.
* Standard-library functions (`sha256.Sum256`, `fmt.Sscanf`, `path.Join`), the
  content-identifier libraries and the collaborators that live outside these
  files (`registry.resolveCID`, `registry.ipfsURL`, the HTTP client,
  `rand.Int63`, the answers of the content network) are parameters.
* `sort.Strings`, `strings.TrimSpace`, `filepath.Join` and `filepath.Clean`, the
  conversions between `string` and `[]byte`, and the file systems, local and
  behind the SCP shell, are modelled: directories and regular files, with paths
  walked element by element as the operating system does.
-/

namespace Registry

/-! ## Go values -/

/-- A Go `[]byte`. -/
abbrev Bytes := List UInt8

/-- A Go `map[string]V` as far as lookup, assignment and `delete` can tell. -/
abbrev GoMap (V : Type) := String → Option V

/-- The empty map, `make(map[string]V)` or `map[string]V{}`. -/
def GoMap.empty {V : Type} : GoMap V := fun _ => none

/-- The statement `m[k] = v`. -/
def GoMap.set {V : Type} (m : GoMap V) (k : String) (v : V) : GoMap V :=
  fun x => if x = k then some v else m x

/-- The statement `delete(m, k)`. -/
def GoMap.delete {V : Type} (m : GoMap V) (k : String) : GoMap V :=
  fun x => if x = k then none else m x

/-- The expression `m[k]` of a map of slices: the nil slice when `k` is absent. -/
def GoMap.at {V : Type} (m : GoMap (List V)) (k : String) : List V :=
  (m k).getD []

/-- The expression `l[i]`; `none` is the panic "index out of range". -/
def index {α : Type} (l : List α) (i : Int) : Option α :=
  if 0 ≤ i ∧ i < l.length then l.get? i.toNat else none

/-- The expression `l[lo:hi]`; `none` is the panic "slice bounds out of range". -/
def slice {α : Type} (l : List α) (lo hi : Int) : Option (List α) :=
  if 0 ≤ lo ∧ lo ≤ hi ∧ hi ≤ l.length then some ((l.take hi.toNat).drop lo.toNat) else none

/-- The pieces of a character sequence between its `/` separators. -/
def splitSlash : List Char → List (List Char)
  | [] => [[]]
  | c :: cs =>
    if c = '/' then [] :: splitSlash cs
    else
      match splitSlash cs with
      | [] => [[c]]
      | h :: t => (c :: h) :: t

/-- The pieces put together again with a `/` between neighbours. -/
def joinSlash : List (List Char) → List Char
  | [] => []
  | [a] => a
  | a :: b :: t => a ++ '/' :: joinSlash (b :: t)

/-- Go `strings.Split(s, "/")`. -/
def Split (s : String) : List String :=
  (splitSlash s.data).map String.mk

/-- Go `strings.Join(elems, "/")`. -/
def Join (elems : List String) : String :=
  String.mk (joinSlash (elems.map String.data))

/-- The table of `encoding/hex`. -/
def hextable : List Char :=
  ['0', '1', '2', '3', '4', '5', '6', '7', '8', '9', 'a', 'b', 'c', 'd', 'e', 'f']

/-- The two hexadecimal digits of every byte, in order. -/
def hexChars : Bytes → List Char
  | [] => []
  | v :: rest =>
    hextable.getD (v.toNat / 16) '0' :: hextable.getD (v.toNat % 16) '0' :: hexChars rest

/-- Go `hex.EncodeToString`. -/
def EncodeToString (src : Bytes) : String :=
  String.mk (hexChars src)

/-! ## The engine and its surroundings -/

/-- The error value returned by the handlers. -/
structure regError where
  Status : Nat
  Code : String
  Message : String
deriving DecidableEq, Repr

/-- What `handle` uses of a `*http.Request`. -/
structure Request where
  /-- Field `req.Method`. -/
  Method : String
  /-- Field `req.URL.Path`. -/
  Path : String
  /-- Function `req.URL.Query().Get`. -/
  Query : String → String
  /-- Function `req.Header.Get`. -/
  Header : String → String
  /-- Everything `io.Copy` reads from `req.Body`. -/
  Body : Bytes

/-- What `handle` does to an `http.ResponseWriter`. -/
structure ResponseWriter where
  /-- The header map, through `Header().Set`. -/
  header : GoMap String
  /-- The status line, once written. -/
  status : Option Nat
  /-- The bytes written to the body. -/
  body : Bytes

/-- A response writer nothing has been written to. -/
def ResponseWriter.fresh : ResponseWriter :=
  { header := GoMap.empty, status := none, body := [] }

/-- The call `resp.Header().Set(k, v)`. -/
def ResponseWriter.Set (r : ResponseWriter) (k v : String) : ResponseWriter :=
  { r with header := r.header.set k v }

/-- The call `resp.WriteHeader(code)`: only the first status line counts. -/
def ResponseWriter.WriteHeader (r : ResponseWriter) (code : Nat) : ResponseWriter :=
  match r.status with
  | some _ => r
  | none => { r with status := some code }

/-- Writing body bytes; an unwritten status line becomes 200 first. -/
def ResponseWriter.Write (r : ResponseWriter) (p : Bytes) : ResponseWriter :=
  { r with status := some (r.status.getD 200), body := r.body ++ p }

/-- An `*http.Response` of the upstream gateway, with its body read by `ioutil.ReadAll`. -/
structure HttpResponse where
  StatusCode : Nat
  Status : String
  /-- The bytes `ioutil.ReadAll` returns. -/
  Body : Bytes
  /-- The error `ioutil.ReadAll` returns, if any. -/
  ReadErr : Option String

/-- The standard-library functions the engine calls. -/
structure Lib where
  /-- Go `sha256.Sum256`. -/
  Sum256 : Bytes → Bytes
  /-- Go `fmt.Sscanf(s, "%d-%d", &start, &end)`: the two integers, or the error. -/
  Sscanf : String → Except String (Int × Int)
  /-- Go `path.Join`. -/
  pathJoin : List String → String

/-- The collaborators one call of `handle` talks to. -/
structure World where
  /-- Go `rand.Int63()`. -/
  Int63 : Nat
  /-- Method `registry.resolveCID(repo, reference)`. -/
  resolveCID : String → String → Except String String
  /-- Method `registry.ipfsURL`. -/
  ipfsURL : List String → String
  /-- Go `http.Head`. -/
  Head : String → Except String HttpResponse
  /-- The call `netutil.Get`. -/
  Get : String → Except String HttpResponse

/-- The struct `blobs`: the three tables and the mutex (`true` when held). -/
structure blobs where
  contents : GoMap Bytes
  uploads : GoMap Bytes
  layers : GoMap (List String)
  lock : Bool

/-- The engine with empty tables and a free mutex. -/
def blobs.new : blobs :=
  { contents := GoMap.empty, uploads := GoMap.empty, layers := GoMap.empty, lock := false }

/-- How a call ends. -/
inductive Outcome (α : Type) where
  /-- The call returns. -/
  | ret (a : α)
  /-- The call panics on an index or slice expression. -/
  | panics
  /-- The call waits forever on the held mutex. -/
  | blocks

/-- What a returning `handle` leaves behind. -/
structure Reply where
  /-- The returned `*regError`, `none` for nil. -/
  err : Option regError
  /-- The response writer after the call. -/
  resp : ResponseWriter
  /-- The engine after the call. -/
  state : blobs

/-- The string `"sha256:" + hex.EncodeToString(rd[:])` for `rd := sha256.Sum256(p)`. -/
def digestOf (L : Lib) (p : Bytes) : String :=
  "sha256:" ++ EncodeToString (L.Sum256 p)

/-- The local variables `handle` computes before it looks at the method (lines 64-84). -/
structure Route where
  elem : List String
  target : String
  service : String
  digest : String
  contentRange : String
  repo : String

/-- Lines 64-84 of `handle`: the URL path split into `elem`, the early
`NAME_INVALID`, then `target`, `service`, `digest`, `contentRange` and `repo`.
The inner `Except.error` is the early return. -/
def blobs.handle.route (req : Request) : Outcome (Except regError Route) :=
  let elem := Split req.Path
  match slice elem 1 elem.length with
  | none => .panics
  | some elem =>
    match index elem ((elem.length : Int) - 1) with
    | none => .panics
    | some last =>
      match (if last = "" then slice elem 0 ((elem.length : Int) - 1) else some elem) with
      | none => .panics
      | some elem =>
        if elem.length < 4 then
          .ret (.error
            { Status := 400, Code := "NAME_INVALID", Message := "blobs must be attached to a repo" })
        else
          match index elem ((elem.length : Int) - 1), index elem ((elem.length : Int) - 2),
              slice elem 1 ((elem.length : Int) - 2) with
          | some target, some service, some r2 =>
            if service = "uploads" then
              match slice elem 1 ((elem.length : Int) - 3) with
              | none => .panics
              | some r3 =>
                .ret (.ok
                  { elem := elem, target := target, service := service,
                    digest := req.Query "digest", contentRange := req.Header "Content-Range",
                    repo := Join r3 })
            else
              .ret (.ok
                { elem := elem, target := target, service := service,
                  digest := req.Query "digest", contentRange := req.Header "Content-Range",
                  repo := Join r2 })
          | _, _, _ => .panics

/-- The `BLOB_UNKNOWN` error of the read paths. -/
def blobUnknown (msg : String) : regError :=
  { Status := 404, Code := "BLOB_UNKNOWN", Message := msg }

/-- Lines 86-141 of `handle`: `HEAD`. The mutex is taken first and released
by the deferred `Unlock` on every return. -/
def blobs.handle.head (w : World) (b : blobs) (resp : ResponseWriter) (rt : Route) :
    Outcome Reply :=
  if b.lock then .blocks
  else
    match b.contents rt.target with
    | some c =>
      let resp := resp.Set "Content-Length" (toString c.length)
      let resp := resp.Set "Docker-Content-Digest" rt.target
      let resp := resp.WriteHeader 200
      .ret { err := none, resp := resp, state := b }
    | none =>
      match w.resolveCID rt.repo rt.target with
      | .error e => .ret { err := some (blobUnknown e), resp := resp, state := b }
      | .ok cid =>
        match w.Head (w.ipfsURL [cid, "blobs", rt.target]) with
        | .error e => .ret { err := some (blobUnknown e), resp := resp, state := b }
        | .ok ipfsResp =>
          if ipfsResp.StatusCode ≠ 200 then
            .ret { err := some (blobUnknown ipfsResp.Status), resp := resp, state := b }
          else
            match ipfsResp.ReadErr with
            | some e => .ret { err := some (blobUnknown e), resp := resp, state := b }
            | none =>
              let resp := resp.Set "Content-Length" (toString ipfsResp.Body.length)
              let resp := resp.Set "Docker-Content-Digest" rt.target
              let resp := resp.WriteHeader ipfsResp.StatusCode
              let resp := resp.Write ipfsResp.Body
              .ret { err := none, resp := resp, state := b }

/-- Lines 143-180 of `handle`: `GET`. Neither the mutex nor `contents` is touched. -/
def blobs.handle.get (w : World) (b : blobs) (resp : ResponseWriter) (rt : Route) :
    Outcome Reply :=
  match w.resolveCID rt.repo rt.target with
  | .error e => .ret { err := some (blobUnknown e), resp := resp, state := b }
  | .ok cid =>
    match w.Get (w.ipfsURL [cid, "blobs", rt.target]) with
    | .error e => .ret { err := some (blobUnknown e), resp := resp, state := b }
    | .ok ipfsResp =>
      if ipfsResp.StatusCode ≠ 200 then
        .ret { err := some (blobUnknown ipfsResp.Status), resp := resp, state := b }
      else
        let resp := resp.Set "Content-Length" (toString ipfsResp.Body.length)
        let resp := resp.Set "Docker-Content-Digest" rt.target
        let resp := resp.WriteHeader ipfsResp.StatusCode
        let resp := resp.Write ipfsResp.Body
        .ret { err := none, resp := resp, state := b }

/-- Lines 182-203 of `handle`: the monolithic `POST` with a digest. The body is
hashed and compared before the mutex is taken. -/
def blobs.handle.postDigest (L : Lib) (b : blobs) (resp : ResponseWriter) (req : Request)
    (rt : Route) : Outcome Reply :=
  let l := req.Body
  let d := digestOf L l
  if d ≠ rt.digest then
    .ret { err := some { Status := 400, Code := "DIGEST_INVALID",
                         Message := "digest does not match contents" },
           resp := resp, state := b }
  else if b.lock then .blocks
  else
    let contents := b.contents.set d l
    let digests := b.layers.at rt.repo
    let layers := b.layers.set rt.repo (digests ++ [d])
    let resp := resp.Set "Docker-Content-Digest" d
    let resp := resp.WriteHeader 201
    .ret { err := none, resp := resp, state := { b with contents := contents, layers := layers } }

/-- Lines 205-211 of `handle`: the `POST` without a digest. -/
def blobs.handle.postStart (L : Lib) (w : World) (b : blobs) (resp : ResponseWriter)
    (rt : Route) : Outcome Reply :=
  let id := toString w.Int63
  match slice rt.elem 1 ((rt.elem.length : Int) - 2) with
  | none => .panics
  | some name =>
    let resp := resp.Set "Location"
      ("/" ++ L.pathJoin ["v2", L.pathJoin name, "blobs/uploads", id])
    let resp := resp.Set "Range" "0-0"
    let resp := resp.WriteHeader 202
    .ret { err := none, resp := resp, state := b }

/-- Lines 213-238 of `handle`: the `PATCH` with a `Content-Range`. The slice
taken for the `Location` header comes after the assignment to `uploads`; it is
in range for every route (`route_location_slices`). -/
def blobs.handle.patchRange (L : Lib) (b : blobs) (resp : ResponseWriter) (req : Request)
    (rt : Route) : Outcome Reply :=
  match L.Sscanf rt.contentRange with
  | .error _ =>
    .ret { err := some { Status := 416, Code := "BLOB_UPLOAD_UNKNOWN",
                         Message := "We don't understand your Content-Range" },
           resp := resp, state := b }
  | .ok (start, _) =>
    if b.lock then .blocks
    else if start ≠ ((b.uploads.at rt.target).length : Int) then
      .ret { err := some { Status := 416, Code := "BLOB_UPLOAD_UNKNOWN",
                           Message := "Your content range doesn't match what we have" },
             resp := resp, state := b }
    else
      let l := b.uploads.at rt.target ++ req.Body
      let uploads := b.uploads.set rt.target l
      match slice rt.elem 1 ((rt.elem.length : Int) - 3) with
      | none => .panics
      | some name =>
        let resp := resp.Set "Location"
          ("/" ++ L.pathJoin ["v2", L.pathJoin name, "blobs/uploads", rt.target])
        let resp := resp.Set "Range" ("0-" ++ toString ((l.length : Int) - 1))
        let resp := resp.WriteHeader 204
        .ret { err := none, resp := resp, state := { b with uploads := uploads } }

/-- Lines 240-259 of `handle`: the `PATCH` without a `Content-Range`. The slice
for the `Location` header is in range for every route, as in `patchRange`. -/
def blobs.handle.patchStream (L : Lib) (b : blobs) (resp : ResponseWriter) (req : Request)
    (rt : Route) : Outcome Reply :=
  if b.lock then .blocks
  else
    match b.uploads rt.target with
    | some _ =>
      .ret { err := some { Status := 400, Code := "BLOB_UPLOAD_INVALID",
                           Message := "Stream uploads after first write are not allowed" },
             resp := resp, state := b }
    | none =>
      let l := req.Body
      let uploads := b.uploads.set rt.target l
      match slice rt.elem 1 ((rt.elem.length : Int) - 3) with
      | none => .panics
      | some name =>
        let resp := resp.Set "Location"
          ("/" ++ L.pathJoin ["v2", L.pathJoin name, "blobs/uploads", rt.target])
        let resp := resp.Set "Range" ("0-" ++ toString ((l.length : Int) - 1))
        let resp := resp.WriteHeader 204
        .ret { err := none, resp := resp, state := { b with uploads := uploads } }

/-- Lines 269-291 of `handle`: the `PUT` with a digest. -/
def blobs.handle.putDigest (L : Lib) (b : blobs) (resp : ResponseWriter) (req : Request)
    (rt : Route) : Outcome Reply :=
  if b.lock then .blocks
  else
    let l := b.uploads.at rt.target ++ req.Body
    let d := digestOf L l
    if d ≠ rt.digest then
      .ret { err := some { Status := 400, Code := "DIGEST_INVALID",
                           Message := "digest does not match contents" },
             resp := resp, state := b }
    else
      let contents := b.contents.set d l
      let digests := b.layers.at rt.repo
      let layers := b.layers.set rt.repo (digests ++ [d])
      let uploads := b.uploads.delete rt.target
      let resp := resp.Set "Docker-Content-Digest" d
      let resp := resp.WriteHeader 201
      .ret { err := none, resp := resp,
             state := { b with contents := contents, layers := layers, uploads := uploads } }

/-- The method `blobs.handle`. -/
def blobs.handle (L : Lib) (w : World) (b : blobs) (resp : ResponseWriter) (req : Request) :
    Outcome Reply :=
  match blobs.handle.route req with
  | .panics => .panics
  | .blocks => .blocks
  | .ret (.error e) => .ret { err := some e, resp := resp, state := b }
  | .ret (.ok rt) =>
    if req.Method = "HEAD" then blobs.handle.head w b resp rt
    else if req.Method = "GET" then blobs.handle.get w b resp rt
    else if req.Method = "POST" ∧ rt.target = "uploads" ∧ rt.digest ≠ "" then
      blobs.handle.postDigest L b resp req rt
    else if req.Method = "POST" ∧ rt.target = "uploads" ∧ rt.digest = "" then
      blobs.handle.postStart L w b resp rt
    else if req.Method = "PATCH" ∧ rt.service = "uploads" ∧ rt.contentRange ≠ "" then
      blobs.handle.patchRange L b resp req rt
    else if req.Method = "PATCH" ∧ rt.service = "uploads" ∧ rt.contentRange = "" then
      blobs.handle.patchStream L b resp req rt
    else if req.Method = "PUT" ∧ rt.service = "uploads" ∧ rt.digest = "" then
      .ret { err := some { Status := 400, Code := "DIGEST_INVALID",
                           Message := "digest not specified" },
             resp := resp, state := b }
    else if req.Method = "PUT" ∧ rt.service = "uploads" ∧ rt.digest ≠ "" then
      blobs.handle.putDigest L b resp req rt
    else
      .ret { err := some { Status := 400, Code := "METHOD_UNKNOWN",
                           Message := "We don't understand your method + url" },
             resp := resp, state := b }

/-- The method `blobs.remove`. On an unknown repo it returns without `Unlock`,
so the mutex stays held. -/
def blobs.remove (b : blobs) (repo : String) : Outcome blobs :=
  if b.lock then .blocks
  else
    match b.layers repo with
    | none => .ret { b with lock := true }
    | some digests =>
      .ret { b with layers := b.layers.delete repo,
                    contents := digests.foldl GoMap.delete b.contents,
                    lock := false }

/-! ## Sequences of calls -/

/-- One call into the engine. -/
inductive Call where
  /-- A request served by `handle`. -/
  | handle (w : World) (resp : ResponseWriter) (req : Request)
  /-- A call of `remove`. -/
  | remove (repo : String)

/-- The engine after one call; a call that panics or blocks has changed nothing. -/
def blobs.step (L : Lib) (b : blobs) : Call → blobs
  | .handle w resp req =>
    match b.handle L w resp req with
    | .ret r => r.state
    | _ => b
  | .remove repo =>
    match b.remove repo with
    | .ret b1 => b1
    | _ => b

/-- The engine after a sequence of calls. -/
def blobs.run (L : Lib) (b : blobs) (cs : List Call) : blobs :=
  cs.foldl (blobs.step L) b

/-! ## Series of requests to one upload -/

/-- Whether a call ended as an accepted request: it returned no error and the
status line is 204. -/
def accepted : Outcome Reply → Bool
  | .ret r => r.err.isNone && r.resp.status == some 204
  | _ => false

/-- The engine a call of `handle` leaves behind. -/
def stateAfter (b : blobs) : Outcome Reply → blobs
  | .ret r => r.state
  | _ => b

/-- All the byte strings of a list, one after the other. -/
def concatAll : List Bytes → Bytes
  | [] => []
  | p :: ps => p ++ concatAll ps

/-- Requests served one after the other, each on a fresh response writer: the
engine at the end, and the bodies of the accepted requests in order. -/
def serve (L : Lib) : blobs → List (World × Request) → blobs × List Bytes
  | b, [] => (b, [])
  | b, (w, req) :: rest =>
    let o := b.handle L w ResponseWriter.fresh req
    let next := serve L (stateAfter b o) rest
    (next.1, if accepted o then req.Body :: next.2 else next.2)

/-! ## An instance of the parameters, to run the definitions on examples -/

/-- Decimal digits to a number, `none` when there is none or another character. -/
def scanDigits (cs : List Char) : Option Nat :=
  if cs = [] then none
  else cs.foldl
    (fun acc c => acc.bind fun n => if c.isDigit then some (10 * n + (c.toNat - 48)) else none)
    (some 0)

/-- A scanner for `<digits>-<digits>`. -/
def exampleSscanf (s : String) : Except String (Int × Int) :=
  match s.data.span (fun c => c != '-') with
  | (a, _ :: b) =>
    match scanDigits a, scanDigits b with
    | some x, some y => .ok ((x : Int), (y : Int))
    | _, _ => .error "expected integer"
  | _ => .error "input does not match format"

/-- A library instance for examples: the checksum is the identity on bytes, the
scanner reads unsigned decimals, joining drops empty elements. -/
def exampleLib : Lib :=
  { Sum256 := fun p => p,
    Sscanf := exampleSscanf,
    pathJoin := fun l => Join (l.filter (fun s => s != "")) }

/-- A world for examples in which nothing can be resolved or fetched. -/
def exampleWorld : World :=
  { Int63 := 42,
    resolveCID := fun _ _ => .error "not found",
    ipfsURL := fun l => Join l,
    Head := fun _ => .error "no route to host",
    Get := fun _ => .error "no route to host" }

/-- A request with the given method, path, digest parameter, `Content-Range` and body. -/
def mkRequest (method path digest contentRange : String) (body : Bytes) : Request :=
  { Method := method, Path := path,
    Query := fun k => if k = "digest" then digest else "",
    Header := fun k => if k = "Content-Range" then contentRange else "",
    Body := body }

/-- The requests of a series are all `PATCH`es that `handle` routes to the upload `id`. -/
def PatchesTo (id : String) (reqs : List (World × Request)) : Prop :=
  ∀ p ∈ reqs, p.2.Method = "PATCH" ∧
    ∃ rt, blobs.handle.route p.2 = .ret (.ok rt) ∧ rt.service = "uploads" ∧ rt.target = id

/-- Three `PATCH`es to the upload `7`: bytes 1 2 at offset 0, a byte at the stale
offset 0, and byte 3 at offset 2. -/
def exampleSeries : List (World × Request) :=
  [(exampleWorld, mkRequest "PATCH" "/v2/a/blobs/uploads/7" "" "0-1" [1, 2]),
   (exampleWorld, mkRequest "PATCH" "/v2/a/blobs/uploads/7" "" "0-0" [9]),
   (exampleWorld, mkRequest "PATCH" "/v2/a/blobs/uploads/7" "" "2-2" [3])]

/-- An engine in which the upload `7` holds the bytes 1 2. -/
def exampleOpen : blobs :=
  { blobs.new with uploads := blobs.new.uploads.set "7" [1, 2] }

/-! ## The composite resolver (`server/registry/net/resolv.go`) -/

/-- A Go `error` of the store and resolver packages. -/
inductive Error where
  /-- The variable `ErrInvalid`. -/
  | ErrInvalid
  /-- The variable `ErrNotSupported`. -/
  | ErrNotSupported
  /-- A `*NotFoundError` with its `Name`. -/
  | NotFound (name : String)
  /-- Any other error, from `fmt.Errorf`, a library or the operating system. -/
  | other (msg : String)
deriving DecidableEq, Repr

/-- The result `([]string, error)` of a `Resolve`: the error when it is not nil,
else the slice, `none` for the nil slice. -/
abbrev Resolved := Except Error (Option (List String))

/-- The interface `CIDResolver`: its one method `Resolve(repo, reference)`. -/
abbrev CIDResolver := String → String → Resolved

/-- The order of `sort.Strings`: strings compared character by character. -/
def strLE (a b : String) : Prop := a.data ≤ b.data

instance strLE.decidable : DecidableRel strLE :=
  fun a b => inferInstanceAs (Decidable (a.data ≤ b.data))

instance strLE.isTotal : IsTotal String strLE :=
  ⟨fun a b => le_total a.data b.data⟩

instance strLE.isTrans : IsTrans String strLE :=
  ⟨fun _ _ _ h1 h2 => le_trans (α := List Char) h1 h2⟩

instance strLE.isAntisymm : IsAntisymm String strLE :=
  ⟨fun _ _ h1 h2 => String.ext (le_antisymm (α := List Char) h1 h2)⟩

/-- Go `sort.Strings`. -/
def sortStrings (l : List String) : List String :=
  l.insertionSort strLE

/-- The loop of `uniq` from the map `keys` and the slice `list` it has built. -/
def uniq.loop : List String → GoMap Bool → List String → List String
  | [], _, list => list
  | s :: sa, keys, list =>
    match keys s with
    | some _ => uniq.loop sa keys list
    | none => uniq.loop sa (keys.set s true) (list ++ [s])

/-- The function `uniq`. -/
def uniq (sa : List String) : List String :=
  uniq.loop sa GoMap.empty []

/-- The struct `resolver`: the sub-resolvers in their order. -/
structure resolver where
  resolvers : List CIDResolver

/-- The loop of `resolver.Resolve` over the sub-resolvers still to consult, from
the `list` collected so far, and the statements after it. -/
def resolver.Resolve.loop (repo reference : String) :
    List CIDResolver → List String → Resolved
  | [], list => .ok (some (sortStrings (uniq list)))
  | re :: rest, list =>
    match re repo reference with
    | .error err => .error err
    | .ok none => resolver.Resolve.loop repo reference rest list
    | .ok (some result) =>
      if reference ≠ "" then .ok (some result)
      else resolver.Resolve.loop repo reference rest (list ++ result)

/-- The method `resolver.Resolve`. -/
def resolver.Resolve (r : resolver) (repo reference : String) : Resolved :=
  resolver.Resolve.loop repo reference r.resolvers []

/-! ## The CID cache (`server/registry/cids.go`) -/

/-- The function `key`. -/
def key (repo ref : String) : String :=
  repo ++ ":" ++ ref

/-- The struct `cidCache`: the map `cids`. Its mutex is taken and released on
the one path of each method and is left out. -/
structure cidCache where
  cids : GoMap String

/-- The method `cidCache.Add`. -/
def cidCache.Add (r : cidCache) (repo reference cid : String) : cidCache :=
  let k := key repo reference
  { r with cids := r.cids.set k cid }

/-- The method `cidCache.Get`: the value and the flag `ok`. -/
def cidCache.Get (r : cidCache) (repo reference : String) : String × Bool :=
  let k := key repo reference
  match r.cids k with
  | some val => (val, true)
  | none => ("", false)

/-- The function `newCidCache`. -/
def newCidCache : cidCache :=
  { cids := GoMap.empty }

/-! ## Go strings, paths and files as the stores use them

Standard library and operating system, modelled: the conversions between
`string` and `[]byte` as UTF-8, `strings.TrimSpace`, `strings.HasPrefix`,
`filepath.Clean`, `filepath.Join` and `filepath.Dir` on Unix paths, and the
file system as a tree of directories and regular files in which the operating
system walks a path element by element, and a set of paths that refuse to be
made or written. -/

/-- The UTF-8 bytes of one character. -/
def encodeRune (c : Char) : Bytes :=
  let n := c.toNat
  if n < 128 then [UInt8.ofNat n]
  else if n < 2048 then [UInt8.ofNat (192 + n / 64), UInt8.ofNat (128 + n % 64)]
  else if n < 65536 then
    [UInt8.ofNat (224 + n / 4096), UInt8.ofNat (128 + n / 64 % 64), UInt8.ofNat (128 + n % 64)]
  else
    [UInt8.ofNat (240 + n / 262144), UInt8.ofNat (128 + n / 4096 % 64),
     UInt8.ofNat (128 + n / 64 % 64), UInt8.ofNat (128 + n % 64)]

/-- The UTF-8 bytes of a character sequence. -/
def encodeRunes : List Char → Bytes
  | [] => []
  | c :: cs => encodeRune c ++ encodeRunes cs

/-- Go `[]byte(s)`. -/
def toBytes (s : String) : Bytes :=
  encodeRunes s.data

/-- The UTF-8 decoder between two bytes: the characters read so far (last
first), the number of continuation bytes still due, and the bits collected. -/
structure Decoder where
  out : List Char
  need : Nat
  acc : Nat

/-- A byte that starts a character. -/
def Decoder.start (d : Decoder) (b : Nat) : Decoder :=
  if b < 128 then { out := Char.ofNat b :: d.out, need := 0, acc := 0 }
  else if b < 192 then { out := Char.ofNat 65533 :: d.out, need := 0, acc := 0 }
  else if b < 224 then { out := d.out, need := 1, acc := b - 192 }
  else if b < 240 then { out := d.out, need := 2, acc := b - 224 }
  else if b < 248 then { out := d.out, need := 3, acc := b - 240 }
  else { out := Char.ofNat 65533 :: d.out, need := 0, acc := 0 }

/-- The decoder after one more byte; a broken sequence reads as U+FFFD. -/
def Decoder.step (d : Decoder) (b : UInt8) : Decoder :=
  if d.need = 0 then d.start b.toNat
  else if 128 ≤ b.toNat ∧ b.toNat < 192 then
    if d.need = 1 then
      { out := Char.ofNat (d.acc * 64 + (b.toNat - 128)) :: d.out, need := 0, acc := 0 }
    else { out := d.out, need := d.need - 1, acc := d.acc * 64 + (b.toNat - 128) }
  else Decoder.start { out := Char.ofNat 65533 :: d.out, need := 0, acc := 0 } b.toNat

/-- Go `string(b)`, read as characters. -/
def ofBytes (b : Bytes) : String :=
  let d := b.foldl Decoder.step { out := [], need := 0, acc := 0 }
  String.mk (if d.need = 0 then d.out.reverse else (Char.ofNat 65533 :: d.out).reverse)

/-- Go `unicode.IsSpace`. -/
def isSpace (c : Char) : Bool :=
  let n := c.toNat
  (9 ≤ n && n ≤ 13) || n == 32 || n == 133 || n == 160 || n == 5760 ||
  (8192 ≤ n && n ≤ 8202) || n == 8232 || n == 8233 || n == 8239 || n == 8287 || n == 12288

/-- Go `strings.TrimSpace`. -/
def TrimSpace (s : String) : String :=
  String.mk ((s.data.dropWhile isSpace).reverse.dropWhile isSpace).reverse

/-- Go `strings.HasPrefix`. -/
def HasPrefix (s lead : String) : Bool :=
  lead.data.isPrefixOf s.data

/-- Go `strings.TrimPrefix`. -/
def TrimPrefix (s lead : String) : String :=
  if HasPrefix s lead then String.mk (s.data.drop lead.data.length) else s

/-- One path element met by `filepath.Clean`, with the elements kept so far
(last first): empty and `.` elements go, `..` takes the element before it away,
or stays when the path is not rooted and nothing but `..` came before. -/
def cleanStep (rooted : Bool) (stack : List (List Char)) (c : List Char) : List (List Char) :=
  if c = [] ∨ c = ['.'] then stack
  else if c = ['.', '.'] then
    match stack with
    | [] => if rooted then [] else [c]
    | top :: rest => if top = ['.', '.'] then c :: stack else rest
  else c :: stack

/-- The elements `filepath.Clean` keeps of a path, in order. -/
def cleanElems (rooted : Bool) (path : List Char) : List (List Char) :=
  ((splitSlash path).foldl (cleanStep rooted) []).reverse

/-- Go `filepath.Clean` for Unix paths. -/
def filepath.Clean (path : String) : String :=
  if path = "" then "."
  else if path.data.head? = some '/' then String.mk ('/' :: joinSlash (cleanElems true path.data))
  else if cleanElems false path.data = [] then "."
  else String.mk (joinSlash (cleanElems false path.data))

/-- Go `filepath.Join`: from the first non-empty element on, joined and cleaned. -/
def filepath.Join (elem : List String) : String :=
  match elem.dropWhile (fun e => e = "") with
  | [] => ""
  | rest => filepath.Clean (Registry.Join rest)

/-- Go `filepath.Dir`: the path up to its last separator, cleaned. -/
def filepath.Dir (path : String) : String :=
  filepath.Clean (String.mk (path.data.reverse.dropWhile (fun c => c != '/')).reverse)

/-- The value a key has in a list of pairs, the first one when there are several. -/
def lookupKey {V : Type} (k : String) : List (String × V) → Option V
  | [] => none
  | (k1, v) :: rest => if k1 = k then some v else lookupKey k rest

/-- A place in the file tree: whether the path to it starts at the root (or else
at the working directory), and the elements of that path, the innermost first. -/
abbrev Node := Bool × List (List Char)

/-- The value a node has in a list of pairs, the first one when there are several. -/
def lookupNode {V : Type} (n : Node) : List (Node × V) → Option V
  | [] => none
  | (n1, v) :: rest => if n1 = n then some v else lookupNode n rest

/-- Whether a node is a directory, given the directories that were made: the
root, the working directory and what lies above the working directory are
directories without having been made. -/
def isDirIn (dirs : List Node) (n : Node) : Bool :=
  n.2.all (fun c => c == ['.', '.']) || dirs.contains n

/-- One element of a path met while the operating system walks it, from the
node reached so far: that node must be a directory; then the empty element and
`.` stay there, `..` goes up and a name goes down. `none` is the error of a
missing or non-directory node on the way. -/
def walkStep (dirs : List Node) (rooted : Bool) :
    Option (List (List Char)) → List Char → Option (List (List Char))
  | none, _ => none
  | some stack, c => if isDirIn dirs (rooted, stack) then some (cleanStep rooted stack c) else none

/-- The node a path names, as `open`, `stat` and `readdir` find it by walking
the directories; the empty path names nothing. -/
def resolveIn (dirs : List Node) (p : String) : Option Node :=
  if p = "" then none
  else
    ((splitSlash p.data).foldl (walkStep dirs (decide (p.data.head? = some '/'))) (some [])).map
      (fun stack => (decide (p.data.head? = some '/'), stack))

/-- The file system: the regular files with their contents, the most recently
written first, the directories that were made, and the paths that refuse to be
made or written. -/
structure FS where
  files : List (Node × Bytes)
  dirs : List Node
  deny : String → Bool

/-- Whether the node is a directory of the file system. -/
def FS.isDir (fs : FS) (n : Node) : Bool :=
  isDirIn fs.dirs n

/-- The node a path names in the file system. -/
def FS.resolve (fs : FS) (p : String) : Option Node :=
  resolveIn fs.dirs p

/-- Go `ioutil.ReadFile`. -/
def FS.ReadFile (fs : FS) (p : String) : Except Error Bytes :=
  match fs.resolve p with
  | none => .error (.other ("open " ++ p ++ ": no such file or directory"))
  | some n =>
    if fs.isDir n then .error (.other ("read " ++ p ++ ": is a directory"))
    else
      match lookupNode n fs.files with
      | some b => .ok b
      | none => .error (.other ("open " ++ p ++ ": no such file or directory"))

/-- Go `ioutil.WriteFile`: the file is made or overwritten in a directory that
exists; a directory is not written over. -/
def FS.WriteFile (fs : FS) (p : String) (data : Bytes) : Option Error × FS :=
  if fs.deny p then (some (.other ("open " ++ p ++ ": permission denied")), fs)
  else
    match fs.resolve p with
    | none => (some (.other ("open " ++ p ++ ": no such file or directory")), fs)
    | some n =>
      if fs.isDir n then (some (.other ("open " ++ p ++ ": is a directory")), fs)
      else (none, { fs with files := (n, data) :: fs.files })

/-- One element of a path met by `os.MkdirAll`, from the directories there are
and the node reached so far (`none` once a regular file was in the way): the
node the element leads to is made a directory unless it is one. -/
def mkdirStep (files : List (Node × Bytes)) (rooted : Bool) :
    List Node × Option (List (List Char)) → List Char → List Node × Option (List (List Char))
  | (dirs, none), _ => (dirs, none)
  | (dirs, some stack), c =>
    if isDirIn dirs (rooted, cleanStep rooted stack c) then (dirs, some (cleanStep rooted stack c))
    else if (lookupNode (rooted, cleanStep rooted stack c) files).isSome then (dirs, none)
    else ((rooted, cleanStep rooted stack c) :: dirs, some (cleanStep rooted stack c))

/-- Go `os.MkdirAll`: every directory on the way is made, the outermost first;
directories made before a failure stay. -/
def FS.MkdirAll (fs : FS) (p : String) : Option Error × FS :=
  if fs.deny p then (some (.other ("mkdir " ++ p ++ ": permission denied")), fs)
  else if p = "" then (some (.other "mkdir : no such file or directory"), fs)
  else
    match (splitSlash p.data).foldl (mkdirStep fs.files (decide (p.data.head? = some '/')))
        (fs.dirs, some []) with
    | (dirs, none) => (some (.other ("mkdir " ++ p ++ ": not a directory")), { fs with dirs := dirs })
    | (dirs, some _) => (none, { fs with dirs := dirs })

/-- The name under which the node `m` shows in the directory `n`, if it lies in it. -/
def childName (n m : Node) : Option String :=
  match m.2 with
  | [] => none
  | c :: stack =>
    if m.1 = n.1 ∧ stack = n.2 ∧ c ≠ ['.', '.'] then some (String.mk c) else none

/-- Go `ioutil.ReadDir`, the names of the entries, files and directories:
sorted, each once; the empty list for a directory that holds nothing. -/
def FS.ReadDir (fs : FS) (dir : String) : Except Error (List String) :=
  match fs.resolve dir with
  | none => .error (.other ("open " ++ dir ++ ": no such file or directory"))
  | some n =>
    if fs.isDir n then
      .ok (sortStrings (uniq ((fs.files.map Prod.fst ++ fs.dirs).filterMap (childName n))))
    else .error (.other ("open " ++ dir ++ ": no such file or directory"))

/-- Writes one after the other, stopped by the first that fails. -/
def FS.writeEach (fs : FS) : List (String × Bytes) → Option Error × FS
  | [] => (none, fs)
  | (p, v) :: rest =>
    match fs.WriteFile p v with
    | (some err, fs1) => (some err, fs1)
    | (none, fs1) => FS.writeEach fs1 rest

/-! ## Images and the stores (`server/registry/store`) -/

/-- A Go `map[string]V` that the code ranges over: the entries, no key twice.
For the maps of an image, which the code never assigns to, the list is in the
order the `range` visits them. -/
structure Table (V : Type) where
  entries : List (String × V)
  nodup : (entries.map Prod.fst).Nodup

/-- The empty map. -/
def Table.empty {V : Type} : Table V :=
  { entries := [], nodup := List.nodup_nil }

/-- The expression `m[k]` with its flag: `none` when the key is absent. -/
def Table.get {V : Type} (m : Table V) (k : String) : Option V :=
  lookupKey k m.entries

/-- The keys in the order of a `range`. -/
def Table.keys {V : Type} (m : Table V) : List String :=
  m.entries.map Prod.fst

/-- The expression `len(m)`. -/
def Table.len {V : Type} (m : Table V) : Nat :=
  m.entries.length

/-- One order in which a `range` over the map may visit its entries. Go leaves
the order unspecified, and it may differ from one `range` to the next. -/
def Table.Range {V : Type} (m : Table V) : Type :=
  { visit : List (String × V) // visit.Perm m.entries }

/-- The statement `m[k] = v`. Where the entry stands in the list says nothing
about a later `range` over the map: a `range` takes its order as `Table.Range`. -/
def Table.set {V : Type} (m : Table V) (k : String) (v : V) : Table V :=
  { entries := (k, v) :: m.entries.filter (fun e => e.1 ≠ k),
    nodup := by
      rw [List.map_cons, List.nodup_cons]
      constructor
      · intro h
        obtain ⟨e, he, hk⟩ := List.mem_map.mp h
        have := (List.mem_filter.mp he).2
        simp [hk] at this
      · exact m.nodup.sublist ((List.filter_sublist _).map Prod.fst) }

/-- The struct `Image`. -/
structure Image where
  Name : String
  Manifests : Table Bytes
  Blobs : Table Bytes

/-- The functions of the content-identifier libraries that `toCIDv1` calls. -/
structure CidLib where
  /-- The method `Sum` of the `cid.Prefix` with version 1, codec raw, SHA2-256
  and the default length: the identifier, or the error. -/
  Sum : Bytes → Except String Bytes
  /-- The method `StringOfBase(mbase.Base32)`: the string and the error, if any. -/
  StringOfBase : Bytes → String × Option String

/-- The function `digest`. The helper `keys` ranges over `image.Blobs` whatever
map it is given, and sorts. -/
def digest (L : Lib) (image : Image) : String :=
  let keys := fun (_ : Table Bytes) => sortStrings image.Blobs.keys
  let h : Bytes := []
  let h := (keys image.Blobs).foldl (fun h k => h ++ (image.Blobs.get k).getD []) h
  let h := (keys image.Manifests).foldl (fun h k => h ++ (image.Manifests.get k).getD []) h
  "sha256:" ++ EncodeToString (L.Sum256 h)

/-- The function `toCIDv1`: the string and the error, if any. -/
def toCIDv1 (C : CidLib) (hash : String) : String × Option Error :=
  match C.Sum (toBytes hash) with
  | .error err => ("", some (.other err))
  | .ok c => ((C.StringOfBase c).1, (C.StringOfBase c).2.map Error.other)

/-- The function `computeCID`. -/
def computeCID (L : Lib) (C : CidLib) (image : Image) : String × Option Error :=
  let hash := digest L image
  toCIDv1 C hash

/-- The closure `cidPath` of `saveCID`. -/
def saveCID.cidPath (location name ref : String) : String :=
  filepath.Join [location, "cids", name, ":" ++ ref]

/-- The function `saveCID`: the error, if any, and the file system after it. -/
def saveCID (fs : FS) (location cid : String) (image : Image) : Option Error × FS :=
  if image.Name = "" then (some (.other "image has no name"), fs)
  else
    match fs.MkdirAll (filepath.Dir (saveCID.cidPath location image.Name "/")) with
    | (some err, fs1) => (some err, fs1)
    | (none, fs1) =>
      let v := toBytes cid
      fs1.writeEach
        ((image.Manifests.keys.filter (fun k => !HasPrefix k "sha256:")).map
          (fun k => (saveCID.cidPath location image.Name k, v)))

/-- The function `saveImage`: the error, if any, and the file system after it. -/
def saveImage (fs : FS) (location cid : String) (image : Image) : Option Error × FS :=
  let blobPath := fun (cid digest : String) => filepath.Join [location, cid, "blobs", digest]
  let manifestPath := fun (cid reference : String) =>
    filepath.Join [location, cid, "manifests", reference]
  match fs.MkdirAll (manifestPath cid "/") with
  | (some err, fs1) => (some err, fs1)
  | (none, fs1) =>
    match fs1.writeEach (image.Manifests.entries.map (fun e => (manifestPath cid e.1, e.2))) with
    | (some err, fs2) => (some err, fs2)
    | (none, fs2) =>
      match fs2.MkdirAll (blobPath cid "/") with
      | (some err, fs3) => (some err, fs3)
      | (none, fs3) =>
        fs3.writeEach (image.Blobs.entries.map (fun e => (blobPath cid e.1, e.2)))

/-- The struct `fileResolver`. -/
structure fileResolver where
  root : String

/-- The function `NewFileResolver`; its error is always nil. -/
def NewFileResolver (uri : String) : fileResolver :=
  { root := filepath.Clean (TrimPrefix uri "file:") }

/-- The method `fileResolver.Resolve`, reading the file system `fs`. -/
def fileResolver.Resolve (r : fileResolver) (fs : FS) (repo reference : String) : Resolved :=
  if reference = "" then
    match fs.ReadDir (r.root ++ "/" ++ repo) with
    | .error err => .error err
    | .ok files => .ok (if files = [] then none else some files)
  else
    match fs.ReadFile (r.root ++ "/" ++ repo ++ "/:" ++ reference) with
    | .error err => .error err
    | .ok b => .ok (some [TrimSpace (ofBytes b)])

/-- The struct `FileStore`. -/
structure FileStore where
  location : String
  resolver : fileResolver

/-- The function `NewFileStore`, from the `Path` of the parsed uri. -/
def NewFileStore (path : String) : FileStore :=
  { location := path,
    resolver := NewFileResolver ("file:" ++ filepath.Join [path, "cids"]) }

/-- The method `FileStore.Save`: the returned pair and the file system after it. -/
def FileStore.Save (L : Lib) (C : CidLib) (r : FileStore) (fs : FS) (image : Option Image) :
    (String × Option Error) × FS :=
  match image with
  | none => (("", some .ErrInvalid), fs)
  | some image =>
    if image.Manifests.len = 0 then (("", some .ErrInvalid), fs)
    else
      match computeCID L C image with
      | (_, some err) => (("", some err), fs)
      | (cid, none) =>
        match saveImage fs r.location cid image with
        | (some err, fs1) => (("", some err), fs1)
        | (none, fs1) =>
          match saveCID fs1 r.location cid image with
          | (some err, fs2) => (("", some err), fs2)
          | (none, fs2) => ((cid, none), fs2)

/-- The method `FileStore.Resolve`. -/
def FileStore.Resolve (r : FileStore) (fs : FS) (name ref : String) : Resolved :=
  r.resolver.Resolve fs name ref

/-- The struct `MemoryStore`: the map `images`, the `location`, and whether its
mutex is held by a call that returned without releasing it. -/
structure MemoryStore where
  images : Table Image
  location : String
  lock : Bool

/-- The function `NewMemoryStore`, from the `Path` of the parsed uri. -/
def NewMemoryStore (path : String) : MemoryStore :=
  { images := Table.empty, location := path, lock := false }

/-- What a returning `MemoryStore.Save` leaves behind. -/
structure Saved where
  /-- The returned string. -/
  cid : String
  /-- The returned error, `none` for nil. -/
  err : Option Error
  /-- The store after the call. -/
  store : MemoryStore
  /-- The file system after the call. -/
  fs : FS

/-- The method `MemoryStore.Save`. When `saveCID` fails the method returns
without `Unlock`. -/
def MemoryStore.Save (L : Lib) (C : CidLib) (r : MemoryStore) (fs : FS)
    (image : Option Image) : Outcome Saved :=
  match image with
  | none => .ret { cid := "", err := some .ErrInvalid, store := r, fs := fs }
  | some image =>
    if image.Manifests.len = 0 then
      .ret { cid := "", err := some .ErrInvalid, store := r, fs := fs }
    else
      match computeCID L C image with
      | (_, some err) => .ret { cid := "", err := some err, store := r, fs := fs }
      | (cid, none) =>
        if r.lock then .blocks
        else
          let images := r.images.set cid image
          if r.location ≠ "" then
            match saveCID fs r.location cid image with
            | (some err, fs1) =>
              .ret { cid := "", err := some err,
                     store := { r with images := images, lock := true }, fs := fs1 }
            | (none, fs1) =>
              .ret { cid := cid, err := none, store := { r with images := images }, fs := fs1 }
          else
            .ret { cid := cid, err := none, store := { r with images := images }, fs := fs }

/-- The method `MemoryStore.HasBlob`. -/
def MemoryStore.HasBlob (r : MemoryStore) (cid digest : String) : Outcome Bool :=
  if r.lock then .blocks
  else
    match r.images.get cid with
    | some image => .ret (image.Blobs.get digest).isSome
    | none => .ret false

/-- The method `MemoryStore.GetBlob`. -/
def MemoryStore.GetBlob (r : MemoryStore) (cid digest : String) :
    Outcome (Except Error Bytes) :=
  if r.lock then .blocks
  else
    match r.images.get cid with
    | some image =>
      match image.Blobs.get digest with
      | some data => .ret (.ok data)
      | none => .ret (.error (.NotFound (cid ++ ":" ++ digest)))
    | none => .ret (.error (.NotFound (cid ++ ":" ++ digest)))

/-- The method `MemoryStore.GetManifest`. -/
def MemoryStore.GetManifest (r : MemoryStore) (cid reference : String) :
    Outcome (Except Error Bytes) :=
  if r.lock then .blocks
  else
    match r.images.get cid with
    | some image =>
      match image.Manifests.get reference with
      | some data => .ret (.ok data)
      | none => .ret (.error (.NotFound (cid ++ ":" ++ reference)))
    | none => .ret (.error (.NotFound (cid ++ ":" ++ reference)))

/-- What the content network answers to the `add` request of `AddImage`: the
field `Error` of the response, the `Hash` of each object decoded from its
output, in order, and the error that ends the decoding, `none` for `io.EOF`. -/
structure AddResponse where
  Error : Option Registry.Error
  Hashes : List String
  decodeErr : Option Registry.Error

/-- The content network as `AddImage` meets it: the error of `Send`, or the
response, for the manifests and blobs sent. -/
abbrev AddRequest := Table Bytes → Table Bytes → Except Error AddResponse

/-- The method `Client.AddImage`: the returned pair. -/
def Client.AddImage (send : AddRequest) (manifest layers : Table Bytes) :
    String × Option Error :=
  match send manifest layers with
  | .error err => ("", some err)
  | .ok resp =>
    match resp.Error with
    | some err => ("", some err)
    | none =>
      match resp.decodeErr with
      | some err => ("", some err)
      | none =>
        let final := resp.Hashes.getLastD ""
        if final = "" then ("", some (.other "no results received"))
        else (final, none)

/-- The struct `IpfsStore`; its client is the parameter `send` of `Save`. -/
structure IpfsStore where
  location : String

/-- The method `IpfsStore.Save`: the returned pair and the file system after it.
The error of `saveCID` is dropped. -/
def IpfsStore.Save (send : AddRequest) (r : IpfsStore) (fs : FS) (image : Option Image) :
    (String × Option Error) × FS :=
  match image with
  | none => (("", some .ErrInvalid), fs)
  | some image =>
    if image.Manifests.len = 0 then (("", some .ErrInvalid), fs)
    else
      let res := Client.AddImage send image.Manifests image.Blobs
      if r.location ≠ "" then (res, (saveCID fs r.location res.1 image).2)
      else (res, fs)

/-- The host behind an `ScpShell`: its file system, and the error of `Dial`, if any. -/
structure Remote where
  fs : FS
  dial : Option Error

/-- The struct `ScpShell`: its `path`; address and configuration are with the host. -/
structure ScpShell where
  path : String

/-- The method `Transfer.Mkdir`: `mkdir -p` of each directory under the shell's path. -/
def Transfer.Mkdir (path : String) (fs : FS) : List String → Option Error × FS
  | [] => (none, fs)
  | dir :: dirs =>
    match fs.MkdirAll (filepath.Join [path, dir]) with
    | (some err, fs1) => (some err, fs1)
    | (none, fs1) => Transfer.Mkdir path fs1 dirs

/-- The closure `write` of `SendImage` for each file in turn, through
`Transfer.Send`, stopped by the first that fails. -/
def Transfer.sendEach (path : String) (fs : FS) : List (String × Bytes) → Option Error × FS
  | [] => (none, fs)
  | (p, v) :: rest =>
    match fs.WriteFile (filepath.Join [path, p]) v with
    | (some err, fs1) => (some err, fs1)
    | (none, fs1) => Transfer.sendEach path fs1 rest

/-- The function `SendImage`: the returned pair and the host after it. -/
def SendImage (L : Lib) (C : CidLib) (shell : ScpShell) (remote : Remote) (location : String)
    (image : Image) : (String × Option Error) × Remote :=
  match computeCID L C image with
  | (_, some err) => (("", some err), remote)
  | (cid, none) =>
    let blobPath := fun (digest : String) => filepath.Join [location, cid, "blobs", digest]
    let manifestPath := fun (reference : String) =>
      filepath.Join [location, cid, "manifests", reference]
    let cidPath := fun (name reference : String) =>
      filepath.Join [location, "cids", name, ":" ++ reference]
    match remote.dial with
    | some err => (("", some err), remote)
    | none =>
      match Transfer.Mkdir shell.path remote.fs
          [manifestPath "/", blobPath "/", filepath.Dir (cidPath image.Name "/")] with
      | (some err, fs1) => (("", some err), { remote with fs := fs1 })
      | (none, fs1) =>
        match Transfer.sendEach shell.path fs1
            (image.Manifests.entries.map (fun e => (manifestPath e.1, e.2))) with
        | (some err, fs2) => (("", some err), { remote with fs := fs2 })
        | (none, fs2) =>
          match Transfer.sendEach shell.path fs2
              (image.Blobs.entries.map (fun e => (blobPath e.1, e.2))) with
          | (some err, fs3) => (("", some err), { remote with fs := fs3 })
          | (none, fs3) =>
            if image.Name ≠ "" then
              match Transfer.sendEach shell.path fs3
                  ((image.Manifests.keys.filter (fun k => !HasPrefix k "sha256:")).map
                    (fun k => (cidPath image.Name k, toBytes cid))) with
              | (some err, fs4) => (("", some err), { remote with fs := fs4 })
              | (none, fs4) => ((cid, none), { remote with fs := fs4 })
            else ((cid, none), { remote with fs := fs3 })

/-- The struct `ScpStore`. -/
structure ScpStore where
  shell : ScpShell

/-- The method `ScpStore.Save`: the returned pair and the host after it. -/
def ScpStore.Save (L : Lib) (C : CidLib) (r : ScpStore) (remote : Remote)
    (image : Option Image) : (String × Option Error) × Remote :=
  match image with
  | none => (("", some .ErrInvalid), remote)
  | some image =>
    if image.Manifests.len = 0 then (("", some .ErrInvalid), remote)
    else SendImage L C r.shell remote "/" image

/-! ## Instances of images and libraries, to run the stores on examples -/

/-- An image named `lib/foo` with the blobs `sha256:a -> A`, `sha256:b -> B` and
the manifests `latest -> M`, `sha256:m -> M`. -/
def exampleImage : Image :=
  { Name := "lib/foo",
    Manifests := { entries := [("latest", [77]), ("sha256:m", [77])], nodup := by decide },
    Blobs := { entries := [("sha256:a", [65]), ("sha256:b", [66])], nodup := by decide } }

/-- The same maps as `exampleImage`, visited in the other order, under another name. -/
def exampleImageSwapped : Image :=
  { Name := "other",
    Manifests := { entries := [("sha256:m", [77]), ("latest", [77])], nodup := by decide },
    Blobs := { entries := [("sha256:b", [66]), ("sha256:a", [65])], nodup := by decide } }

/-- An identifier library for examples: the identifier is the hashed bytes, its
string the letter `b` and their hexadecimal digits. -/
def exampleCidLib : CidLib :=
  { Sum := fun b => .ok b,
    StringOfBase := fun b => ("b" ++ EncodeToString b, none) }

/-- An empty file system that refuses nothing. -/
def exampleFS : FS :=
  { files := [], dirs := [], deny := fun _ => false }

/-- The guard of every `Save`: the image is nil or has no manifests. -/
def rejected (image : Option Image) : Prop :=
  image = none ∨ ∃ I, image = some I ∧ I.Manifests.len = 0

/-- A path element that `filepath.Clean` keeps as it is: not empty, not `.`, not `..`. -/
def realElem (c : List Char) : Bool :=
  c != [] && c != ['.'] && c != ['.', '.']

/-- A string whose elements between separators are all kept by `filepath.Clean`. -/
def PathSafe (s : String) : Bool :=
  (splitSlash s.data).all realElem

/-- An image named `lib` whose one manifest has the empty reference. -/
def exampleImageNoRef : Image :=
  { Name := "lib",
    Manifests := { entries := [("", [77])], nodup := by decide },
    Blobs := Table.empty }

/-- An image named `repo` with manifests under the given tags. -/
def exampleTagged (t1 t2 : String) (h : t1 ≠ t2) : Image :=
  { Name := "repo",
    Manifests := { entries := [(t1, [77]), (t2, [77])], nodup := by simp [h] },
    Blobs := Table.empty }

/-- A file system in which `saveCID` has written the side table of the tags
`v1`, `v2` under `/r1` and of the tags `v2`, `v3` under `/r2`. -/
def exampleTagsFS : FS :=
  (saveCID
    (saveCID exampleFS "/r1" "CID1" (exampleTagged "v1" "v2" (by decide))).2
    "/r2" "CID2" (exampleTagged "v2" "v3" (by decide))).2

/-- The composite of the file resolvers of `/r1/cids` and `/r2/cids` over `exampleTagsFS`. -/
def exampleComposite : resolver :=
  { resolvers :=
      [(NewFileResolver "file:/r1/cids").Resolve exampleTagsFS,
       (NewFileResolver "file:/r2/cids").Resolve exampleTagsFS] }

/-! ## The helpers of the engine, the events of a read, and the memory resolver -/

/-- The function `isBlob`. The right operand of `||` and of `&&` is evaluated
only when the left one does not decide. -/
def isBlob (req : Request) : Outcome Bool :=
  let elem := Split req.Path
  match slice elem 1 elem.length with
  | none => .panics
  | some elem =>
    match index elem ((elem.length : Int) - 1) with
    | none => .panics
    | some last =>
      match (if last = "" then slice elem 0 ((elem.length : Int) - 1) else some elem) with
      | none => .panics
      | some elem =>
        if elem.length < 3 then .ret false
        else
          match index elem ((elem.length : Int) - 2) with
          | none => .panics
          | some service =>
            if service = "blobs" then .ret true
            else
              match index elem ((elem.length : Int) - 3) with
              | none => .panics
              | some third =>
                if third = "blobs" then
                  match index elem ((elem.length : Int) - 2) with
                  | none => .panics
                  | some service => .ret (decide (service = "uploads"))
                else .ret false

/-- The loop of `blobs.get` over the digests still to copy into the map
`layers`; `none` is the early return on a digest that `contents` does not have. -/
def blobs.get.loop (b : blobs) : List String → Table Bytes → Option (Table Bytes)
  | [], layers => some layers
  | d :: digests, layers =>
    match b.contents d with
    | none => none
    | some blob => blobs.get.loop b digests (layers.set d blob)

/-- The method `blobs.get`: the returned map (`none` for nil) and flag, and the
engine after the call. The two early returns come before the `Unlock`, so the
mutex stays held after them. -/
def blobs.get (b : blobs) (repo : String) : Outcome ((Option (Table Bytes) × Bool) × blobs) :=
  if b.lock then .blocks
  else
    match b.layers repo with
    | none => .ret ((none, false), { b with lock := true })
    | some digests =>
      match blobs.get.loop b digests Table.empty with
      | none => .ret ((none, false), { b with lock := true })
      | some layers => .ret ((some layers, true), { b with lock := false })

/-- What a `HEAD` request does to the mutex of the engine and to the world
outside, as another request could see it. -/
inductive Event where
  /-- The call `b.lock.Lock()` has returned: the mutex is held. -/
  | Lock
  /-- The call `b.lock.Unlock()`: the mutex is free. -/
  | Unlock
  /-- The call `b.registry.resolveCID(repo, target)`. -/
  | resolveCID (repo target : String)
  /-- The call `http.Head(uri)`. -/
  | Head (uri : String)
deriving DecidableEq, Repr

/-- Lines 86-141 of `handle`, `HEAD`, once more, with the events of the call in
the order they happen next to the outcome. The deferred `Unlock` is the last
event of every return. -/
def blobs.handle.headT (w : World) (b : blobs) (resp : ResponseWriter) (rt : Route) :
    Outcome Reply × List Event :=
  if b.lock then (.blocks, [])
  else
    match b.contents rt.target with
    | some c =>
      let resp := resp.Set "Content-Length" (toString c.length)
      let resp := resp.Set "Docker-Content-Digest" rt.target
      let resp := resp.WriteHeader 200
      (.ret { err := none, resp := resp, state := b }, [.Lock, .Unlock])
    | none =>
      match w.resolveCID rt.repo rt.target with
      | .error e =>
        (.ret { err := some (blobUnknown e), resp := resp, state := b },
         [.Lock, .resolveCID rt.repo rt.target, .Unlock])
      | .ok cid =>
        let uri := w.ipfsURL [cid, "blobs", rt.target]
        let events := [.Lock, .resolveCID rt.repo rt.target, .Head uri, .Unlock]
        match w.Head uri with
        | .error e => (.ret { err := some (blobUnknown e), resp := resp, state := b }, events)
        | .ok ipfsResp =>
          if ipfsResp.StatusCode ≠ 200 then
            (.ret { err := some (blobUnknown ipfsResp.Status), resp := resp, state := b }, events)
          else
            match ipfsResp.ReadErr with
            | some e => (.ret { err := some (blobUnknown e), resp := resp, state := b }, events)
            | none =>
              let resp := resp.Set "Content-Length" (toString ipfsResp.Body.length)
              let resp := resp.Set "Docker-Content-Digest" rt.target
              let resp := resp.WriteHeader ipfsResp.StatusCode
              let resp := resp.Write ipfsResp.Body
              (.ret { err := none, resp := resp, state := b }, events)

/-- An event that leaves the process: the resolver lookup or a request to the gateway. -/
def Event.remote : Event → Bool
  | .resolveCID _ _ => true
  | .Head _ => true
  | _ => false

/-- Every event of a trace with whether the mutex is held when it happens, from
whether it is held before the first event. -/
def heldAt : Bool → List Event → List (Event × Bool)
  | _, [] => []
  | held, .Lock :: rest => (.Lock, held) :: heldAt true rest
  | held, .Unlock :: rest => (.Unlock, held) :: heldAt false rest
  | held, e :: rest => (e, held) :: heldAt held rest

/-- The loop of `MemoryStore.Resolve` over the entries of `images` still to
visit, and the return after it. -/
def MemoryStore.Resolve.loop (name ref : String) : List (String × Image) → Resolved
  | [] => .error (.NotFound name)
  | (cid, image) :: rest =>
    if image.Name = name then
      if ref = "" then
        .ok (if image.Manifests.keys = [] then none
             else some (image.Manifests.keys.map (fun digest => ":" ++ digest)))
      else if image.Manifests.keys.any (fun digest => digest == ref) then .ok (some [cid])
      else MemoryStore.Resolve.loop name ref rest
    else MemoryStore.Resolve.loop name ref rest

/-- The method `MemoryStore.Resolve`, with the order `visit` in which its `range`
over `r.images` meets the entries. -/
def MemoryStore.Resolve (r : MemoryStore) (visit : r.images.Range) (name ref : String) :
    Outcome Resolved :=
  if r.lock then .blocks
  else .ret (MemoryStore.Resolve.loop name ref visit.1)

/-- The segments of a URL path as `isBlob` and `handle` count them: the pieces
between the separators after the leading one, without a last empty piece. -/
def segments (path : String) : List String :=
  let elem := (Split path).tail
  if elem.getLast? = some "" then elem.dropLast else elem

/-- A world for examples in which every reference resolves to `cid` and the
gateway answers 200 with one byte. -/
def exampleGateway : World :=
  { Int63 := 42,
    resolveCID := fun _ _ => .ok "cid",
    ipfsURL := fun l => Join l,
    Head := fun _ => .ok { StatusCode := 200, Status := "200 OK", Body := [1], ReadErr := none },
    Get := fun _ => .ok { StatusCode := 200, Status := "200 OK", Body := [1], ReadErr := none } }

/-- An engine with the repositories `a`, listing the digests `d1` and `d2`, and
`b`, listing `d3`, their three blobs, and the open upload `7`. -/
def exampleTwoRepos : blobs :=
  { contents := ((GoMap.empty.set "d1" [1]).set "d2" [2]).set "d3" [3],
    uploads := GoMap.empty.set "7" [9],
    layers := (GoMap.empty.set "a" ["d1", "d2"]).set "b" ["d3"],
    lock := false }

/-- An engine whose repository `a` lists the digest `d1` that `contents` does not have. -/
def exampleDangling : blobs :=
  { blobs.new with layers := blobs.new.layers.set "a" ["d1"] }

/-- An image named `lib/foo` with the blob `sha256:c -> C` and the manifest `latest -> N`. -/
def exampleImageRetag : Image :=
  { Name := "lib/foo",
    Manifests := { entries := [("latest", [78])], nodup := by decide },
    Blobs := { entries := [("sha256:c", [67])], nodup := by decide } }

/-- The memory store without a location after `exampleImage` has been saved. -/
def exampleStore : MemoryStore :=
  match (NewMemoryStore "").Save exampleLib exampleCidLib exampleFS (some exampleImage) with
  | .ret s => s.store
  | _ => NewMemoryStore ""

/-! ## Splitting and joining paths -/

theorem splitSlash_ne_nil (s : List Char) : splitSlash s ≠ [] := by
  cases s with
  | nil => simp [splitSlash]
  | cons c cs =>
    unfold splitSlash
    split_ifs
    · simp
    · split <;> simp

theorem splitSlash_append_slash (a b : List Char) :
    splitSlash (a ++ '/' :: b) = splitSlash a ++ splitSlash b := by
  induction a with
  | nil => simp [splitSlash]
  | cons c a ih =>
    by_cases hc : c = '/'
    · simp [splitSlash, hc, ih]
    · have hne := splitSlash_ne_nil a
      cases hsa : splitSlash a with
      | nil => exact absurd hsa hne
      | cons h t => simp [splitSlash, hc, ih, hsa]

theorem splitSlash_of_not_mem (a : List Char) (h : '/' ∉ a) : splitSlash a = [a] := by
  induction a with
  | nil => rfl
  | cons c a ih =>
    simp only [List.mem_cons, not_or] at h
    have hc : c ≠ '/' := fun e => h.1 e.symm
    simp [splitSlash, hc, ih h.2]

theorem joinSlash_cons_cons (c : Char) (h : List Char) (t : List (List Char)) :
    joinSlash ((c :: h) :: t) = c :: joinSlash (h :: t) := by
  cases t <;> simp [joinSlash]

theorem joinSlash_splitSlash (s : List Char) : joinSlash (splitSlash s) = s := by
  induction s with
  | nil => rfl
  | cons c cs ih =>
    have hne := splitSlash_ne_nil cs
    cases hs : splitSlash cs with
    | nil => exact absurd hs hne
    | cons h t =>
      rw [hs] at ih
      by_cases hc : c = '/'
      · simp [splitSlash, hc, hs, joinSlash, ih]
      · simp [splitSlash, hc, hs, joinSlash_cons_cons, ih]

theorem Join_Split (s : String) : Join (Split s) = s := by
  have h : (String.data ∘ String.mk) = id := rfl
  simp [Join, Split, List.map_map, h, joinSlash_splitSlash]

theorem getElem_mid {α : Type} (A B : List α) (x : α) :
    (A ++ x :: B).get? A.length = some x := by
  induction A with
  | nil => rfl
  | cons a A ih => simpa using ih

theorem drop_take_mid {α : Type} (A M B : List α) :
    List.drop A.length (List.take (A.length + M.length) (A ++ (M ++ B))) = M := by
  induction A with
  | nil => simp
  | cons a A ih =>
    have : (a :: A).length + M.length = (A.length + M.length) + 1 := by simp; omega
    rw [this]
    simpa using ih

theorem index_of_eq {α : Type} (l A B : List α) (x : α) (k : Int)
    (hl : l = A ++ x :: B) (hk : k = (B.length : Int) + 1) :
    index l ((l.length : Int) - k) = some x := by
  subst hl hk
  have h : (((A ++ x :: B).length : Int) - ((B.length : Int) + 1)).toNat = A.length := by
    simp only [List.length_append, List.length_cons]
    push_cast
    omega
  have h1 : (0 : Int) ≤ ((A ++ x :: B).length : Int) - ((B.length : Int) + 1) := by
    simp only [List.length_append, List.length_cons]
    push_cast
    omega
  have h2 : ((A ++ x :: B).length : Int) - ((B.length : Int) + 1) < ((A ++ x :: B).length : Int) := by
    omega
  unfold index
  rw [if_pos ⟨h1, h2⟩, h]
  exact getElem_mid A B x

theorem slice_of_eq {α : Type} (l A M B : List α) (lo k : Int)
    (hl : l = A ++ M ++ B) (hlo : lo = (A.length : Int)) (hk : k = (B.length : Int)) :
    slice l lo ((l.length : Int) - k) = some M := by
  subst hl hlo hk
  have h : (((A ++ M ++ B).length : Int) - (B.length : Int)).toNat = (A ++ M).length := by
    simp only [List.length_append]
    push_cast
    omega
  have h1 : (A.length : Int) ≤ ((A ++ M ++ B).length : Int) - (B.length : Int) := by
    simp only [List.length_append]
    push_cast
    omega
  have h2 : ((A ++ M ++ B).length : Int) - (B.length : Int) ≤ ((A ++ M ++ B).length : Int) := by
    omega
  unfold slice
  rw [if_pos ⟨by omega, h1, h2⟩, h]
  simp only [List.length_append, List.append_assoc, Int.toNat_ofNat]
  rw [drop_take_mid]

theorem slice_tail {α : Type} (a : α) (l : List α) :
    slice (a :: l) 1 ((a :: l).length) = some l := by
  simp [slice]

theorem route_eq (req : Request) (e0 p0 y z : String) (ps : List String)
    (hs : Split req.Path = e0 :: p0 :: (ps ++ [y, z])) (hps : ps ≠ []) (hz : z ≠ "") :
    blobs.handle.route req = .ret (.ok
      { elem := p0 :: (ps ++ [y, z]), target := z, service := y,
        digest := req.Query "digest", contentRange := req.Header "Content-Range",
        repo := if y = "uploads" then Join ps.dropLast else Join ps }) := by
  have hlen : ¬ (p0 :: (ps ++ [y, z])).length < 4 := by
    cases ps with
    | nil => exact absurd rfl hps
    | cons a t => simp
  have i1 := index_of_eq (p0 :: (ps ++ [y, z])) (p0 :: (ps ++ [y])) [] z 1 (by simp) (by simp)
  have i2 := index_of_eq (p0 :: (ps ++ [y, z])) (p0 :: ps) [z] y 2 (by simp) (by simp)
  have s2 := slice_of_eq (p0 :: (ps ++ [y, z])) [p0] ps [y, z] 1 2 (by simp) (by simp) (by simp)
  have s3 := slice_of_eq (p0 :: (ps ++ [y, z])) [p0] ps.dropLast [ps.getLast hps, y, z] 1 3
    (by
      have := List.dropLast_append_getLast hps
      conv_lhs => rw [← this]
      simp) (by simp) (by simp)
  unfold blobs.handle.route
  simp only [hs, slice_tail, i1, hz, if_false, hlen, i2, s2, s3]
  split_ifs <;> rfl

theorem route_eq_trailing (req : Request) (e0 p0 y z : String) (ps : List String)
    (hs : Split req.Path = e0 :: p0 :: (ps ++ [y, z, ""])) (hps : ps ≠ []) :
    blobs.handle.route req = .ret (.ok
      { elem := p0 :: (ps ++ [y, z]), target := z, service := y,
        digest := req.Query "digest", contentRange := req.Header "Content-Range",
        repo := if y = "uploads" then Join ps.dropLast else Join ps }) := by
  have hlen : ¬ (p0 :: (ps ++ [y, z])).length < 4 := by
    cases ps with
    | nil => exact absurd rfl hps
    | cons a t => simp
  have i0 := index_of_eq (p0 :: (ps ++ [y, z, ""])) (p0 :: (ps ++ [y, z])) [] "" 1
    (by simp) (by simp)
  have s0 := slice_of_eq (p0 :: (ps ++ [y, z, ""])) [] (p0 :: (ps ++ [y, z])) [""] 0 1
    (by simp) (by simp) (by simp)
  have i1 := index_of_eq (p0 :: (ps ++ [y, z])) (p0 :: (ps ++ [y])) [] z 1 (by simp) (by simp)
  have i2 := index_of_eq (p0 :: (ps ++ [y, z])) (p0 :: ps) [z] y 2 (by simp) (by simp)
  have s2 := slice_of_eq (p0 :: (ps ++ [y, z])) [p0] ps [y, z] 1 2 (by simp) (by simp) (by simp)
  have s3 := slice_of_eq (p0 :: (ps ++ [y, z])) [p0] ps.dropLast [ps.getLast hps, y, z] 1 3
    (by
      have := List.dropLast_append_getLast hps
      conv_lhs => rw [← this]
      simp) (by simp) (by simp)
  unfold blobs.handle.route
  simp only [hs, slice_tail, i0, if_true, s0, hlen, if_false, i1, i2, s2, s3]
  split_ifs <;> rfl

theorem Split_append_slash (a b : String) : Split (a ++ "/" ++ b) = Split a ++ Split b := by
  have h : ("/" : String).data = ['/'] := rfl
  simp [Split, String.data_append, h, splitSlash_append_slash]

theorem Split_of_not_mem (a : String) (h : '/' ∉ a.data) : Split a = [a] := by
  simp [Split, splitSlash_of_not_mem a.data h]

theorem Split_upload_path (repo id : String) (h : '/' ∉ id.data) :
    Split ("/v2/" ++ repo ++ "/blobs/uploads/" ++ id)
      = "" :: "v2" :: ((Split repo ++ ["blobs"]) ++ ["uploads", id]) := by
  have e : "/v2/" ++ repo ++ "/blobs/uploads/" ++ id
      = (((("" ++ "/" ++ "v2") ++ "/" ++ repo) ++ "/" ++ "blobs") ++ "/" ++ "uploads")
          ++ "/" ++ id := by
    apply String.ext
    simp [String.data_append]
  rw [e]
  simp only [Split_append_slash, Split_of_not_mem id h]
  have h1 : Split "" = [""] := by decide
  have h2 : Split "v2" = ["v2"] := by decide
  have h3 : Split "blobs" = ["blobs"] := by decide
  have h4 : Split "uploads" = ["uploads"] := by decide
  simp [h1, h2, h3, h4]

theorem Split_blob_path (repo d : String) (h : '/' ∉ d.data) :
    Split ("/v2/" ++ repo ++ "/blobs/" ++ d)
      = "" :: "v2" :: (Split repo ++ ["blobs", d]) := by
  have e : "/v2/" ++ repo ++ "/blobs/" ++ d
      = ((("" ++ "/" ++ "v2") ++ "/" ++ repo) ++ "/" ++ "blobs") ++ "/" ++ d := by
    apply String.ext
    simp [String.data_append]
  rw [e]
  simp only [Split_append_slash, Split_of_not_mem d h]
  have h1 : Split "" = [""] := by decide
  have h2 : Split "v2" = ["v2"] := by decide
  have h3 : Split "blobs" = ["blobs"] := by decide
  simp [h1, h2, h3]

theorem Split_uploads_path (repo : String) :
    Split ("/v2/" ++ repo ++ "/blobs/uploads/")
      = "" :: "v2" :: (Split repo ++ ["blobs", "uploads", ""]) := by
  have e : "/v2/" ++ repo ++ "/blobs/uploads/"
      = (((("" ++ "/" ++ "v2") ++ "/" ++ repo) ++ "/" ++ "blobs") ++ "/" ++ "uploads")
          ++ "/" ++ "" := by
    apply String.ext
    simp [String.data_append]
  rw [e]
  simp only [Split_append_slash]
  have h1 : Split "" = [""] := by decide
  have h2 : Split "v2" = ["v2"] := by decide
  have h3 : Split "blobs" = ["blobs"] := by decide
  have h4 : Split "uploads" = ["uploads"] := by decide
  simp [h1, h2, h3, h4]

theorem Split_ne_nil (s : String) : Split s ≠ [] := by
  simp [Split, splitSlash_ne_nil]

/-- The route of `/v2/<repo>/blobs/uploads/<id>`. -/
theorem route_upload (req : Request) (repo id : String)
    (hp : req.Path = "/v2/" ++ repo ++ "/blobs/uploads/" ++ id)
    (hid : id ≠ "") (hs : '/' ∉ id.data) :
    blobs.handle.route req = .ret (.ok
      { elem := "v2" :: ((Split repo ++ ["blobs"]) ++ ["uploads", id]), target := id,
        service := "uploads", digest := req.Query "digest",
        contentRange := req.Header "Content-Range", repo := repo }) := by
  have h := route_eq req "" "v2" "uploads" id (Split repo ++ ["blobs"])
    (by rw [hp]; exact Split_upload_path repo id hs) (by simp) hid
  rw [h]
  simp [Join_Split]

/-- The route of `/v2/<repo>/blobs/<d>`. -/
theorem route_blob (req : Request) (repo d : String)
    (hp : req.Path = "/v2/" ++ repo ++ "/blobs/" ++ d)
    (hd : d ≠ "") (hs : '/' ∉ d.data) :
    blobs.handle.route req = .ret (.ok
      { elem := "v2" :: (Split repo ++ ["blobs", d]), target := d,
        service := "blobs", digest := req.Query "digest",
        contentRange := req.Header "Content-Range", repo := Join (Split repo) }) := by
  have h := route_eq req "" "v2" "blobs" d (Split repo)
    (by rw [hp]; exact Split_blob_path repo d hs) (Split_ne_nil repo) hd
  rw [h]
  simp

/-- The route of `/v2/<repo>/blobs/uploads/`. -/
theorem route_uploads (req : Request) (repo : String)
    (hp : req.Path = "/v2/" ++ repo ++ "/blobs/uploads/") :
    blobs.handle.route req = .ret (.ok
      { elem := "v2" :: (Split repo ++ ["blobs", "uploads"]), target := "uploads",
        service := "blobs", digest := req.Query "digest",
        contentRange := req.Header "Content-Range", repo := repo }) := by
  have h := route_eq_trailing req "" "v2" "blobs" "uploads" (Split repo)
    (by rw [hp]; exact Split_uploads_path repo) (Split_ne_nil repo)
  rw [h]
  simp [Join_Split]

/-- Every route has at least four path elements, so the slices `elem[1:len-2]`
and `elem[1:len-3]` taken for the `Location` header are in range. -/
theorem route_elem_length (req : Request) (rt : Route)
    (h : blobs.handle.route req = .ret (.ok rt)) : 4 ≤ rt.elem.length := by
  unfold blobs.handle.route at h
  simp only at h
  repeat' split at h
  all_goals first | (cases h; done) | (cases h; simp only; omega)

theorem route_location_slices (req : Request) (rt : Route)
    (h : blobs.handle.route req = .ret (.ok rt)) :
    (∃ n2, slice rt.elem 1 ((rt.elem.length : Int) - 2) = some n2) ∧
    (∃ n3, slice rt.elem 1 ((rt.elem.length : Int) - 3) = some n3) := by
  have hlen := route_elem_length req rt h
  constructor
  · unfold slice
    rw [if_pos ⟨by omega, by omega, by omega⟩]
    exact ⟨_, rfl⟩
  · unfold slice
    rw [if_pos ⟨by omega, by omega, by omega⟩]
    exact ⟨_, rfl⟩

/-! ## What one call does to the tables -/

theorem handle_contents (L : Lib) (w : World) (b : blobs) (resp : ResponseWriter)
    (req : Request) (r : Reply) (h : b.handle L w resp req = .ret r) :
    r.state.contents = b.contents ∨
      ∃ l, r.state.contents = b.contents.set (digestOf L l) l := by
  unfold blobs.handle at h
  split at h
  · cases h
  · cases h
  · cases h; exact Or.inl rfl
  · rename_i rt hrt
    split_ifs at h
    · unfold blobs.handle.head at h
      repeat' split at h
      all_goals first | (cases h; done) | (cases h; exact Or.inl rfl)
    · unfold blobs.handle.get at h
      repeat' split at h
      all_goals first | (cases h; done) | (cases h; exact Or.inl rfl)
    · unfold blobs.handle.postDigest at h
      simp only at h
      split_ifs at h
      · cases h; exact Or.inl rfl
      · cases h; exact Or.inr ⟨req.Body, rfl⟩
    · unfold blobs.handle.postStart at h
      repeat' split at h
      all_goals first | (cases h; done) | (cases h; exact Or.inl rfl)
    · unfold blobs.handle.patchRange at h
      repeat' split at h
      all_goals first | (cases h; done) | (cases h; exact Or.inl rfl)
    · unfold blobs.handle.patchStream at h
      repeat' split at h
      all_goals first | (cases h; done) | (cases h; exact Or.inl rfl)
    · cases h; exact Or.inl rfl
    · unfold blobs.handle.putDigest at h
      simp only at h
      split_ifs at h
      · cases h; exact Or.inl rfl
      · cases h; exact Or.inr ⟨_, rfl⟩
    · cases h; exact Or.inl rfl

theorem foldl_delete_some {V : Type} (ds : List String) (m : GoMap V) (k : String) (v : V)
    (h : (ds.foldl GoMap.delete m) k = some v) : m k = some v := by
  induction ds generalizing m with
  | nil => exact h
  | cons d ds ih =>
    have h1 := ih (m.delete d) h
    unfold GoMap.delete at h1
    split_ifs at h1
    exact h1

theorem remove_contents (b b1 : blobs) (repo : String) (h : b.remove repo = .ret b1)
    (k : String) (v : Bytes) (hk : b1.contents k = some v) : b.contents k = some v := by
  unfold blobs.remove at h
  split_ifs at h
  split at h
  · cases h; exact hk
  · cases h; exact foldl_delete_some _ _ _ _ hk

/-- Digest integrity is kept by every call. -/
theorem step_digest_integrity (L : Lib) (b : blobs) (c : Call)
    (hb : ∀ k v, b.contents k = some v → k = digestOf L v) :
    ∀ k v, (b.step L c).contents k = some v → k = digestOf L v := by
  intro k v hk
  cases c with
  | handle w resp req =>
    cases hr : b.handle L w resp req with
    | ret r =>
      have hs : b.step L (.handle w resp req) = r.state := by simp [blobs.step, hr]
      rw [hs] at hk
      rcases handle_contents L w b resp req r hr with h | ⟨l, h⟩
      · rw [h] at hk; exact hb k v hk
      · rw [h] at hk
        unfold GoMap.set at hk
        split_ifs at hk with e
        · cases hk; exact e
        · exact hb k v hk
    | panics =>
      have hs : b.step L (.handle w resp req) = b := by simp [blobs.step, hr]
      rw [hs] at hk; exact hb k v hk
    | blocks =>
      have hs : b.step L (.handle w resp req) = b := by simp [blobs.step, hr]
      rw [hs] at hk; exact hb k v hk
  | remove repo =>
    cases hr : b.remove repo with
    | ret b1 =>
      have hs : b.step L (.remove repo) = b1 := by simp [blobs.step, hr]
      rw [hs] at hk
      exact hb k v (remove_contents b b1 repo hr k v hk)
    | panics =>
      have hs : b.step L (.remove repo) = b := by simp [blobs.step, hr]
      rw [hs] at hk; exact hb k v hk
    | blocks =>
      have hs : b.step L (.remove repo) = b := by simp [blobs.step, hr]
      rw [hs] at hk; exact hb k v hk

theorem run_digest_integrity (L : Lib) (cs : List Call) (b : blobs)
    (hb : ∀ k v, b.contents k = some v → k = digestOf L v) :
    ∀ k v, (b.run L cs).contents k = some v → k = digestOf L v := by
  induction cs generalizing b with
  | nil => exact hb
  | cons c cs ih => exact ih (b.step L c) (step_digest_integrity L b c hb)

/-- A request that `handle` treats as a `PATCH` to the upload `id`. -/
theorem patch_slot (L : Lib) (w : World) (b : blobs) (req : Request) (rt : Route)
    (hm : req.Method = "PATCH") (hr : blobs.handle.route req = .ret (.ok rt))
    (hsvc : rt.service = "uploads") :
    (stateAfter b (b.handle L w ResponseWriter.fresh req)).uploads.at rt.target
      = b.uploads.at rt.target
          ++ (if accepted (b.handle L w ResponseWriter.fresh req) then req.Body else []) := by
  unfold blobs.handle
  simp only [hr, hm, hsvc]
  by_cases hcr : rt.contentRange = ""
  · simp [hcr, blobs.handle.patchStream]
    cases hl : b.lock
    · simp [accepted, stateAfter]
      cases hu : b.uploads rt.target with
      | some s => simp [accepted, stateAfter, GoMap.at, hu]
      | none =>
        cases hsl : slice rt.elem 1 ((rt.elem.length : Int) - 3) with
        | none => simp [accepted, stateAfter, GoMap.at, hu]
        | some name =>
          simp [accepted, stateAfter, GoMap.at, hu, GoMap.set, ResponseWriter.WriteHeader,
            ResponseWriter.Set, ResponseWriter.fresh]
    · simp [accepted, stateAfter]
  · simp [hcr, blobs.handle.patchRange]
    cases hsc : L.Sscanf rt.contentRange with
    | error e => simp [accepted, stateAfter]
    | ok p =>
      obtain ⟨start, stop⟩ := p
      cases hl : b.lock
      · by_cases hst : start = ((b.uploads.at rt.target).length : Int)
        · cases hsl : slice rt.elem 1 ((rt.elem.length : Int) - 3) with
          | none => simp [accepted, stateAfter, hst]
          | some name =>
            simp [accepted, stateAfter, hst, GoMap.set, ResponseWriter.WriteHeader,
              ResponseWriter.Set, ResponseWriter.fresh, GoMap.at]
        · simp [accepted, stateAfter, hst]
      · simp [accepted, stateAfter]

theorem concatAll_length (ps : List Bytes) :
    (concatAll ps).length = (ps.map List.length).sum := by
  induction ps with
  | nil => rfl
  | cons p ps ih => simp [concatAll, ih]

theorem serve_slot (L : Lib) (id : String) (reqs : List (World × Request)) (b : blobs)
    (h : PatchesTo id reqs) :
    (serve L b reqs).1.uploads.at id = b.uploads.at id ++ concatAll (serve L b reqs).2 := by
  induction reqs generalizing b with
  | nil => simp [serve, concatAll]
  | cons p rest ih =>
    obtain ⟨w, req⟩ := p
    obtain ⟨hm, rt, hr, hsvc, hid⟩ := h (w, req) (List.mem_cons_self _ _)
    have hrest : PatchesTo id rest := fun q hq => h q (List.mem_cons_of_mem _ hq)
    have hp := patch_slot L w b req rt hm hr hsvc
    rw [hid] at hp
    simp only [serve]
    rw [ih _ hrest, hp]
    split_ifs <;> simp [concatAll]

theorem serve_append (L : Lib) (pre post : List (World × Request)) (b : blobs) :
    serve L b (pre ++ post)
      = ((serve L (serve L b pre).1 post).1,
         (serve L b pre).2 ++ (serve L (serve L b pre).1 post).2) := by
  induction pre generalizing b with
  | nil => simp [serve]
  | cons p pre ih =>
    obtain ⟨w, req⟩ := p
    have e : ∀ l, serve L b ((w, req) :: l)
        = ((serve L (stateAfter b (b.handle L w ResponseWriter.fresh req)) l).1,
           if accepted (b.handle L w ResponseWriter.fresh req)
           then req.Body :: (serve L (stateAfter b (b.handle L w ResponseWriter.fresh req)) l).2
           else (serve L (stateAfter b (b.handle L w ResponseWriter.fresh req)) l).2) :=
      fun _ => rfl
    rw [List.cons_append, e, e, ih]
    split_ifs <;> simp

theorem header_WriteHeader (r : ResponseWriter) (c : Nat) (k : String) :
    (r.WriteHeader c).header k = r.header k := by
  unfold ResponseWriter.WriteHeader
  split <;> rfl

theorem status_WriteHeader (r : ResponseWriter) (c : Nat) (h : r.status = none) :
    (r.WriteHeader c).status = some c := by
  unfold ResponseWriter.WriteHeader
  rw [h]

theorem header_Set_same (r : ResponseWriter) (k v : String) :
    (r.Set k v).header k = some v := by
  simp [ResponseWriter.Set, GoMap.set]

theorem header_Set_other (r : ResponseWriter) (k v x : String) (h : x ≠ k) :
    (r.Set k v).header x = r.header x := by
  simp [ResponseWriter.Set, GoMap.set, h]

theorem status_Set (r : ResponseWriter) (k v : String) :
    (r.Set k v).status = r.status := rfl

theorem digestOf_ne_empty (L : Lib) (p : Bytes) : digestOf L p ≠ "" := by
  intro h
  have := congrArg String.data h
  simp [digestOf, String.data_append] at this

theorem hextable_getD_ne_slash (i : Nat) : hextable.getD i '0' ≠ '/' := by
  by_cases h : i < 16
  · interval_cases i <;> decide
  · have : hextable.length ≤ i := by simp [hextable]; omega
    rw [List.getD_eq_default _ _ this]
    decide

theorem hexChars_no_slash (p : Bytes) : '/' ∉ hexChars p := by
  induction p with
  | nil => simp [hexChars]
  | cons v rest ih =>
    simp only [hexChars, List.mem_cons, not_or]
    exact ⟨fun e => hextable_getD_ne_slash _ e.symm,
      fun e => hextable_getD_ne_slash _ e.symm, ih⟩

theorem digestOf_no_slash (L : Lib) (p : Bytes) : '/' ∉ (digestOf L p).data := by
  have h : '/' ∉ ("sha256:" : String).data := by decide
  simp only [digestOf, String.data_append, List.mem_append, not_or, EncodeToString]
  exact ⟨h, hexChars_no_slash _⟩

/-- A `HEAD` of `/v2/<repo>/blobs/<d>` when `contents[d]` exists and the mutex is free. -/
theorem head_local_hit (L : Lib) (w : World) (b : blobs) (resp : ResponseWriter)
    (req : Request) (repo d : String) (v : Bytes)
    (hm : req.Method = "HEAD") (hp : req.Path = "/v2/" ++ repo ++ "/blobs/" ++ d)
    (hd : d ≠ "") (hslash : '/' ∉ d.data)
    (hc : b.contents d = some v) (hl : b.lock = false) :
    b.handle L w resp req = .ret
      { err := none,
        resp := ((resp.Set "Content-Length" (toString v.length)).Set
                  "Docker-Content-Digest" d).WriteHeader 200,
        state := b } := by
  have hr := route_blob req repo d hp hd hslash
  unfold blobs.handle
  simp only [hr, hm]
  simp [blobs.handle.head, hl, hc]

/-- What a committing request leaves behind. -/
theorem commit_state (L : Lib) (w : World) (b : blobs) (resp : ResponseWriter)
    (req : Request) (rt : Route) (r : Reply)
    (hmeth : req.Method = "PUT" ∨ req.Method = "POST")
    (hr : blobs.handle.route req = .ret (.ok rt))
    (hq : rt.digest ≠ "")
    (hret : b.handle L w resp req = .ret r) (hok : r.err = none) :
    r.state.lock = false ∧
    r.state.contents rt.digest
      = some (if req.Method = "PUT" then b.uploads.at rt.target ++ req.Body else req.Body) ∧
    rt.digest
      = digestOf L (if req.Method = "PUT" then b.uploads.at rt.target ++ req.Body
                    else req.Body) := by
  unfold blobs.handle at hret
  simp only [hr] at hret
  rcases hmeth with hm | hm
  · simp [hm, hq] at hret
    by_cases hsvc : rt.service = "uploads"
    · simp [hsvc, blobs.handle.putDigest] at hret
      cases hl : b.lock
      · by_cases he : digestOf L (b.uploads.at rt.target ++ req.Body) = rt.digest
        · simp [hl, he] at hret
          subst hret
          simp [hm, hl, he, GoMap.set]
        · simp [hl, he] at hret
          rw [← hret] at hok
          simp at hok
      · simp [hl] at hret
    · simp [hsvc] at hret
      rw [← hret] at hok
      simp at hok
  · simp [hm, hq] at hret
    by_cases htg : rt.target = "uploads"
    · simp [htg, blobs.handle.postDigest] at hret
      by_cases he : digestOf L req.Body = rt.digest
      · cases hl : b.lock
        · simp [hl, he] at hret
          subst hret
          simp [hm, hl, he, GoMap.set]
        · simp [hl, he] at hret
      · simp [he] at hret
        rw [← hret] at hok
        simp at hok
    · simp [htg] at hret
      rw [← hret] at hok
      simp at hok

theorem route_digest (req : Request) (rt : Route)
    (h : blobs.handle.route req = .ret (.ok rt)) : rt.digest = req.Query "digest" := by
  unfold blobs.handle.route at h
  simp only at h
  repeat' split at h
  all_goals first | (cases h; done) | (cases h; rfl)

/-- The monolithic `POST` whose digest parameter is the digest of its body. -/
theorem monolithic_commit (L : Lib) (w : World) (b : blobs) (resp : ResponseWriter)
    (req : Request) (repo : String)
    (hm : req.Method = "POST") (hp : req.Path = "/v2/" ++ repo ++ "/blobs/uploads/")
    (hq : req.Query "digest" = digestOf L req.Body) (hl : b.lock = false) :
    b.handle L w resp req = .ret
      { err := none,
        resp := (resp.Set "Docker-Content-Digest" (digestOf L req.Body)).WriteHeader 201,
        state := { b with
          contents := b.contents.set (digestOf L req.Body) req.Body,
          layers := b.layers.set repo (b.layers.at repo ++ [digestOf L req.Body]) } } := by
  have hr := route_uploads req repo hp
  unfold blobs.handle
  simp only [hr, hm, hq]
  simp [digestOf_ne_empty, blobs.handle.postDigest, hl]

/-! ## The claims about the blob engine -/

/-- C1. Digest integrity: from the empty engine, after any sequence of `handle`
requests and `remove` calls, every entry `contents[k] = v` has
`k = "sha256:" + hex(sha256(v))`. -/
theorem C1_digest_integrity (L : Lib) (cs : List Call) (k : String) (v : Bytes)
    (h : (blobs.new.run L cs).contents k = some v) : k = digestOf L v :=
  run_digest_integrity L cs blobs.new (fun _ _ h0 => by cases h0) k v h

/-- C1 at a monolithic upload of the byte `01` into repository `a`. -/
theorem C1_digest_integrity_witness :
    (blobs.new.run exampleLib
        [Call.handle exampleWorld ResponseWriter.fresh
          (mkRequest "POST" "/v2/a/blobs/uploads/" "sha256:01" "" [1])]).contents "sha256:01"
      = some [1] ∧ "sha256:01" = digestOf exampleLib [1] :=
  ⟨by rfl, C1_digest_integrity exampleLib
    [Call.handle exampleWorld ResponseWriter.fresh
      (mkRequest "POST" "/v2/a/blobs/uploads/" "sha256:01" "" [1])] "sha256:01" [1] (by rfl)⟩

/-- C2. Range consistency: a `PATCH` to the upload `id` whose `Content-Range`
scans as `start-end` with `start` different from the current length of
`uploads[id]` returns 416 `BLOB_UPLOAD_UNKNOWN` and leaves the three tables as
they were (the mutex being free when the request arrives). -/
theorem C2_range_mismatch (L : Lib) (w : World) (b : blobs) (resp : ResponseWriter)
    (req : Request) (rt : Route) (id : String) (start stop : Int)
    (hm : req.Method = "PATCH")
    (hr : blobs.handle.route req = .ret (.ok rt))
    (hsvc : rt.service = "uploads") (hid : rt.target = id)
    (hcr : rt.contentRange ≠ "")
    (hscan : L.Sscanf rt.contentRange = .ok (start, stop))
    (hne : start ≠ ((b.uploads.at id).length : Int))
    (hl : b.lock = false) :
    ∃ r, b.handle L w resp req = .ret r ∧
      r.err = some { Status := 416, Code := "BLOB_UPLOAD_UNKNOWN",
                     Message := "Your content range doesn't match what we have" } ∧
      r.state.contents = b.contents ∧ r.state.uploads = b.uploads ∧
      r.state.layers = b.layers := by
  subst hid
  refine ⟨{ err := _, resp := resp, state := b }, ?_, rfl, rfl, rfl, rfl⟩
  unfold blobs.handle
  simp [hr, hm, hsvc, hcr, blobs.handle.patchRange, hscan, hl, hne]

/-- C2 on the empty engine: a `PATCH` of `/v2/a/blobs/uploads/7` with
`Content-Range: 3-4`. -/
theorem C2_range_mismatch_witness :
    ∃ r, blobs.new.handle exampleLib exampleWorld ResponseWriter.fresh
        (mkRequest "PATCH" "/v2/a/blobs/uploads/7" "" "3-4" [1]) = .ret r ∧
      r.err = some { Status := 416, Code := "BLOB_UPLOAD_UNKNOWN",
                     Message := "Your content range doesn't match what we have" } ∧
      r.state.contents = blobs.new.contents ∧ r.state.uploads = blobs.new.uploads ∧
      r.state.layers = blobs.new.layers :=
  C2_range_mismatch exampleLib exampleWorld blobs.new ResponseWriter.fresh
    (mkRequest "PATCH" "/v2/a/blobs/uploads/7" "" "3-4" [1])
    { elem := ["v2", "a", "blobs", "uploads", "7"], target := "7", service := "uploads",
      digest := "", contentRange := "3-4", repo := "a" }
    "7" 3 4 rfl rfl rfl rfl (by decide) rfl (by decide) rfl

/-- C3. Upload monotonicity: for a series of `PATCH` requests to one upload id,
started where the id has no slot, the slot at the end is the concatenation, in
order, of the bodies of the accepted requests; its length is the sum of their
lengths; and the slot after any initial part of the series is no longer than the
slot at the end. -/
theorem C3_upload_monotone (L : Lib) (b : blobs) (id : String)
    (reqs : List (World × Request))
    (hnone : b.uploads id = none) (hreqs : PatchesTo id reqs) :
    (serve L b reqs).1.uploads.at id = concatAll (serve L b reqs).2 ∧
    ((serve L b reqs).1.uploads.at id).length
      = ((serve L b reqs).2.map List.length).sum ∧
    ∀ pre post, reqs = pre ++ post →
      ((serve L b pre).1.uploads.at id).length
        ≤ ((serve L b reqs).1.uploads.at id).length := by
  have h0 : b.uploads.at id = [] := by simp [GoMap.at, hnone]
  have h1 : (serve L b reqs).1.uploads.at id = concatAll (serve L b reqs).2 := by
    rw [serve_slot L id reqs b hreqs, h0]; rfl
  refine ⟨h1, ?_, ?_⟩
  · rw [h1, concatAll_length]
  · intro pre post hsplit
    subst hsplit
    have hpost : PatchesTo id post := fun q hq => hreqs q (List.mem_append_right _ hq)
    rw [serve_append]
    simp only
    rw [serve_slot L id post _ hpost]
    simp

/-- C3 on the empty engine and the series `exampleSeries`: the slot ends as the
bytes 1 2 3. -/
theorem C3_upload_monotone_witness :
    (serve exampleLib blobs.new exampleSeries).1.uploads.at "7" = [1, 2, 3] ∧
    (serve exampleLib blobs.new exampleSeries).1.uploads.at "7"
      = concatAll (serve exampleLib blobs.new exampleSeries).2 ∧
    ((serve exampleLib blobs.new exampleSeries).1.uploads.at "7").length
      = ((serve exampleLib blobs.new exampleSeries).2.map List.length).sum ∧
    ∀ pre post, exampleSeries = pre ++ post →
      ((serve exampleLib blobs.new pre).1.uploads.at "7").length
        ≤ ((serve exampleLib blobs.new exampleSeries).1.uploads.at "7").length :=
  ⟨by rfl, C3_upload_monotone exampleLib blobs.new "7" exampleSeries rfl (by
    intro p hp
    simp only [exampleSeries, List.mem_cons, List.mem_singleton, List.not_mem_nil,
      or_false] at hp
    rcases hp with rfl | rfl | rfl
    · exact ⟨rfl, _, rfl, rfl, rfl⟩
    · exact ⟨rfl, _, rfl, rfl, rfl⟩
    · exact ⟨rfl, _, rfl, rfl, rfl⟩)⟩

/-- C4. After an accepted `PATCH` (with or without `Content-Range`) the slot
stored for the upload id has length `e + 1` where `Range: 0-<e>` is the header
of the response, the `Location` header is built from the same upload id, and a
fresh response writer carries status 204. -/
theorem C4_patch_range_header (L : Lib) (w : World) (b : blobs) (resp : ResponseWriter)
    (req : Request) (rt : Route) (id : String) (r : Reply)
    (hm : req.Method = "PATCH")
    (hr : blobs.handle.route req = .ret (.ok rt))
    (hsvc : rt.service = "uploads") (hid : rt.target = id)
    (hret : b.handle L w resp req = .ret r) (hok : r.err = none) :
    ∃ (slot : Bytes) (e : Int) (name : List String),
      r.state.uploads id = some slot ∧
      r.resp.header "Range" = some ("0-" ++ toString e) ∧
      (slot.length : Int) = e + 1 ∧
      slice rt.elem 1 ((rt.elem.length : Int) - 3) = some name ∧
      r.resp.header "Location"
        = some ("/" ++ L.pathJoin ["v2", L.pathJoin name, "blobs/uploads", id]) ∧
      (resp.status = none → r.resp.status = some 204) := by
  subst hid
  have hRL : ("Location" : String) ≠ "Range" := by decide
  unfold blobs.handle at hret
  simp only [hr, hm, hsvc] at hret
  by_cases hcr : rt.contentRange = ""
  · simp [hcr, blobs.handle.patchStream] at hret
    cases hl : b.lock
    · cases hu : b.uploads rt.target with
      | some s =>
        simp [hl, hu] at hret
        rw [← hret] at hok
        simp at hok
      | none =>
        cases hsl : slice rt.elem 1 ((rt.elem.length : Int) - 3) with
        | none => simp [hl, hu, hsl] at hret
        | some name =>
          simp [hl, hu, hsl] at hret
          subst hret
          refine ⟨req.Body, (req.Body.length : Int) - 1, name, ?_, ?_, ?_, rfl, ?_, ?_⟩
          · simp [GoMap.set]
          · simp only [header_WriteHeader, header_Set_same]
          · omega
          · simp only [header_WriteHeader, header_Set_other _ _ _ _ hRL, header_Set_same]
          · intro hs
            exact status_WriteHeader _ _ (by simp [status_Set, hs])
    · simp [hl] at hret
  · simp [hcr, blobs.handle.patchRange] at hret
    cases hsc : L.Sscanf rt.contentRange with
    | error e =>
      simp [hsc] at hret
      rw [← hret] at hok
      simp at hok
    | ok p =>
      obtain ⟨start, stop⟩ := p
      cases hl : b.lock
      · by_cases hst : start = ((b.uploads.at rt.target).length : Int)
        · cases hsl : slice rt.elem 1 ((rt.elem.length : Int) - 3) with
          | none => simp [hsc, hl, hst, hsl] at hret
          | some name =>
            simp [hsc, hl, hst, hsl] at hret
            subst hret
            refine ⟨b.uploads.at rt.target ++ req.Body,
              ((b.uploads.at rt.target ++ req.Body).length : Int) - 1, name,
              ?_, ?_, ?_, rfl, ?_, ?_⟩
            · simp [GoMap.set]
            · simp only [header_WriteHeader, header_Set_same]
              simp
            · omega
            · simp only [header_WriteHeader, header_Set_other _ _ _ _ hRL, header_Set_same]
            · intro hs
              exact status_WriteHeader _ _ (by simp [status_Set, hs])
        · simp [hsc, hl, hst] at hret
          rw [← hret] at hok
          simp at hok
      · simp [hsc, hl] at hret

/-- C4 on the empty engine: `PATCH /v2/a/blobs/uploads/7` with `Content-Range: 0-1`
and two bytes answers `Range: 0-1` for a slot of length 2. -/
theorem C4_patch_range_header_witness :
    ∃ r, blobs.new.handle exampleLib exampleWorld ResponseWriter.fresh
        (mkRequest "PATCH" "/v2/a/blobs/uploads/7" "" "0-1" [1, 2]) = .ret r ∧
      r.resp.header "Range" = some "0-1" ∧
      ∃ (slot : Bytes) (e : Int) (name : List String),
        r.state.uploads "7" = some slot ∧
        r.resp.header "Range" = some ("0-" ++ toString e) ∧
        (slot.length : Int) = e + 1 ∧
        slice ["v2", "a", "blobs", "uploads", "7"] 1
          ((["v2", "a", "blobs", "uploads", "7"].length : Int) - 3) = some name ∧
        r.resp.header "Location"
          = some ("/" ++ exampleLib.pathJoin
              ["v2", exampleLib.pathJoin name, "blobs/uploads", "7"]) ∧
        (ResponseWriter.fresh.status = none → r.resp.status = some 204) :=
  ⟨{ err := none,
     resp := ((ResponseWriter.fresh.Set "Location" "/v2/a/blobs/uploads/7").Set
                "Range" "0-1").WriteHeader 204,
     state := { blobs.new with uploads := blobs.new.uploads.set "7" [1, 2] } },
   by rfl, by rfl,
   C4_patch_range_header exampleLib exampleWorld blobs.new ResponseWriter.fresh
    (mkRequest "PATCH" "/v2/a/blobs/uploads/7" "" "0-1" [1, 2])
    { elem := ["v2", "a", "blobs", "uploads", "7"], target := "7", service := "uploads",
      digest := "", contentRange := "0-1", repo := "a" }
    "7" _ rfl rfl rfl rfl rfl rfl⟩

/-- C5. A `PUT` of `/v2/<repo>/blobs/uploads/<id>` whose digest parameter `d` is
the digest of `uploads[id] ++ body` returns no error with
`Docker-Content-Digest: d` and status 201; afterwards `contents[d]` is
`uploads[id] ++ body`, `layers[repo]` is the old list with `d` appended, the slot
of `id` is gone, and every other entry of the three tables is as before. -/
theorem C5_put_commit (L : Lib) (w : World) (b : blobs) (resp : ResponseWriter)
    (req : Request) (repo id d : String)
    (hm : req.Method = "PUT")
    (hp : req.Path = "/v2/" ++ repo ++ "/blobs/uploads/" ++ id)
    (hid : id ≠ "") (hslash : '/' ∉ id.data)
    (hq : req.Query "digest" = d)
    (hd : digestOf L (b.uploads.at id ++ req.Body) = d)
    (hl : b.lock = false) :
    ∃ r, b.handle L w resp req = .ret r ∧ r.err = none ∧
      r.resp.header "Docker-Content-Digest" = some d ∧
      (resp.status = none → r.resp.status = some 201) ∧
      r.state.contents d = some (b.uploads.at id ++ req.Body) ∧
      r.state.layers repo = some (b.layers.at repo ++ [d]) ∧
      r.state.uploads id = none ∧
      (∀ k, k ≠ d → r.state.contents k = b.contents k) ∧
      (∀ k, k ≠ repo → r.state.layers k = b.layers k) ∧
      (∀ k, k ≠ id → r.state.uploads k = b.uploads k) := by
  have hr := route_upload req repo id hp hid hslash
  have hne : d ≠ "" := by rw [← hd]; exact digestOf_ne_empty L _
  unfold blobs.handle
  simp only [hr, hm, hq]
  simp [hne, blobs.handle.putDigest, hl, hd]
  refine ⟨?_, ?_, ?_, ?_, ?_, ?_, ?_, ?_⟩
  · simp only [header_WriteHeader, header_Set_same]
  · intro hs
    exact status_WriteHeader _ _ (by simp [status_Set, hs])
  · simp [GoMap.set]
  · simp [GoMap.set]
  · simp [GoMap.delete]
  · intro k hk; simp [GoMap.set, hk]
  · intro k hk; simp [GoMap.set, hk]
  · intro k hk; simp [GoMap.delete, hk]

/-- C6. A `PUT` to the upload `id` whose non-empty digest parameter differs from
the digest of `uploads[id] ++ body` returns 400 `DIGEST_INVALID` and leaves the
engine, the slot of `id` included, exactly as it was. -/
theorem C6_put_mismatch (L : Lib) (w : World) (b : blobs) (resp : ResponseWriter)
    (req : Request) (rt : Route) (id : String)
    (hm : req.Method = "PUT")
    (hr : blobs.handle.route req = .ret (.ok rt))
    (hsvc : rt.service = "uploads") (hid : rt.target = id)
    (hne : rt.digest ≠ "")
    (hmis : rt.digest ≠ digestOf L (b.uploads.at id ++ req.Body))
    (hl : b.lock = false) :
    ∃ r, b.handle L w resp req = .ret r ∧
      r.err = some { Status := 400, Code := "DIGEST_INVALID",
                     Message := "digest does not match contents" } ∧
      r.state.uploads = b.uploads ∧ r.state.uploads id = b.uploads id ∧
      r.state.contents = b.contents ∧ r.state.layers = b.layers := by
  subst hid
  refine ⟨{ err := _, resp := resp, state := b }, ?_, rfl, rfl, rfl, rfl, rfl⟩
  unfold blobs.handle
  simp only [hr, hm, hsvc]
  simp [hne, blobs.handle.putDigest, hl, Ne.symm hmis]

/-- C7. A `POST` of `/v2/<repo>/blobs/uploads/` with the digest parameter `d` and
body `p` returns no error exactly when `d` is the digest of `p`; then the
response has `Docker-Content-Digest: d` and status 201, `contents[d]` is `p` and
`d` is appended to `layers[repo]`; otherwise the error is 400 `DIGEST_INVALID`
and `contents` and `layers` are unchanged; `uploads` is unchanged in both cases. -/
theorem C7_monolithic_upload (L : Lib) (w : World) (b : blobs) (resp : ResponseWriter)
    (req : Request) (repo d : String)
    (hm : req.Method = "POST")
    (hp : req.Path = "/v2/" ++ repo ++ "/blobs/uploads/")
    (hq : req.Query "digest" = d) (hd : d ≠ "")
    (hl : b.lock = false) :
    ∃ r, b.handle L w resp req = .ret r ∧
      r.state.uploads = b.uploads ∧
      (r.err = none ↔ d = digestOf L req.Body) ∧
      (d = digestOf L req.Body →
        r.err = none ∧
        r.resp.header "Docker-Content-Digest" = some d ∧
        (resp.status = none → r.resp.status = some 201) ∧
        r.state.contents = b.contents.set d req.Body ∧
        r.state.contents d = some req.Body ∧
        r.state.layers = b.layers.set repo (b.layers.at repo ++ [d]) ∧
        r.state.layers repo = some (b.layers.at repo ++ [d])) ∧
      (d ≠ digestOf L req.Body →
        r.err = some { Status := 400, Code := "DIGEST_INVALID",
                       Message := "digest does not match contents" } ∧
        r.state.contents = b.contents ∧ r.state.layers = b.layers) := by
  have hr := route_uploads req repo hp
  unfold blobs.handle
  simp only [hr, hm, hq]
  by_cases he : d = digestOf L req.Body
  · simp [hd, blobs.handle.postDigest, hl, ← he]
    refine ⟨?_, ?_, ?_, ?_⟩
    · simp only [header_WriteHeader, header_Set_same]
    · intro hs
      exact status_WriteHeader _ _ (by simp [status_Set, hs])
    · simp [GoMap.set]
    · simp [GoMap.set]
  · simp [hd, blobs.handle.postDigest, he, Ne.symm he]

/-- C5 on `exampleOpen`: the upload `7` holding 1 2 is committed with a last byte 3. -/
theorem C5_put_commit_witness :
    ∃ r, exampleOpen.handle exampleLib exampleWorld ResponseWriter.fresh
        (mkRequest "PUT" "/v2/a/blobs/uploads/7" "sha256:010203" "" [3]) = .ret r ∧
      r.err = none ∧
      r.resp.header "Docker-Content-Digest" = some "sha256:010203" ∧
      (ResponseWriter.fresh.status = none → r.resp.status = some 201) ∧
      r.state.contents "sha256:010203" = some (exampleOpen.uploads.at "7" ++ [3]) ∧
      r.state.layers "a" = some (exampleOpen.layers.at "a" ++ ["sha256:010203"]) ∧
      r.state.uploads "7" = none ∧
      (∀ k, k ≠ "sha256:010203" → r.state.contents k = exampleOpen.contents k) ∧
      (∀ k, k ≠ "a" → r.state.layers k = exampleOpen.layers k) ∧
      (∀ k, k ≠ "7" → r.state.uploads k = exampleOpen.uploads k) :=
  C5_put_commit exampleLib exampleWorld exampleOpen ResponseWriter.fresh
    (mkRequest "PUT" "/v2/a/blobs/uploads/7" "sha256:010203" "" [3]) "a" "7" "sha256:010203"
    rfl rfl (by decide) (by decide) rfl (by decide) rfl

/-- C6 on `exampleOpen`: a `PUT` to the upload `7` with the digest `sha256:00`. -/
theorem C6_put_mismatch_witness :
    ∃ r, exampleOpen.handle exampleLib exampleWorld ResponseWriter.fresh
        (mkRequest "PUT" "/v2/a/blobs/uploads/7" "sha256:00" "" [3]) = .ret r ∧
      r.err = some { Status := 400, Code := "DIGEST_INVALID",
                     Message := "digest does not match contents" } ∧
      r.state.uploads = exampleOpen.uploads ∧
      r.state.uploads "7" = exampleOpen.uploads "7" ∧
      r.state.contents = exampleOpen.contents ∧ r.state.layers = exampleOpen.layers :=
  C6_put_mismatch exampleLib exampleWorld exampleOpen ResponseWriter.fresh
    (mkRequest "PUT" "/v2/a/blobs/uploads/7" "sha256:00" "" [3])
    { elem := ["v2", "a", "blobs", "uploads", "7"], target := "7", service := "uploads",
      digest := "sha256:00", contentRange := "", repo := "a" }
    "7" rfl rfl rfl rfl (by decide) (by decide) rfl

/-- C7 on the empty engine: the byte `01` posted to repository `a` under its digest. -/
theorem C7_monolithic_upload_witness :
    ∃ r, blobs.new.handle exampleLib exampleWorld ResponseWriter.fresh
        (mkRequest "POST" "/v2/a/blobs/uploads/" "sha256:01" "" [1]) = .ret r ∧
      r.state.uploads = blobs.new.uploads ∧
      (r.err = none ↔ "sha256:01" = digestOf exampleLib [1]) ∧
      ("sha256:01" = digestOf exampleLib [1] →
        r.err = none ∧
        r.resp.header "Docker-Content-Digest" = some "sha256:01" ∧
        (ResponseWriter.fresh.status = none → r.resp.status = some 201) ∧
        r.state.contents = blobs.new.contents.set "sha256:01" [1] ∧
        r.state.contents "sha256:01" = some [1] ∧
        r.state.layers = blobs.new.layers.set "a" (blobs.new.layers.at "a" ++ ["sha256:01"]) ∧
        r.state.layers "a" = some (blobs.new.layers.at "a" ++ ["sha256:01"])) ∧
      ("sha256:01" ≠ digestOf exampleLib [1] →
        r.err = some { Status := 400, Code := "DIGEST_INVALID",
                       Message := "digest does not match contents" } ∧
        r.state.contents = blobs.new.contents ∧ r.state.layers = blobs.new.layers) :=
  C7_monolithic_upload exampleLib exampleWorld blobs.new ResponseWriter.fresh
    (mkRequest "POST" "/v2/a/blobs/uploads/" "sha256:01" "" [1]) "a" "sha256:01"
    rfl rfl rfl (by decide) rfl

/-- C8. `HEAD` round trip: in the state a successful `PUT` or monolithic `POST`
with the digest parameter `d` leaves behind, `contents[d]` holds the committed
bytes `v`, and a `HEAD` of `/v2/<repo>/blobs/<d>`, for every repo, returns no
error with `Content-Length = len(v)`, `Docker-Content-Digest = d` and status
200, the same in every world (resolver and network are not consulted), writes
no body and leaves the engine as it is. -/
theorem C8_head_round_trip (L : Lib) (w : World) (b : blobs) (resp : ResponseWriter)
    (req : Request) (rt : Route) (r : Reply) (d : String)
    (hmeth : req.Method = "PUT" ∨ req.Method = "POST")
    (hr : blobs.handle.route req = .ret (.ok rt))
    (hq : req.Query "digest" = d) (hd : d ≠ "")
    (hret : b.handle L w resp req = .ret r) (hok : r.err = none) :
    ∃ v, r.state.contents d = some v ∧
      v = (if req.Method = "PUT" then b.uploads.at rt.target ++ req.Body else req.Body) ∧
      ∀ (w2 : World) (resp2 : ResponseWriter) (req2 : Request) (repo : String),
        req2.Method = "HEAD" → req2.Path = "/v2/" ++ repo ++ "/blobs/" ++ d →
        ∃ r2, r.state.handle L w2 resp2 req2 = .ret r2 ∧
          r2.err = none ∧
          r2.resp.header "Content-Length" = some (toString v.length) ∧
          r2.resp.header "Docker-Content-Digest" = some d ∧
          (resp2.status = none → r2.resp.status = some 200) ∧
          r2.resp.body = resp2.body ∧
          r2.state = r.state ∧
          ∀ w3 : World, r.state.handle L w3 resp2 req2 = .ret r2 := by
  have hdig : rt.digest = d := by rw [route_digest req rt hr, hq]
  have hne : rt.digest ≠ "" := by rw [hdig]; exact hd
  obtain ⟨hl, hc, he⟩ := commit_state L w b resp req rt r hmeth hr hne hret hok
  rw [hdig] at hc he
  refine ⟨_, hc, rfl, ?_⟩
  intro w2 resp2 req2 repo hm2 hp2
  have hslash : '/' ∉ d.data := by rw [he]; exact digestOf_no_slash L _
  have hCD : ("Content-Length" : String) ≠ "Docker-Content-Digest" := by decide
  refine ⟨_, head_local_hit L w2 r.state resp2 req2 repo d _ hm2 hp2 hd hslash hc hl,
    rfl, ?_, ?_, ?_, ?_, rfl, ?_⟩
  · simp only [header_WriteHeader, header_Set_other _ _ _ _ hCD, header_Set_same]
  · simp only [header_WriteHeader, header_Set_same]
  · intro hs
    exact status_WriteHeader _ _ (by simp [status_Set, hs])
  · unfold ResponseWriter.WriteHeader
    split <;> rfl
  · intro w3
    exact head_local_hit L w3 r.state resp2 req2 repo d _ hm2 hp2 hd hslash hc hl

/-- C8 on `exampleOpen`: the upload `7` is committed as `sha256:010203`, then
`HEAD /v2/b/blobs/sha256:010203` is served from `contents`. -/
theorem C8_head_round_trip_witness :
    ∃ r, exampleOpen.handle exampleLib exampleWorld ResponseWriter.fresh
        (mkRequest "PUT" "/v2/a/blobs/uploads/7" "sha256:010203" "" [3]) = .ret r ∧
      ∃ r2, r.state.handle exampleLib exampleWorld ResponseWriter.fresh
          (mkRequest "HEAD" "/v2/b/blobs/sha256:010203" "" "" []) = .ret r2 ∧
        r2.err = none ∧ r2.resp.header "Content-Length" = some "3" ∧
        r2.resp.header "Docker-Content-Digest" = some "sha256:010203" ∧
        r2.resp.status = some 200 :=
  ⟨{ err := none,
     resp := (ResponseWriter.fresh.Set "Docker-Content-Digest" "sha256:010203").WriteHeader 201,
     state := { exampleOpen with
                contents := exampleOpen.contents.set "sha256:010203" [1, 2, 3],
                layers := exampleOpen.layers.set "a" ["sha256:010203"],
                uploads := exampleOpen.uploads.delete "7" } },
   by rfl,
   by
    obtain ⟨v, hv, hveq, hhead⟩ :=
      C8_head_round_trip exampleLib exampleWorld exampleOpen ResponseWriter.fresh
        (mkRequest "PUT" "/v2/a/blobs/uploads/7" "sha256:010203" "" [3])
        { elem := ["v2", "a", "blobs", "uploads", "7"], target := "7", service := "uploads",
          digest := "sha256:010203", contentRange := "", repo := "a" }
        { err := none,
          resp := (ResponseWriter.fresh.Set "Docker-Content-Digest"
                    "sha256:010203").WriteHeader 201,
          state := { exampleOpen with
                     contents := exampleOpen.contents.set "sha256:010203" [1, 2, 3],
                     layers := exampleOpen.layers.set "a" ["sha256:010203"],
                     uploads := exampleOpen.uploads.delete "7" } }
        "sha256:010203" (Or.inl rfl) rfl rfl (by decide) rfl rfl
    obtain ⟨r2, h1, h2, h3, h4, h5, _, _, _⟩ :=
      hhead exampleWorld ResponseWriter.fresh
        (mkRequest "HEAD" "/v2/b/blobs/sha256:010203" "" "" []) "b" rfl rfl
    have hv3 : v = [1, 2, 3] := by rw [hveq]; rfl
    subst hv3
    exact ⟨r2, h1, h2, h3, h4, h5 rfl⟩⟩

/-- C9. The code at the failing input: the bytes `p` are pushed to repository
`a` by a monolithic `POST`, so `contents[d]` holds them, and the `GET` of
`/v2/a/blobs/<d>` that follows, with a resolver that knows nothing, returns 404
`BLOB_UNKNOWN` instead of the stored bytes. -/
theorem C9_get_misses_local_blob (L : Lib) (p : Bytes) :
    (blobs.new.step L (.handle exampleWorld ResponseWriter.fresh
        (mkRequest "POST" ("/v2/" ++ "a" ++ "/blobs/uploads/") (digestOf L p) "" p))).contents
        (digestOf L p) = some p ∧
    (blobs.new.step L (.handle exampleWorld ResponseWriter.fresh
        (mkRequest "POST" ("/v2/" ++ "a" ++ "/blobs/uploads/") (digestOf L p) "" p))).handle
        L exampleWorld ResponseWriter.fresh
        (mkRequest "GET" ("/v2/" ++ "a" ++ "/blobs/" ++ digestOf L p) "" "" [])
      = .ret { err := some { Status := 404, Code := "BLOB_UNKNOWN", Message := "not found" },
               resp := ResponseWriter.fresh,
               state := blobs.new.step L (.handle exampleWorld ResponseWriter.fresh
                 (mkRequest "POST" ("/v2/" ++ "a" ++ "/blobs/uploads/") (digestOf L p) "" p)) } := by
  have h1 := monolithic_commit L exampleWorld blobs.new ResponseWriter.fresh
    (mkRequest "POST" ("/v2/" ++ "a" ++ "/blobs/uploads/") (digestOf L p) "" p) "a"
    rfl rfl rfl rfl
  have hs : blobs.new.step L (.handle exampleWorld ResponseWriter.fresh
        (mkRequest "POST" ("/v2/" ++ "a" ++ "/blobs/uploads/") (digestOf L p) "" p))
      = { blobs.new with
          contents := blobs.new.contents.set (digestOf L p) p,
          layers := blobs.new.layers.set "a" (blobs.new.layers.at "a" ++ [digestOf L p]) } := by
    simp only [blobs.step, h1]
    rfl
  rw [hs]
  refine ⟨by simp [GoMap.set], ?_⟩
  have hr := route_blob
    (mkRequest "GET" ("/v2/" ++ "a" ++ "/blobs/" ++ digestOf L p) "" "" []) "a" (digestOf L p)
    rfl (digestOf_ne_empty L p) (digestOf_no_slash L p)
  unfold blobs.handle
  simp only [hr]
  simp [mkRequest, blobs.handle.get, exampleWorld, blobUnknown]

/-- C10. The code at the failing input: the same bytes are pushed to the
repositories `a` and `b`, then `remove("a")` runs; afterwards `layers["b"]`
still lists the digest and `contents` no longer has it. -/
theorem C10_remove_breaks_layer_index (L : Lib) (p : Bytes) :
    (blobs.new.run L
      [.handle exampleWorld ResponseWriter.fresh
          (mkRequest "POST" ("/v2/" ++ "a" ++ "/blobs/uploads/") (digestOf L p) "" p),
       .handle exampleWorld ResponseWriter.fresh
          (mkRequest "POST" ("/v2/" ++ "b" ++ "/blobs/uploads/") (digestOf L p) "" p),
       .remove "a"]).layers "b" = some [digestOf L p] ∧
    (blobs.new.run L
      [.handle exampleWorld ResponseWriter.fresh
          (mkRequest "POST" ("/v2/" ++ "a" ++ "/blobs/uploads/") (digestOf L p) "" p),
       .handle exampleWorld ResponseWriter.fresh
          (mkRequest "POST" ("/v2/" ++ "b" ++ "/blobs/uploads/") (digestOf L p) "" p),
       .remove "a"]).contents (digestOf L p) = none := by
  have h1 := monolithic_commit L exampleWorld blobs.new ResponseWriter.fresh
    (mkRequest "POST" ("/v2/" ++ "a" ++ "/blobs/uploads/") (digestOf L p) "" p) "a"
    rfl rfl rfl rfl
  have h2 := fun b hl => monolithic_commit L exampleWorld b ResponseWriter.fresh
    (mkRequest "POST" ("/v2/" ++ "b" ++ "/blobs/uploads/") (digestOf L p) "" p) "b"
    rfl rfl rfl hl
  simp only [blobs.run, List.foldl, blobs.step, h1]
  rw [h2 _ rfl]
  simp [blobs.remove, blobs.new, GoMap.set, GoMap.empty, GoMap.at, GoMap.delete, mkRequest]

/-! ## The composite resolver -/

theorem sortStrings_sorted (l : List String) : (sortStrings l).Sorted strLE :=
  List.sorted_insertionSort strLE l

theorem sortStrings_perm (l : List String) : (sortStrings l).Perm l :=
  List.perm_insertionSort strLE l

theorem mem_sortStrings (l : List String) (x : String) : x ∈ sortStrings l ↔ x ∈ l :=
  (sortStrings_perm l).mem_iff

theorem sortStrings_nodup (l : List String) (h : l.Nodup) : (sortStrings l).Nodup :=
  (sortStrings_perm l).nodup_iff.mpr h

/-- Two lists with the same elements, each once, sort to the same list. -/
theorem sortStrings_eq_of_perm (l1 l2 : List String) (h : l1.Perm l2) :
    sortStrings l1 = sortStrings l2 :=
  List.eq_of_perm_of_sorted
    ((sortStrings_perm l1).trans (h.trans (sortStrings_perm l2).symm))
    (sortStrings_sorted l1) (sortStrings_sorted l2)

theorem uniq_loop_spec (sa : List String) (keys : GoMap Bool) (list : List String)
    (hk : ∀ s, keys s ≠ none ↔ s ∈ list) (hn : list.Nodup) :
    (uniq.loop sa keys list).Nodup ∧
      ∀ x, x ∈ uniq.loop sa keys list ↔ x ∈ list ∨ x ∈ sa := by
  induction sa generalizing keys list with
  | nil => simp [uniq.loop, hn]
  | cons s sa ih =>
    cases hs : keys s with
    | some v =>
      have hmem : s ∈ list := (hk s).mp (by simp [hs])
      have h := ih keys list hk hn
      simp only [uniq.loop, hs]
      refine ⟨h.1, fun x => ?_⟩
      rw [h.2 x]
      constructor
      · rintro (h1 | h1)
        · exact Or.inl h1
        · exact Or.inr (List.mem_cons_of_mem _ h1)
      · rintro (h1 | h1)
        · exact Or.inl h1
        · rcases List.mem_cons.mp h1 with rfl | h2
          · exact Or.inl hmem
          · exact Or.inr h2
    | none =>
      have hnot : s ∉ list := fun hm => (hk s).mpr hm hs
      have hk2 : ∀ t, (keys.set s true) t ≠ none ↔ t ∈ list ++ [s] := by
        intro t
        by_cases e : t = s
        · simp [GoMap.set, e]
        · simp [GoMap.set, e, hk t]
      have hn2 : (list ++ [s]).Nodup := by
        rw [List.nodup_append]
        exact ⟨hn, by simp, by
          intro a ha hb
          simp only [List.mem_singleton] at hb
          subst hb
          exact hnot ha⟩
      have h := ih (keys.set s true) (list ++ [s]) hk2 hn2
      simp only [uniq.loop, hs]
      refine ⟨h.1, fun x => ?_⟩
      rw [h.2 x]
      simp only [List.mem_append, List.mem_singleton, List.mem_cons]
      tauto

theorem uniq_nodup (sa : List String) : (uniq sa).Nodup :=
  (uniq_loop_spec sa GoMap.empty [] (by simp [GoMap.empty]) List.nodup_nil).1

theorem mem_uniq (sa : List String) (x : String) : x ∈ uniq sa ↔ x ∈ sa := by
  have h := (uniq_loop_spec sa GoMap.empty [] (by simp [GoMap.empty]) List.nodup_nil).2 x
  simpa [uniq] using h

/-- The listing loop when no sub-resolver fails: it ends with the sorted,
duplicate-free form of a list holding what was collected before and every
element of every non-nil result. -/
theorem resolve_loop_listing (repo : String) (subs : List CIDResolver) (list : List String)
    (h : ∀ s ∈ subs, ∃ res, s repo "" = .ok res) :
    ∃ all, resolver.Resolve.loop repo "" subs list = .ok (some (sortStrings (uniq all))) ∧
      ∀ x, x ∈ all ↔ x ∈ list ∨ ∃ s ∈ subs, ∃ l, s repo "" = .ok (some l) ∧ x ∈ l := by
  induction subs generalizing list with
  | nil => exact ⟨list, rfl, by simp⟩
  | cons s subs ih =>
    obtain ⟨res, hres⟩ := h s (List.mem_cons_self _ _)
    have hrest : ∀ t ∈ subs, ∃ res, t repo "" = .ok res :=
      fun t ht => h t (List.mem_cons_of_mem _ ht)
    cases res with
    | none =>
      obtain ⟨all, hall, hmem⟩ := ih list hrest
      refine ⟨all, by simp [resolver.Resolve.loop, hres, hall], fun x => ?_⟩
      rw [hmem x]
      constructor
      · rintro (h1 | ⟨t, ht, l, hl, hx⟩)
        · exact Or.inl h1
        · exact Or.inr ⟨t, List.mem_cons_of_mem _ ht, l, hl, hx⟩
      · rintro (h1 | ⟨t, ht, l, hl, hx⟩)
        · exact Or.inl h1
        · rcases List.mem_cons.mp ht with rfl | ht2
          · rw [hres] at hl; cases hl
          · exact Or.inr ⟨t, ht2, l, hl, hx⟩
    | some result =>
      obtain ⟨all, hall, hmem⟩ := ih (list ++ result) hrest
      refine ⟨all, by simp [resolver.Resolve.loop, hres, hall], fun x => ?_⟩
      rw [hmem x]
      constructor
      · rintro (h1 | ⟨t, ht, l, hl, hx⟩)
        · rcases List.mem_append.mp h1 with h2 | h2
          · exact Or.inl h2
          · exact Or.inr ⟨s, List.mem_cons_self _ _, result, hres, h2⟩
        · exact Or.inr ⟨t, List.mem_cons_of_mem _ ht, l, hl, hx⟩
      · rintro (h1 | ⟨t, ht, l, hl, hx⟩)
        · exact Or.inl (List.mem_append.mpr (Or.inl h1))
        · rcases List.mem_cons.mp ht with rfl | ht2
          · rw [hres] at hl
            cases hl
            exact Or.inl (List.mem_append.mpr (Or.inr hx))
          · exact Or.inr ⟨t, ht2, l, hl, hx⟩

/-- The loop passes over sub-resolvers that neither fail nor stop it. -/
theorem resolve_loop_skip (repo ref : String) (pre rest : List CIDResolver)
    (list : List String)
    (h : ∀ p ∈ pre, p repo ref = .ok none ∨ (ref = "" ∧ ∃ x, p repo ref = .ok x)) :
    ∃ list2, resolver.Resolve.loop repo ref (pre ++ rest) list
      = resolver.Resolve.loop repo ref rest list2 := by
  induction pre generalizing list with
  | nil => exact ⟨list, rfl⟩
  | cons p pre ih =>
    have hrest : ∀ q ∈ pre, q repo ref = .ok none ∨ (ref = "" ∧ ∃ x, q repo ref = .ok x) :=
      fun q hq => h q (List.mem_cons_of_mem _ hq)
    rcases h p (List.mem_cons_self _ _) with hp | ⟨hr, x, hp⟩
    · obtain ⟨l2, hl2⟩ := ih list hrest
      exact ⟨l2, by simp [resolver.Resolve.loop, hp, hl2]⟩
    · cases x with
      | none =>
        obtain ⟨l2, hl2⟩ := ih list hrest
        exact ⟨l2, by simp [resolver.Resolve.loop, hp, hl2]⟩
      | some result =>
        obtain ⟨l2, hl2⟩ := ih (list ++ result) hrest
        subst hr
        exact ⟨l2, by simp [resolver.Resolve.loop, hp, hl2]⟩

/-- C13. Composite listing: when every sub-resolver answers `Resolve(repo, "")`
without error, the composite returns a list that is sorted ascending, has no
duplicates, and holds exactly the elements of the sub-resolvers' results. -/
theorem C13_composite_listing (r : resolver) (repo : String)
    (h : ∀ s ∈ r.resolvers, ∃ res, s repo "" = .ok res) :
    ∃ out, r.Resolve repo "" = .ok (some out) ∧ out.Sorted strLE ∧ out.Nodup ∧
      ∀ x, x ∈ out ↔ ∃ s ∈ r.resolvers, ∃ l, s repo "" = .ok (some l) ∧ x ∈ l := by
  obtain ⟨all, hall, hmem⟩ := resolve_loop_listing repo r.resolvers [] h
  refine ⟨sortStrings (uniq all), hall, sortStrings_sorted _,
    sortStrings_nodup _ (uniq_nodup all), fun x => ?_⟩
  rw [mem_sortStrings, mem_uniq, hmem x]
  simp

/-- C13 on two sub-resolvers answering `[a, b]` and `[b, c]`: the composite
answers `[a, b, c]`. -/
theorem C13_composite_listing_witness :
    (resolver.mk [fun _ _ => .ok (some ["a", "b"]),
                  fun _ _ => .ok (some ["b", "c"])]).Resolve "repo" ""
      = .ok (some ["a", "b", "c"]) ∧
    ∃ out, (resolver.mk [fun _ _ => .ok (some ["a", "b"]),
                         fun _ _ => .ok (some ["b", "c"])]).Resolve "repo" ""
        = .ok (some out) ∧ out.Sorted strLE ∧ out.Nodup ∧
      ∀ x, x ∈ out ↔
        ∃ s ∈ (resolver.mk [fun _ _ => .ok (some ["a", "b"]),
                            fun _ _ => .ok (some ["b", "c"])]).resolvers,
          ∃ l, s "repo" "" = .ok (some l) ∧ x ∈ l :=
  ⟨by rfl,
   C13_composite_listing
    (resolver.mk [fun _ _ => .ok (some ["a", "b"]), fun _ _ => .ok (some ["b", "c"])])
    "repo" (by
      intro s hs
      simp only [List.mem_cons, List.mem_singleton, List.not_mem_nil, or_false] at hs
      rcases hs with rfl | rfl
      · exact ⟨_, rfl⟩
      · exact ⟨_, rfl⟩)⟩

/-- C14, the claim as stated fails: with a first sub-resolver that returns an
error and a second that returns `[CID2]`, the earliest sub-resolver that
succeeds with a result is the second, yet the composite returns the error. -/
theorem C14_first_result_counterexample :
    ¬ (∀ (r : resolver) (repo ref : String) (pre post : List CIDResolver)
        (s : CIDResolver) (res : List String),
        ref ≠ "" → r.resolvers = pre ++ s :: post →
        (∀ p ∈ pre, ¬ ∃ l, p repo ref = .ok (some l)) →
        s repo ref = .ok (some res) →
        r.Resolve repo ref = .ok (some res)) := by
  intro h
  have h1 := h
    (resolver.mk [fun _ _ => .error (.other "no such file or directory"),
                  fun _ _ => .ok (some ["CID2"])])
    "repo" "tag" [fun _ _ => .error (.other "no such file or directory")] []
    (fun _ _ => .ok (some ["CID2"])) ["CID2"] (by decide) rfl
    (by
      intro p hp
      simp only [List.mem_singleton] at hp
      subst hp
      rintro ⟨l, hl⟩
      cases hl)
    rfl
  cases h1

/-- C14, amended. For a non-empty reference, when every sub-resolver before
`s` returns nil without error and `s` returns the non-nil `res`, the composite
returns `res`, whatever sub-resolvers come after `s`. -/
theorem C14_first_result (repo ref : String) (pre post : List CIDResolver)
    (s : CIDResolver) (res : List String)
    (href : ref ≠ "")
    (hpre : ∀ p ∈ pre, p repo ref = .ok none)
    (hs : s repo ref = .ok (some res)) :
    (resolver.mk (pre ++ s :: post)).Resolve repo ref = .ok (some res) ∧
    ∀ post2, (resolver.mk (pre ++ s :: post2)).Resolve repo ref
      = (resolver.mk (pre ++ s :: post)).Resolve repo ref := by
  have key : ∀ q, (resolver.mk (pre ++ s :: q)).Resolve repo ref = .ok (some res) := by
    intro q
    obtain ⟨l2, hl2⟩ := resolve_loop_skip repo ref pre (s :: q) []
      (fun p hp => Or.inl (hpre p hp))
    simp [resolver.Resolve, hl2, resolver.Resolve.loop, hs, href]
  exact ⟨key post, fun post2 => by rw [key post2, key post]⟩

/-- C14 amended, on a first sub-resolver that finds nothing, a second that
answers `[CID1]` and a third that answers `[CID2]`. -/
theorem C14_first_result_witness :
    (resolver.mk ([fun _ _ => .ok none] ++ (fun _ _ => .ok (some ["CID1"]))
        :: [fun _ _ => .ok (some ["CID2"])])).Resolve "repo" "tag" = .ok (some ["CID1"]) ∧
    ∀ post2, (resolver.mk ([fun _ _ => .ok none] ++ (fun _ _ => .ok (some ["CID1"]))
        :: post2)).Resolve "repo" "tag"
      = (resolver.mk ([fun _ _ => .ok none] ++ (fun _ _ => .ok (some ["CID1"]))
        :: [fun _ _ => .ok (some ["CID2"])])).Resolve "repo" "tag" :=
  C14_first_result "repo" "tag" [fun _ _ => .ok none] [fun _ _ => .ok (some ["CID2"])]
    (fun _ _ => .ok (some ["CID1"])) ["CID1"] (by decide)
    (by
      intro p hp
      simp only [List.mem_singleton] at hp
      subst hp
      rfl)
    rfl

/-- C15. Composite fail-closed: when the sub-resolvers before `s` neither fail
nor end the call (for a non-empty reference they return nil, for the empty
reference they return without error) and `s` returns an error, the composite
returns that error and no list, whatever was collected and whatever follows. -/
theorem C15_fail_closed (repo ref : String) (pre post : List CIDResolver)
    (s : CIDResolver) (err : Error)
    (hpre : ∀ p ∈ pre, p repo ref = .ok none ∨ (ref = "" ∧ ∃ x, p repo ref = .ok x))
    (hs : s repo ref = .error err) :
    (resolver.mk (pre ++ s :: post)).Resolve repo ref = .error err := by
  obtain ⟨l2, hl2⟩ := resolve_loop_skip repo ref pre (s :: post) [] hpre
  simp [resolver.Resolve, hl2, resolver.Resolve.loop, hs]

/-- C15 on a listing: the first sub-resolver lists `[a]`, the second fails. -/
theorem C15_fail_closed_witness :
    (resolver.mk ([fun _ _ => .ok (some ["a"])] ++ (fun _ _ => .error (.NotFound "repo"))
        :: [fun _ _ => .ok (some ["b"])])).Resolve "repo" "" = .error (.NotFound "repo") :=
  C15_fail_closed "repo" "" [fun _ _ => .ok (some ["a"])] [fun _ _ => .ok (some ["b"])]
    (fun _ _ => .error (.NotFound "repo")) (.NotFound "repo")
    (by
      intro p hp
      simp only [List.mem_singleton] at hp
      subst hp
      exact Or.inr ⟨rfl, _, rfl⟩)
    rfl

/-! ## The CID cache -/

theorem append_cons_inj_of_not_mem {α : Type} (c : α) (a b x y : List α)
    (ha : c ∉ a) (hb : c ∉ b) (h : a ++ c :: x = b ++ c :: y) : a = b ∧ x = y := by
  induction a generalizing b with
  | nil =>
    cases b with
    | nil => simpa using h
    | cons e b =>
      simp only [List.nil_append, List.cons_append, List.cons.injEq] at h
      exact absurd h.1 (fun e1 => hb (by simp [e1]))
  | cons d a ih =>
    cases b with
    | nil =>
      simp only [List.nil_append, List.cons_append, List.cons.injEq] at h
      exact absurd h.1 (fun e1 => ha (by simp [e1]))
    | cons e b =>
      simp only [List.cons_append, List.cons.injEq] at h
      have ha2 : c ∉ a := fun hm => ha (List.mem_cons_of_mem _ hm)
      have hb2 : c ∉ b := fun hm => hb (List.mem_cons_of_mem _ hm)
      obtain ⟨h1, h2⟩ := ih b ha2 hb2 h.2
      exact ⟨by rw [h.1, h1], h2⟩

/-- The function `key` tells pairs apart when the repository names have no colon. -/
theorem key_inj (repo ref repo2 ref2 : String)
    (h1 : ':' ∉ repo.data) (h2 : ':' ∉ repo2.data)
    (h : key repo ref = key repo2 ref2) : repo = repo2 ∧ ref = ref2 := by
  have hd := congrArg String.data h
  have hc : (":" : String).data = [':'] := rfl
  simp only [key, String.data_append, hc, List.append_assoc, List.singleton_append] at hd
  obtain ⟨e1, e2⟩ := append_cons_inj_of_not_mem ':' _ _ _ _ h1 h2 hd
  exact ⟨String.ext e1, String.ext e2⟩

/-- C20, the claim as stated fails: `Add("a", "b:c", "X")` changes the result of
`Get("a:b", "c")`, a different pair with the same key `a:b:c`. -/
theorem C20_cache_frame_counterexample :
    ¬ (∀ (r : cidCache) (repo ref cid repo2 ref2 : String),
        (repo2, ref2) ≠ (repo, ref) →
        (r.Add repo ref cid).Get repo2 ref2 = r.Get repo2 ref2) := by
  intro h
  have h1 := h newCidCache "a" "b:c" "X" "a:b" "c" (by decide)
  have h2 : (newCidCache.Add "a" "b:c" "X").Get "a:b" "c" = ("X", true) := by rfl
  have h3 : newCidCache.Get "a:b" "c" = ("", false) := by rfl
  rw [h2, h3] at h1
  exact absurd (congrArg Prod.snd h1) (by decide)

/-- C20, amended. After `Add(repo, ref, cid)`, `Get(repo, ref)` returns
`(cid, true)`; `Get` of a pair whose key `repo2 + ":" + ref2` differs from
`repo + ":" + ref` is as before; and that is every different pair when neither
repository name has a colon. -/
theorem C20_cache_frame (r : cidCache) (repo ref cid : String) :
    (r.Add repo ref cid).Get repo ref = (cid, true) ∧
    (∀ repo2 ref2, key repo2 ref2 ≠ key repo ref →
      (r.Add repo ref cid).Get repo2 ref2 = r.Get repo2 ref2) ∧
    (∀ repo2 ref2, ':' ∉ repo.data → ':' ∉ repo2.data → (repo2, ref2) ≠ (repo, ref) →
      (r.Add repo ref cid).Get repo2 ref2 = r.Get repo2 ref2) := by
  have frame : ∀ repo2 ref2, key repo2 ref2 ≠ key repo ref →
      (r.Add repo ref cid).Get repo2 ref2 = r.Get repo2 ref2 := by
    intro repo2 ref2 hk
    simp [cidCache.Add, cidCache.Get, GoMap.set, hk]
  refine ⟨by simp [cidCache.Add, cidCache.Get, GoMap.set], frame, ?_⟩
  intro repo2 ref2 h1 h2 hne
  apply frame
  intro hk
  obtain ⟨e1, e2⟩ := key_inj repo2 ref2 repo ref h2 h1 hk
  exact hne (by rw [e1, e2])

/-- C20 amended, on the empty cache: after `Add("a", "v1", "X")` the pair
`("a", "v1")` is found and the pair `("b", "v1")` is still unknown. -/
theorem C20_cache_frame_witness :
    (newCidCache.Add "a" "v1" "X").Get "a" "v1" = ("X", true) ∧
    (newCidCache.Add "a" "v1" "X").Get "b" "v1" = newCidCache.Get "b" "v1" :=
  ⟨(C20_cache_frame newCidCache "a" "v1" "X").1,
   (C20_cache_frame newCidCache "a" "v1" "X").2.2 "b" "v1"
     (by decide) (by decide) (by decide)⟩

/-! ## Images, digests and the memory store -/

theorem lookupKey_isSome_iff {V : Type} (k : String) (l : List (String × V)) :
    (lookupKey k l).isSome ↔ k ∈ l.map Prod.fst := by
  induction l with
  | nil => simp [lookupKey]
  | cons e l ih =>
    obtain ⟨k1, v⟩ := e
    by_cases h : k1 = k
    · simp [lookupKey, h]
    · simp only [lookupKey, h, if_false, ih, List.map_cons, List.mem_cons]
      constructor
      · exact Or.inr
      · rintro (h1 | h1)
        · exact absurd h1.symm h
        · exact h1

theorem Table.mem_keys_iff {V : Type} (m : Table V) (k : String) :
    k ∈ m.keys ↔ (m.get k).isSome :=
  (lookupKey_isSome_iff k m.entries).symm

/-- Two tables with the same lookups have the same keys up to their order. -/
theorem Table.keys_perm {V : Type} (m1 m2 : Table V) (h : ∀ k, m1.get k = m2.get k) :
    m1.keys.Perm m2.keys := by
  unfold Table.keys
  rw [List.perm_ext_iff_of_nodup m1.nodup m2.nodup]
  intro k
  show k ∈ m1.keys ↔ k ∈ m2.keys
  rw [Table.mem_keys_iff m1 k, Table.mem_keys_iff m2 k, h k]

theorem Table.get_set_same {V : Type} (m : Table V) (k : String) (v : V) :
    (m.set k v).get k = some v := by
  simp [Table.set, Table.get, lookupKey]

theorem lookupKey_filter_ne {V : Type} (k k2 : String) (l : List (String × V)) (h : k2 ≠ k) :
    lookupKey k2 (l.filter (fun e => e.1 ≠ k)) = lookupKey k2 l := by
  induction l with
  | nil => rfl
  | cons e l ih =>
    obtain ⟨k1, v⟩ := e
    rw [List.filter_cons]
    by_cases h1 : k1 = k
    · subst h1
      have h2 : k1 ≠ k2 := fun e2 => h e2.symm
      simp only [ne_eq, not_true_eq_false, decide_False, Bool.false_eq_true, if_false,
        lookupKey, h2]
      exact ih
    · simp only [ne_eq, h1, not_false_eq_true, decide_True, if_true, lookupKey]
      rw [ih]

theorem Table.get_set_other {V : Type} (m : Table V) (k k2 : String) (v : V) (h : k2 ≠ k) :
    (m.set k v).get k2 = m.get k2 := by
  have h1 : k ≠ k2 := fun e => h e.symm
  have h2 := lookupKey_filter_ne k k2 m.entries h
  simp only [Table.set, Table.get, lookupKey, h1, if_false]
  exact h2

theorem foldl_append_congr (ks : List String) (f g : String → Bytes) (h : ∀ k, f k = g k)
    (acc : Bytes) :
    ks.foldl (fun h k => h ++ f k) acc = ks.foldl (fun h k => h ++ g k) acc := by
  have e : (fun (h : Bytes) k => h ++ f k) = (fun h k => h ++ g k) := by
    funext a k
    rw [h k]
  rw [e]

/-- The function `digest` sees an image only through the lookups of its two maps. -/
theorem digest_congr (L : Lib) (I J : Image)
    (hb : ∀ k, I.Blobs.get k = J.Blobs.get k)
    (hm : ∀ k, I.Manifests.get k = J.Manifests.get k) : digest L I = digest L J := by
  have hk : sortStrings I.Blobs.keys = sortStrings J.Blobs.keys :=
    sortStrings_eq_of_perm _ _ (Table.keys_perm I.Blobs J.Blobs hb)
  unfold digest
  simp only [hk]
  rw [foldl_append_congr _ (fun k => (I.Blobs.get k).getD []) (fun k => (J.Blobs.get k).getD [])
    (fun k => by simp only [hb k])]
  rw [foldl_append_congr _ (fun k => (I.Manifests.get k).getD [])
    (fun k => (J.Manifests.get k).getD []) (fun k => by simp only [hm k])]

/-- C11. CID determinism: two images whose `Blobs` have the same entries and
whose `Manifests` have the same entries, in whatever order a `range` visits them
and whatever their names, have the same `digest` and the same `computeCID`. -/
theorem C11_cid_determinism (L : Lib) (C : CidLib) (I J : Image)
    (hb : ∀ k, I.Blobs.get k = J.Blobs.get k)
    (hm : ∀ k, I.Manifests.get k = J.Manifests.get k) :
    digest L I = digest L J ∧ computeCID L C I = computeCID L C J := by
  have h := digest_congr L I J hb hm
  exact ⟨h, by simp [computeCID, h]⟩

/-- C11 on `exampleImage` and `exampleImageSwapped`. -/
theorem C11_cid_determinism_witness :
    digest exampleLib exampleImage = digest exampleLib exampleImageSwapped ∧
    computeCID exampleLib exampleCidLib exampleImage
      = computeCID exampleLib exampleCidLib exampleImageSwapped :=
  C11_cid_determinism exampleLib exampleCidLib exampleImage exampleImageSwapped
    (by
      intro k
      simp only [Table.get, exampleImage, exampleImageSwapped, lookupKey]
      split_ifs <;> first | rfl | (subst_vars; simp_all))
    (by
      intro k
      simp only [Table.get, exampleImage, exampleImageSwapped, lookupKey]
      split_ifs <;> rfl)

/-- C12. The code at the failing input: for the image with the blobs
`sha256:a -> A`, `sha256:b -> B` and the manifests `latest -> M`,
`sha256:m -> M`, `digest` hashes the two bytes `AB` only, not `ABMM`; the
manifests are looked up under the blob keys and contribute nothing, and the
image without its manifests has the same digest. -/
theorem C12_digest_skips_manifests (L : Lib) :
    digest L exampleImage = "sha256:" ++ EncodeToString (L.Sum256 [65, 66]) ∧
    digest L { exampleImage with Manifests := Table.empty } = digest L exampleImage :=
  ⟨by rfl, by rfl⟩

theorem save_memory_ok (L : Lib) (C : CidLib) (r : MemoryStore) (fs : FS) (I : Image)
    (s : Saved) (h : r.Save L C fs (some I) = .ret s) (herr : s.err = none) :
    s.cid = (computeCID L C I).1 ∧ (computeCID L C I).2 = none ∧
    s.store.lock = false ∧ s.store.images = r.images.set s.cid I := by
  unfold MemoryStore.Save at h
  by_cases h1 : I.Manifests.len = 0
  · simp [h1] at h
    rw [← h] at herr
    cases herr
  · cases hc : computeCID L C I with
    | mk cid e =>
      cases e with
      | some err =>
        simp [h1, hc] at h
        rw [← h] at herr
        cases herr
      | none =>
        cases hl : r.lock
        · by_cases hloc : r.location = ""
          · simp [h1, hc, hl, hloc] at h
            subst h
            simp [hl]
          · cases hs : saveCID fs r.location cid I with
            | mk e2 fs1 =>
              cases e2 with
              | some err =>
                simp [h1, hc, hl, hloc, hs] at h
                rw [← h] at herr
                cases herr
              | none =>
                simp [h1, hc, hl, hloc, hs] at h
                subst h
                simp [hl]
        · simp [h1, hc, hl] at h

/-- C16. Save input validation. A nil image or one without manifests makes the
`Save` of the memory, file, content-network and SCP stores return
`("", ErrInvalid)` with the store, the file system and the remote host untouched
and the network client not called. In a memory store with no location and a free
mutex, `Save` returns `ErrInvalid` in no other case: otherwise it returns the
error of `computeCID`, and when that is nil, the identifier of `computeCID`,
under which `images` then holds the image. -/
theorem C16_save_guard (L : Lib) (C : CidLib) (r : MemoryStore) (fs : FS)
    (image : Option Image) (hloc : r.location = "") (hl : r.lock = false) :
    ∃ s, r.Save L C fs image = .ret s ∧
      (s.err = some .ErrInvalid ↔ rejected image) ∧
      (rejected image → s.cid = "" ∧ s.store = r ∧ s.fs = fs) ∧
      (∀ I, image = some I → I.Manifests.len ≠ 0 →
        s.err = (computeCID L C I).2 ∧
        ((computeCID L C I).2 = none →
          s.cid = (computeCID L C I).1 ∧ s.store.images.get s.cid = some I)) ∧
      (rejected image →
        (∀ (f : FileStore), f.Save L C fs image = (("", some .ErrInvalid), fs)) ∧
        (∀ (send : AddRequest) (p : IpfsStore),
          p.Save send fs image = (("", some .ErrInvalid), fs)) ∧
        (∀ (p : ScpStore) (remote : Remote),
          p.Save L C remote image = (("", some .ErrInvalid), remote))) := by
  cases image with
  | none =>
    refine ⟨_, rfl, ?_, ?_, ?_, ?_⟩
    · simp [rejected]
    · intro _; exact ⟨rfl, rfl, rfl⟩
    · intro I hI; cases hI
    · intro _; exact ⟨fun _ => rfl, fun _ _ => rfl, fun _ _ => rfl⟩
  | some I =>
    by_cases h1 : I.Manifests.len = 0
    · have hrej : rejected (some I) := Or.inr ⟨I, rfl, h1⟩
      refine ⟨{ cid := "", err := some .ErrInvalid, store := r, fs := fs },
        by simp [MemoryStore.Save, h1], ?_, ?_, ?_, ?_⟩
      · simp [hrej]
      · intro _; exact ⟨rfl, rfl, rfl⟩
      · intro J hJ hne
        cases hJ
        exact absurd h1 hne
      · intro _
        exact ⟨fun _ => by simp [FileStore.Save, h1],
          fun _ _ => by simp [IpfsStore.Save, h1],
          fun _ _ => by simp [ScpStore.Save, h1]⟩
    · have hrej : ¬ rejected (some I) := by
        rintro (h | ⟨J, hJ, hlen⟩)
        · cases h
        · cases hJ
          exact h1 hlen
      cases hc : computeCID L C I with
      | mk cid e =>
        have he : e = (toCIDv1 C (digest L I)).2 := by
          have := congrArg Prod.snd hc
          simpa [computeCID] using this.symm
        cases e with
        | some err =>
          refine ⟨{ cid := "", err := some err, store := r, fs := fs },
            by simp [MemoryStore.Save, h1, hc], ?_, ?_, ?_, ?_⟩
          · simp only [hrej, iff_false]
            intro h
            have h2 : err = Error.ErrInvalid := by simpa using h
            subst h2
            unfold toCIDv1 at he
            split at he
            · simp at he
            · rename_i c _
              cases h3 : (C.StringOfBase c).2 <;> simp [h3] at he
          · intro h; exact absurd h hrej
          · intro J hJ _
            cases hJ
            simp [hc]
          · intro h; exact absurd h hrej
        | none =>
          refine ⟨{ cid := cid, err := none,
                    store := { r with images := r.images.set cid I }, fs := fs },
            by simp [MemoryStore.Save, h1, hc, hl, hloc], ?_, ?_, ?_, ?_⟩
          · simp [hrej]
          · intro h; exact absurd h hrej
          · intro J hJ _
            cases hJ
            simp [hc, Table.get_set_same]
          · intro h; exact absurd h hrej

/-- C16 on the empty memory store and `exampleImage`. -/
theorem C16_save_guard_witness :
    ∃ s, (NewMemoryStore "").Save exampleLib exampleCidLib exampleFS (some exampleImage)
        = .ret s ∧
      (s.err = some .ErrInvalid ↔ rejected (some exampleImage)) ∧
      (rejected (some exampleImage) →
        s.cid = "" ∧ s.store = NewMemoryStore "" ∧ s.fs = exampleFS) ∧
      (∀ I, some exampleImage = some I → I.Manifests.len ≠ 0 →
        s.err = (computeCID exampleLib exampleCidLib I).2 ∧
        ((computeCID exampleLib exampleCidLib I).2 = none →
          s.cid = (computeCID exampleLib exampleCidLib I).1 ∧
          s.store.images.get s.cid = some I)) ∧
      (rejected (some exampleImage) →
        (∀ (f : FileStore), f.Save exampleLib exampleCidLib exampleFS (some exampleImage)
          = (("", some .ErrInvalid), exampleFS)) ∧
        (∀ (send : AddRequest) (p : IpfsStore),
          p.Save send exampleFS (some exampleImage) = (("", some .ErrInvalid), exampleFS)) ∧
        (∀ (p : ScpStore) (remote : Remote),
          p.Save exampleLib exampleCidLib remote (some exampleImage)
            = (("", some .ErrInvalid), remote))) :=
  C16_save_guard exampleLib exampleCidLib (NewMemoryStore "") exampleFS (some exampleImage)
    rfl rfl

/-- C17. Memory store read round trip: after a `Save` of the image `I` that
returned the identifier `cid` and no error, `GetBlob(cid, d)` returns `I.Blobs[d]`
when `d` is a key and a `NotFoundError` otherwise, `HasBlob(cid, d)` is true
exactly when `GetBlob(cid, d)` succeeds, `GetManifest(cid, ref)` returns
`I.Manifests[ref]` or a `NotFoundError` likewise, and for an identifier `c` that
`images` does not hold all three report absence. -/
theorem C17_memory_round_trip (L : Lib) (C : CidLib) (r : MemoryStore) (fs : FS)
    (I : Image) (s : Saved)
    (hsave : r.Save L C fs (some I) = .ret s) (herr : s.err = none) :
    (∀ d, s.store.GetBlob s.cid d = .ret
      (match I.Blobs.get d with
       | some data => .ok data
       | none => .error (.NotFound (s.cid ++ ":" ++ d)))) ∧
    (∀ d, s.store.HasBlob s.cid d = .ret (I.Blobs.get d).isSome) ∧
    (∀ d, s.store.HasBlob s.cid d = .ret true ↔
      ∃ data, s.store.GetBlob s.cid d = .ret (.ok data)) ∧
    (∀ ref, s.store.GetManifest s.cid ref = .ret
      (match I.Manifests.get ref with
       | some data => .ok data
       | none => .error (.NotFound (s.cid ++ ":" ++ ref)))) ∧
    (∀ c, s.store.images.get c = none → ∀ d,
      s.store.HasBlob c d = .ret false ∧
      s.store.GetBlob c d = .ret (.error (.NotFound (c ++ ":" ++ d))) ∧
      s.store.GetManifest c d = .ret (.error (.NotFound (c ++ ":" ++ d)))) := by
  obtain ⟨_, _, hl, himg⟩ := save_memory_ok L C r fs I s hsave herr
  have hget : s.store.images.get s.cid = some I := by
    rw [himg]; exact Table.get_set_same _ _ _
  have hblob : ∀ d, s.store.GetBlob s.cid d = .ret
      (match I.Blobs.get d with
       | some data => .ok data
       | none => .error (.NotFound (s.cid ++ ":" ++ d))) := by
    intro d
    simp only [MemoryStore.GetBlob, hl, hget]
    cases I.Blobs.get d <;> simp
  have hhas : ∀ d, s.store.HasBlob s.cid d = .ret (I.Blobs.get d).isSome := by
    intro d
    simp [MemoryStore.HasBlob, hl, hget]
  refine ⟨hblob, hhas, ?_, ?_, ?_⟩
  · intro d
    rw [hhas d, hblob d]
    cases I.Blobs.get d <;> simp
  · intro ref
    simp only [MemoryStore.GetManifest, hl, hget]
    cases I.Manifests.get ref <;> simp
  · intro c hc d
    simp [MemoryStore.HasBlob, MemoryStore.GetBlob, MemoryStore.GetManifest, hl, hc]

/-- C17 on the empty memory store and `exampleImage`: the blob `sha256:a` is
read back as the byte `A`. -/
theorem C17_memory_round_trip_witness :
    ∃ s, (NewMemoryStore "").Save exampleLib exampleCidLib exampleFS (some exampleImage)
        = .ret s ∧ s.err = none ∧
      s.store.GetBlob s.cid "sha256:a" = .ret (.ok [65]) ∧
      s.store.HasBlob s.cid "sha256:a" = .ret true ∧
      s.store.GetBlob s.cid "sha256:c" = .ret (.error (.NotFound (s.cid ++ ":" ++ "sha256:c"))) ∧
      s.store.GetManifest s.cid "latest" = .ret (.ok [77]) :=
  ⟨{ cid := (computeCID exampleLib exampleCidLib exampleImage).1, err := none,
     store := { NewMemoryStore "" with
       images := (NewMemoryStore "").images.set
         (computeCID exampleLib exampleCidLib exampleImage).1 exampleImage },
     fs := exampleFS },
   by rfl, rfl,
   by
    have h := C17_memory_round_trip exampleLib exampleCidLib (NewMemoryStore "") exampleFS
      exampleImage
      { cid := (computeCID exampleLib exampleCidLib exampleImage).1, err := none,
        store := { NewMemoryStore "" with
          images := (NewMemoryStore "").images.set
            (computeCID exampleLib exampleCidLib exampleImage).1 exampleImage },
        fs := exampleFS }
      (by rfl) rfl
    exact ⟨h.1 "sha256:a", h.2.1 "sha256:a", h.1 "sha256:c", h.2.2.2.1 "latest"⟩⟩

/-! ## Cleaning and joining paths -/

theorem cleanStep_real (r : Bool) (st : List (List Char)) (c : List Char)
    (h : realElem c = true) : cleanStep r st c = c :: st := by
  simp only [realElem, Bool.and_eq_true, bne_iff_ne, ne_eq] at h
  simp [cleanStep, h.1.1, h.1.2, h.2]

theorem foldl_cleanStep_real (r : Bool) (cs : List (List Char)) (st : List (List Char))
    (h : ∀ c ∈ cs, realElem c = true) :
    cs.foldl (cleanStep r) st = cs.reverse ++ st := by
  induction cs generalizing st with
  | nil => rfl
  | cons c cs ih =>
    rw [List.foldl_cons, cleanStep_real r st c (h c (List.mem_cons_self _ _)),
      ih _ (fun d hd => h d (List.mem_cons_of_mem _ hd))]
    simp

theorem PathSafe_iff (s : String) :
    PathSafe s = true ↔ ∀ c ∈ splitSlash s.data, realElem c = true := by
  simp [PathSafe, List.all_eq_true]

theorem cleanElems_append_safe (r : Bool) (b s : List Char)
    (hs : ∀ c ∈ splitSlash s, realElem c = true) :
    cleanElems r (b ++ '/' :: s) = cleanElems r b ++ splitSlash s := by
  unfold cleanElems
  rw [splitSlash_append_slash, List.foldl_append, foldl_cleanStep_real r _ _ hs]
  simp

theorem joinSlash_append (A B : List (List Char)) (hA : A ≠ []) (hB : B ≠ []) :
    joinSlash (A ++ B) = joinSlash A ++ '/' :: joinSlash B := by
  induction A with
  | nil => exact absurd rfl hA
  | cons a A ih =>
    cases A with
    | nil =>
      cases B with
      | nil => exact absurd rfl hB
      | cons b B => simp [joinSlash]
    | cons a2 A =>
      have h := ih (by simp)
      simp only [List.cons_append] at h ⊢
      simp [joinSlash, h]

/-- The path `filepath.Clean` returns for a non-empty path, from the elements it keeps. -/
theorem Clean_data (p : String) (hp : p ≠ "") :
    (filepath.Clean p).data =
      if p.data.head? = some '/' then '/' :: joinSlash (cleanElems true p.data)
      else if cleanElems false p.data = [] then ['.']
      else joinSlash (cleanElems false p.data) := by
  unfold filepath.Clean
  rw [if_neg hp]
  split_ifs <;> rfl

theorem String.data_ne_nil (p : String) (hp : p ≠ "") : p.data ≠ [] := by
  intro h
  exact hp (String.ext h)

theorem head_append_of_ne_nil (a b : List Char) (h : a ≠ []) :
    (a ++ b).head? = a.head? := by
  cases a with
  | nil => exact absurd rfl h
  | cons x a => rfl

/-- Cleaning a path after appending a separator and a safe string appends them
to the cleaned path, when that keeps at least one element. -/
theorem Clean_append_safe (b s : String) (hb : b ≠ "")
    (he : cleanElems (decide (b.data.head? = some '/')) b.data ≠ [])
    (hs : PathSafe s = true) :
    filepath.Clean (b ++ "/" ++ s) = filepath.Clean b ++ "/" ++ s := by
  have hs2 := (PathSafe_iff s).mp hs
  have hne : b ++ "/" ++ s ≠ "" := by
    intro h
    have := congrArg String.data h
    simp [String.data_append] at this
  have hsl : ("/" : String).data = ['/'] := rfl
  have hd : (b ++ "/" ++ s).data = b.data ++ '/' :: s.data := by
    simp [String.data_append, hsl]
  have hhead : (b ++ "/" ++ s).data.head? = b.data.head? := by
    rw [hd]; exact head_append_of_ne_nil _ _ (String.data_ne_nil b hb)
  have hS : splitSlash s.data ≠ [] := splitSlash_ne_nil _
  apply String.ext
  rw [Clean_data _ hne, hhead, hd]
  simp only [String.data_append, hsl, Clean_data b hb]
  by_cases hr : b.data.head? = some '/'
  · simp only [hr, if_true, decide_True] at he ⊢
    rw [cleanElems_append_safe true _ _ hs2, joinSlash_append _ _ he hS, joinSlash_splitSlash]
    simp
  · simp only [hr, if_false, decide_False] at he ⊢
    rw [cleanElems_append_safe false _ _ hs2]
    rw [if_neg (by simp [he]), if_neg he, joinSlash_append _ _ he hS, joinSlash_splitSlash]
    simp

theorem splitSlash_no_slash (s : List Char) : ∀ c ∈ splitSlash s, '/' ∉ c := by
  induction s with
  | nil => simp [splitSlash]
  | cons x s ih =>
    by_cases hx : x = '/'
    · simp only [splitSlash, hx, if_true, List.mem_cons]
      rintro c (rfl | hc)
      · simp
      · exact ih c hc
    · cases hs : splitSlash s with
      | nil => exact absurd hs (splitSlash_ne_nil s)
      | cons h t =>
        rw [hs] at ih
        simp only [splitSlash, hx, if_false, hs, List.mem_cons]
        rintro c (rfl | hc)
        · simp only [List.mem_cons, not_or]
          exact ⟨fun e => hx e.symm, ih h (List.mem_cons_self _ _)⟩
        · exact ih c (List.mem_cons_of_mem _ hc)

theorem splitSlash_joinSlash (E : List (List Char)) (hE : E ≠ [])
    (h : ∀ c ∈ E, '/' ∉ c) : splitSlash (joinSlash E) = E := by
  induction E with
  | nil => exact absurd rfl hE
  | cons a E ih =>
    cases E with
    | nil => simpa [joinSlash] using splitSlash_of_not_mem a (h a (List.mem_cons_self _ _))
    | cons b E =>
      have h2 := ih (by simp) (fun c hc => h c (List.mem_cons_of_mem _ hc))
      simp only [joinSlash]
      rw [splitSlash_append_slash, h2, splitSlash_of_not_mem a (h a (List.mem_cons_self _ _))]
      rfl

/-- The shape of what `filepath.Clean` has kept (last element first): real
elements on top of `..` elements, and no `..` in a rooted path. -/
theorem cleanStep_shape (r : Bool) (st : List (List Char)) (c : List Char)
    (hc : '/' ∉ c)
    (h : ∃ n R, st = R ++ List.replicate n ['.', '.'] ∧
      (∀ x ∈ R, realElem x = true ∧ '/' ∉ x) ∧ (r = true → n = 0)) :
    ∃ n R, cleanStep r st c = R ++ List.replicate n ['.', '.'] ∧
      (∀ x ∈ R, realElem x = true ∧ '/' ∉ x) ∧ (r = true → n = 0) := by
  obtain ⟨n, R, hst, hR, hn⟩ := h
  by_cases h1 : c = [] ∨ c = ['.']
  · exact ⟨n, R, by simp [cleanStep, h1, hst], hR, hn⟩
  · by_cases h2 : c = ['.', '.']
    · subst h2
      cases R with
      | nil =>
        cases n with
        | zero =>
          cases r with
          | true => exact ⟨0, [], by simp [cleanStep, hst], by simp, fun _ => rfl⟩
          | false => exact ⟨1, [], by simp [cleanStep, hst], by simp, by simp⟩
        | succ n =>
          have hr : r = false := by
            cases r with
            | true => exact absurd (hn rfl) (by simp)
            | false => rfl
          refine ⟨n + 2, [], ?_, by simp, by simp [hr]⟩
          simp [cleanStep, hst, List.replicate_succ]
      | cons x R =>
        have hx := (hR x (List.mem_cons_self _ _)).1
        simp only [realElem, Bool.and_eq_true, bne_iff_ne, ne_eq] at hx
        refine ⟨n, R, ?_, fun y hy => hR y (List.mem_cons_of_mem _ hy), hn⟩
        simp [cleanStep, hst, hx.2]
    · have hreal : realElem c = true := by
        simp only [not_or] at h1
        simp [realElem, h1.1, h1.2, h2]
      refine ⟨n, c :: R, ?_, ?_, hn⟩
      · rw [cleanStep_real r st c hreal, hst]
        rfl
      · intro y hy
        rcases List.mem_cons.mp hy with rfl | hy2
        · exact ⟨hreal, hc⟩
        · exact hR y hy2

theorem foldl_cleanStep_shape (r : Bool) (cs : List (List Char)) (st : List (List Char))
    (hcs : ∀ c ∈ cs, '/' ∉ c)
    (h : ∃ n R, st = R ++ List.replicate n ['.', '.'] ∧
      (∀ x ∈ R, realElem x = true ∧ '/' ∉ x) ∧ (r = true → n = 0)) :
    ∃ n R, cs.foldl (cleanStep r) st = R ++ List.replicate n ['.', '.'] ∧
      (∀ x ∈ R, realElem x = true ∧ '/' ∉ x) ∧ (r = true → n = 0) := by
  induction cs generalizing st with
  | nil => exact h
  | cons c cs ih =>
    exact ih _ (fun d hd => hcs d (List.mem_cons_of_mem _ hd))
      (cleanStep_shape r st c (hcs c (List.mem_cons_self _ _)) h)

theorem foldl_cleanStep_dotdots (n k : Nat) :
    (List.replicate n ['.', '.']).foldl (cleanStep false) (List.replicate k ['.', '.'])
      = List.replicate (k + n) ['.', '.'] := by
  induction n generalizing k with
  | zero => rfl
  | succ n ih =>
    rw [List.replicate_succ, List.foldl_cons]
    have h : cleanStep false (List.replicate k ['.', '.']) ['.', '.']
        = List.replicate (k + 1) ['.', '.'] := by
      cases k with
      | zero => simp [cleanStep]
      | succ k => simp [cleanStep, List.replicate_succ]
    rw [h, ih]
    congr 1
    omega

/-- Cleaning what `filepath.Clean` has kept keeps all of it. -/
theorem foldl_cleanStep_again (r : Bool) (n : Nat) (R : List (List Char))
    (hR : ∀ x ∈ R, realElem x = true) (hn : r = true → n = 0) :
    (R ++ List.replicate n ['.', '.']).reverse.foldl (cleanStep r) []
      = R ++ List.replicate n ['.', '.'] := by
  have hrev : (R ++ List.replicate n ['.', '.']).reverse
      = List.replicate n ['.', '.'] ++ R.reverse := by
    simp [List.reverse_append]
  rw [hrev, List.foldl_append]
  have h1 : (List.replicate n ['.', '.']).foldl (cleanStep r) [] = List.replicate n ['.', '.'] := by
    cases r with
    | true =>
      have := hn rfl
      subst this
      rfl
    | false => simpa using foldl_cleanStep_dotdots n 0
  rw [h1, foldl_cleanStep_real r _ _ (fun c hc => hR c (List.mem_reverse.mp hc))]
  simp

theorem cleanElems_shape (r : Bool) (p : List Char) :
    ∃ n R, cleanElems r p = (R ++ List.replicate n ['.', '.']).reverse ∧
      (∀ x ∈ R, realElem x = true ∧ '/' ∉ x) ∧ (r = true → n = 0) := by
  obtain ⟨n, R, h, hR, hn⟩ := foldl_cleanStep_shape r (splitSlash p) []
    (splitSlash_no_slash p) ⟨0, [], rfl, by simp, fun _ => rfl⟩
  exact ⟨n, R, by simp [cleanElems, h], hR, hn⟩

theorem joinSlash_head (e : List Char) (E : List (List Char)) (he : e ≠ []) :
    (joinSlash (e :: E)).head? = e.head? := by
  cases E with
  | nil => rfl
  | cons b E =>
    simp only [joinSlash]
    exact head_append_of_ne_nil _ _ he

/-- The function `filepath.Clean` changes nothing in a path it has returned. -/
theorem Clean_idem (b : String) : filepath.Clean (filepath.Clean b) = filepath.Clean b := by
  by_cases hb : b = ""
  · subst hb; decide
  · by_cases hr : b.data.head? = some '/'
    · obtain ⟨n, R, hE, hR, hn⟩ := cleanElems_shape true b.data
      have hn0 : n = 0 := hn rfl
      subst hn0
      have hX : filepath.Clean b = String.mk ('/' :: joinSlash (cleanElems true b.data)) := by
        apply String.ext; rw [Clean_data b hb, if_pos hr]
      have hXne : String.mk ('/' :: joinSlash (cleanElems true b.data)) ≠ "" := by
        intro h; have := congrArg String.data h; simp at this
      rw [hX]
      apply String.ext
      rw [Clean_data _ hXne]
      simp only [List.head?_cons, if_true]
      congr 1
      congr 1
      generalize hEdef : cleanElems true b.data = E at hE
      have hsp : splitSlash ('/' :: joinSlash E) = [] :: splitSlash (joinSlash E) := by
        simp [splitSlash]
      have hce : cleanElems true ('/' :: joinSlash E)
          = ((splitSlash ('/' :: joinSlash E)).foldl (cleanStep true) []).reverse := rfl
      rw [hce, hsp, List.foldl_cons]
      have hstep : cleanStep true [] [] = [] := by simp [cleanStep]
      rw [hstep]
      by_cases hempty : R = []
      · subst hempty
        simp only [List.replicate_zero, List.append_nil, List.reverse_nil] at hE
        subst hE
        simp [joinSlash, splitSlash, cleanStep]
      · have hEne : E ≠ [] := by
          rw [hE]; simpa using hempty
        have hsl : ∀ c ∈ E, '/' ∉ c := by
          rw [hE]
          intro c hc
          simp only [List.replicate_zero, List.append_nil, List.mem_reverse] at hc
          exact (hR c hc).2
        rw [splitSlash_joinSlash _ hEne hsl, hE,
          foldl_cleanStep_again true 0 R (fun x hx => (hR x hx).1) (fun _ => rfl)]
    · obtain ⟨n, R, hE, hR, hn⟩ := cleanElems_shape false b.data
      by_cases hempty : cleanElems false b.data = []
      · have hX : filepath.Clean b = "." := by
          apply String.ext; rw [Clean_data b hb, if_neg hr, if_pos hempty]
        rw [hX]; decide
      · have hX : filepath.Clean b = String.mk (joinSlash (cleanElems false b.data)) := by
          apply String.ext; rw [Clean_data b hb, if_neg hr, if_neg hempty]
        have hel : ∀ c ∈ cleanElems false b.data, c ≠ [] ∧ '/' ∉ c := by
          rw [hE]
          intro c hc
          simp only [List.mem_reverse, List.mem_append] at hc
          rcases hc with hc | hc
          · have := (hR c hc).1
            simp only [realElem, Bool.and_eq_true, bne_iff_ne, ne_eq] at this
            exact ⟨this.1.1, (hR c hc).2⟩
          · have := List.eq_of_mem_replicate hc
            subst this
            exact ⟨by simp, by decide⟩
        obtain ⟨e, E, hcons⟩ := List.exists_cons_of_ne_nil hempty
        have he := hel e (by rw [hcons]; exact List.mem_cons_self _ _)
        have hhead : (joinSlash (cleanElems false b.data)).head? ≠ some '/' := by
          rw [hcons, joinSlash_head e E he.1]
          cases e with
          | nil => exact absurd rfl he.1
          | cons x e =>
            simp only [List.head?_cons, ne_eq, Option.some.injEq]
            intro hx
            exact he.2 (by simp [hx])
        have hXne : String.mk (joinSlash (cleanElems false b.data)) ≠ "" := by
          intro h
          have h2 := congrArg String.data h
          simp only at h2
          rw [h2] at hhead
          rw [hcons] at h2
          cases E with
          | nil => simp [joinSlash] at h2; exact he.1 h2
          | cons b2 E => simp [joinSlash] at h2
        rw [hX]
        apply String.ext
        rw [Clean_data _ hXne]
        simp only
        rw [if_neg hhead]
        have hagain : cleanElems false (joinSlash (cleanElems false b.data))
            = cleanElems false b.data := by
          have h1 : splitSlash (joinSlash (cleanElems false b.data)) = cleanElems false b.data :=
            splitSlash_joinSlash _ hempty (fun c hc => (hel c hc).2)
          have hce : cleanElems false (joinSlash (cleanElems false b.data))
              = ((splitSlash (joinSlash (cleanElems false b.data))).foldl
                  (cleanStep false) []).reverse := rfl
          rw [hce, h1, hE, foldl_cleanStep_again false n R (fun x hx => (hR x hx).1) (by simp)]
        rw [hagain, if_neg hempty]

theorem TrimPrefix_file (x : String) : TrimPrefix ("file:" ++ x) "file:" = x := by
  have h : ("file:" : String).data = ['f', 'i', 'l', 'e', ':'] := rfl
  have hp : HasPrefix ("file:" ++ x) "file:" = true := by
    simp [HasPrefix, String.data_append, h, List.isPrefixOf]
  unfold TrimPrefix
  rw [if_pos hp]
  apply String.ext
  simp [String.data_append, h]

theorem Clean_append_safe2 (b s1 s2 : String) (hb : b ≠ "")
    (he : cleanElems (decide (b.data.head? = some '/')) b.data ≠ [])
    (h1 : PathSafe s1 = true) (h2 : PathSafe s2 = true) :
    filepath.Clean (b ++ "/" ++ s1 ++ "/" ++ s2) = filepath.Clean b ++ "/" ++ s1 ++ "/" ++ s2 := by
  have hsl : ("/" : String).data = ['/'] := rfl
  have hd : (b ++ "/" ++ s1).data = b.data ++ '/' :: s1.data := by
    simp [String.data_append, hsl]
  have hne : b ++ "/" ++ s1 ≠ "" := by
    intro h
    have := congrArg String.data h
    simp [String.data_append] at this
  have hhead : (b ++ "/" ++ s1).data.head? = b.data.head? := by
    rw [hd]; exact head_append_of_ne_nil _ _ (String.data_ne_nil b hb)
  have he2 : cleanElems (decide ((b ++ "/" ++ s1).data.head? = some '/')) (b ++ "/" ++ s1).data
      ≠ [] := by
    rw [hhead, hd, cleanElems_append_safe _ _ _ ((PathSafe_iff s1).mp h1)]
    simp [he]
  rw [Clean_append_safe (b ++ "/" ++ s1) s2 hne he2 h2, Clean_append_safe b s1 hb he h1]

/-- The file `saveCID` writes for the reference `t` is the file the resolver of
the store reads for it, when name and reference are safe path elements. -/
theorem cidPath_eq_resolver_path (path name t : String)
    (hname : PathSafe name = true) (ht : PathSafe (":" ++ t) = true) :
    saveCID.cidPath path name t
      = (NewFileStore path).resolver.root ++ "/" ++ name ++ "/:" ++ t := by
  have hsl : ("/" : String).data = ['/'] := rfl
  have hcol : (":" : String).data = [':'] := rfl
  have hcs : ("/:" : String).data = ['/', ':'] := rfl
  have hroot : (NewFileStore path).resolver.root = filepath.Clean (filepath.Join [path, "cids"]) := by
    simp [NewFileStore, NewFileResolver, TrimPrefix_file]
  rw [hroot]
  by_cases hp : path = ""
  · subst hp
    have hj1 : filepath.Join ["", "cids"] = filepath.Clean "cids" := by
      simp [filepath.Join, List.dropWhile, Join, joinSlash]
    have hj2 : saveCID.cidPath "" name t
        = filepath.Clean ("cids" ++ "/" ++ name ++ "/" ++ (":" ++ t)) := by
      simp only [saveCID.cidPath, filepath.Join, List.dropWhile]
      simp only [decide_True, decide_False, show ("cids" : String) ≠ "" by decide]
      congr 1
      apply String.ext
      simp [Join, joinSlash, String.data_append, hsl, hcol]
    rw [hj1, hj2, Clean_idem,
      Clean_append_safe2 "cids" name (":" ++ t) (by decide) (by decide) hname ht]
    apply String.ext
    simp [String.data_append, hsl, hcol, hcs]
  · have hj1 : filepath.Join [path, "cids"] = filepath.Clean (path ++ "/" ++ "cids") := by
      simp only [filepath.Join, List.dropWhile, hp, decide_False]
      congr 1
      apply String.ext
      simp [Join, joinSlash, String.data_append, hsl]
    have hj2 : saveCID.cidPath path name t
        = filepath.Clean (path ++ "/" ++ "cids" ++ "/" ++ name ++ "/" ++ (":" ++ t)) := by
      simp only [saveCID.cidPath, filepath.Join, List.dropWhile, hp, decide_False]
      congr 1
      apply String.ext
      simp [Join, joinSlash, String.data_append, hsl, hcol]
    have hbne : path ++ "/" ++ "cids" ≠ "" := by
      intro h
      have := congrArg String.data h
      simp [String.data_append] at this
    have hd : (path ++ "/" ++ "cids").data = path.data ++ '/' :: ("cids" : String).data := by
      simp [String.data_append, hsl]
    have hcids : ∀ c ∈ splitSlash ("cids" : String).data, realElem c = true := by decide
    have he : cleanElems (decide ((path ++ "/" ++ "cids").data.head? = some '/'))
        (path ++ "/" ++ "cids").data ≠ [] := by
      rw [hd, cleanElems_append_safe _ _ _ hcids]
      have : splitSlash ("cids" : String).data ≠ [] := splitSlash_ne_nil _
      simp [this]
    rw [hj1, hj2, Clean_idem,
      Clean_append_safe2 (path ++ "/" ++ "cids") name (":" ++ t) hbne he hname ht]
    apply String.ext
    simp [String.data_append, hsl, hcol, hcs]

/-! ## Strings as bytes -/

theorem toNat_ofNat_byte (k : Nat) (h : k < 256) : (UInt8.ofNat k).toNat = k := by
  show k % 256 = k
  exact Nat.mod_eq_of_lt h

theorem Char.toNat_bound (c : Char) : c.toNat < 1114112 := by
  have := c.valid
  simp [UInt32.isValidChar, Nat.isValidChar] at this
  simp [Char.toNat]
  omega

/-- The decoder reads the bytes of one character back as that character. -/
theorem decode_rune (c : Char) (d : Decoder) (hd : d.need = 0) (rest : Bytes) :
    (encodeRune c ++ rest).foldl Decoder.step d
      = rest.foldl Decoder.step { out := c :: d.out, need := 0, acc := 0 } := by
  have hb := Char.toNat_bound c
  have hc := Char.ofNat_toNat c
  unfold encodeRune
  simp only
  by_cases h1 : c.toNat < 128
  · simp only [h1, if_true, List.cons_append, List.nil_append, List.foldl_cons]
    congr 1
    simp [Decoder.step, hd, Decoder.start, toNat_ofNat_byte _ (show c.toNat < 256 by omega),
      h1, hc]
  · by_cases h2 : c.toNat < 2048
    · simp only [h1, h2, if_true, if_false, List.cons_append, List.nil_append, List.foldl_cons]
      congr 1
      have e0 := toNat_ofNat_byte (192 + c.toNat / 64) (by omega)
      have e1 := toNat_ofNat_byte (128 + c.toNat % 64) (by omega)
      have a0 : ¬ (192 + c.toNat / 64 < 128) := by omega
      have a1 : ¬ (192 + c.toNat / 64 < 192) := by omega
      have a2 : 192 + c.toNat / 64 < 224 := by omega
      have b0 : 128 ≤ 128 + c.toNat % 64 ∧ 128 + c.toNat % 64 < 192 := by omega
      simp [Decoder.step, hd, Decoder.start, e0, e1, a0, a1, a2, b0]
      rw [show c.toNat / 64 * 64 + c.toNat % 64 = c.toNat by omega]
      exact hc
    · by_cases h3 : c.toNat < 65536
      · simp only [h1, h2, h3, if_true, if_false, List.cons_append, List.nil_append,
          List.foldl_cons]
        congr 1
        have e0 := toNat_ofNat_byte (224 + c.toNat / 4096) (by omega)
        have e1 := toNat_ofNat_byte (128 + c.toNat / 64 % 64) (by omega)
        have e2 := toNat_ofNat_byte (128 + c.toNat % 64) (by omega)
        have a0 : ¬ (224 + c.toNat / 4096 < 128) := by omega
        have a1 : ¬ (224 + c.toNat / 4096 < 192) := by omega
        have a2 : ¬ (224 + c.toNat / 4096 < 224) := by omega
        have a3 : 224 + c.toNat / 4096 < 240 := by omega
        have b0 : 128 ≤ 128 + c.toNat / 64 % 64 ∧ 128 + c.toNat / 64 % 64 < 192 := by omega
        have b1 : 128 ≤ 128 + c.toNat % 64 ∧ 128 + c.toNat % 64 < 192 := by omega
        simp [Decoder.step, hd, Decoder.start, e0, e1, e2, a0, a1, a2, a3, b0, b1]
        rw [show (c.toNat / 4096 * 64 + c.toNat / 64 % 64) * 64 + c.toNat % 64 = c.toNat by
          omega]
        exact hc
      · simp only [h1, h2, h3, if_false, List.cons_append, List.nil_append, List.foldl_cons]
        congr 1
        have e0 := toNat_ofNat_byte (240 + c.toNat / 262144) (by omega)
        have e1 := toNat_ofNat_byte (128 + c.toNat / 4096 % 64) (by omega)
        have e2 := toNat_ofNat_byte (128 + c.toNat / 64 % 64) (by omega)
        have e3 := toNat_ofNat_byte (128 + c.toNat % 64) (by omega)
        have a0 : ¬ (240 + c.toNat / 262144 < 128) := by omega
        have a1 : ¬ (240 + c.toNat / 262144 < 192) := by omega
        have a2 : ¬ (240 + c.toNat / 262144 < 224) := by omega
        have a3 : ¬ (240 + c.toNat / 262144 < 240) := by omega
        have a4 : 240 + c.toNat / 262144 < 248 := by omega
        have b0 : 128 ≤ 128 + c.toNat / 4096 % 64 ∧ 128 + c.toNat / 4096 % 64 < 192 := by
          omega
        have b1 : 128 ≤ 128 + c.toNat / 64 % 64 ∧ 128 + c.toNat / 64 % 64 < 192 := by omega
        have b2 : 128 ≤ 128 + c.toNat % 64 ∧ 128 + c.toNat % 64 < 192 := by omega
        simp [Decoder.step, hd, Decoder.start, e0, e1, e2, e3, a0, a1, a2, a3, a4, b0, b1, b2]
        rw [show ((c.toNat / 262144 * 64 + c.toNat / 4096 % 64) * 64 + c.toNat / 64 % 64) * 64
            + c.toNat % 64 = c.toNat by omega]
        exact hc

theorem decode_runes (cs : List Char) (d : Decoder) (hd : d.need = 0) :
    ((encodeRunes cs).foldl Decoder.step d).need = 0 ∧
    ((encodeRunes cs).foldl Decoder.step d).out = cs.reverse ++ d.out := by
  induction cs generalizing d with
  | nil => exact ⟨hd, rfl⟩
  | cons c cs ih =>
    simp only [encodeRunes]
    rw [decode_rune c d hd]
    have h := ih { out := c :: d.out, need := 0, acc := 0 } rfl
    exact ⟨h.1, by rw [h.2]; simp⟩

/-- Go `string([]byte(s)) == s`. -/
theorem ofBytes_toBytes (s : String) : ofBytes (toBytes s) = s := by
  have h := decode_runes s.data { out := [], need := 0, acc := 0 } rfl
  apply String.ext
  simp only [ofBytes, toBytes]
  rw [if_pos h.1, h.2]
  simp

/-! ## The file store and its side table -/

theorem lookupNode_append_of_mem {V : Type} (n : Node) (v : V) (a b : List (Node × V))
    (hv : ∀ e ∈ a, e.2 = v) (hk : n ∈ a.map Prod.fst) :
    lookupNode n (a ++ b) = some v := by
  induction a with
  | nil => simp at hk
  | cons e a ih =>
    obtain ⟨n1, v1⟩ := e
    have hv1 : v1 = v := hv (n1, v1) (List.mem_cons_self _ _)
    by_cases h1 : n1 = n
    · simp [lookupNode, h1, hv1]
    · simp only [List.cons_append, lookupNode, h1, if_false]
      apply ih (fun e he => hv e (List.mem_cons_of_mem _ he))
      simp only [List.map_cons, List.mem_cons] at hk
      rcases hk with hk | hk
      · exact absurd hk.symm h1
      · exact hk

theorem lookupNode_mem {V : Type} (n : Node) (v : V) (l : List (Node × V))
    (h : lookupNode n l = some v) : n ∈ l.map Prod.fst := by
  induction l with
  | nil => simp [lookupNode] at h
  | cons e l ih =>
    obtain ⟨n1, v1⟩ := e
    by_cases h1 : n1 = n
    · subst h1
      exact List.mem_cons_self _ _
    · simp only [lookupNode, h1, if_false] at h
      exact List.mem_cons_of_mem _ (ih h)

/-- What a `WriteFile` that returns nil has done: the path names a node that is
no directory, and the file of that node is the first of the list. -/
theorem WriteFile_ok (fs fs1 : FS) (p : String) (v : Bytes)
    (h : fs.WriteFile p v = (none, fs1)) :
    ∃ n, resolveIn fs.dirs p = some n ∧ isDirIn fs.dirs n = false ∧
      fs1 = { fs with files := (n, v) :: fs.files } := by
  unfold FS.WriteFile at h
  by_cases hd : fs.deny p = true
  · simp [hd] at h
  · simp only [hd, Bool.false_eq_true, if_false, FS.resolve, FS.isDir] at h
    cases hr : resolveIn fs.dirs p with
    | none => simp [hr] at h
    | some n =>
      simp only [hr] at h
      by_cases hdir : isDirIn fs.dirs n = true
      · simp [hdir] at h
      · simp only [hdir, Bool.false_eq_true, if_false, Prod.mk.injEq, true_and] at h
        exact ⟨n, rfl, by simpa using hdir, h.symm⟩

/-- What `writeEach` has done when it returns nil: no directory was made, every
path names a node that is no directory, and the files of these nodes stand in
front of the list, the last written first. -/
theorem writeEach_ok (fs fs2 : FS) (items : List (String × Bytes))
    (h : fs.writeEach items = (none, fs2)) :
    fs2.dirs = fs.dirs ∧ fs2.deny = fs.deny ∧
    fs2.files = (items.filterMap
        (fun it => (resolveIn fs.dirs it.1).map (fun n => (n, it.2)))).reverse ++ fs.files ∧
    ∀ it ∈ items, ∃ n, resolveIn fs.dirs it.1 = some n ∧ isDirIn fs.dirs n = false := by
  induction items generalizing fs with
  | nil =>
    simp only [FS.writeEach, Prod.mk.injEq, true_and] at h
    subst h
    exact ⟨rfl, rfl, rfl, fun _ hit => by cases hit⟩
  | cons e items ih =>
    obtain ⟨p, v⟩ := e
    simp only [FS.writeEach] at h
    cases hw : fs.WriteFile p v with
    | mk err fs1 =>
      cases err with
      | some e1 => simp [hw] at h
      | none =>
        simp only [hw] at h
        obtain ⟨n, hn, hdir, hfs1⟩ := WriteFile_ok fs fs1 p v hw
        obtain ⟨h1, h2, h3, h4⟩ := ih fs1 h
        have hd1 : fs1.dirs = fs.dirs := by rw [hfs1]
        have hy1 : fs1.deny = fs.deny := by rw [hfs1]
        have hf1 : fs1.files = (n, v) :: fs.files := by rw [hfs1]
        refine ⟨h1.trans hd1, h2.trans hy1, ?_, ?_⟩
        · rw [h3, hd1, hf1]
          simp [hn]
        · intro it hit
          rcases List.mem_cons.mp hit with rfl | hit2
          · exact ⟨n, hn, hdir⟩
          · rw [← hd1]
            exact h4 it hit2

theorem isDirIn_cons (dirs : List Node) (m n : Node) (h : isDirIn dirs n = true) :
    isDirIn (m :: dirs) n = true := by
  unfold isDirIn at h ⊢
  rw [Bool.or_eq_true] at h ⊢
  rcases h with h | h
  · exact Or.inl h
  · right
    rw [List.contains_iff_exists_mem_beq] at h ⊢
    obtain ⟨x, hx, hb⟩ := h
    exact ⟨x, List.mem_cons_of_mem _ hx, hb⟩

theorem isDirIn_self (dirs : List Node) (n : Node) : isDirIn (n :: dirs) n = true := by
  unfold isDirIn
  rw [Bool.or_eq_true]
  right
  rw [List.contains_iff_exists_mem_beq]
  exact ⟨n, List.mem_cons_self _ _, by simp⟩

/-- Once a regular file was in the way, `os.MkdirAll` makes nothing more. -/
theorem mkdir_walk_none (files : List (Node × Bytes)) (rooted : Bool) (elems : List (List Char))
    (dirs : List Node) :
    elems.foldl (mkdirStep files rooted) (dirs, none) = (dirs, none) := by
  induction elems with
  | nil => rfl
  | cons c elems ih => simpa [List.foldl_cons, mkdirStep] using ih

/-- The walk of `os.MkdirAll` that comes to an end: the directories there were
are still there, the node reached is a directory, and with these directories
(or more) the operating system walks the same elements to the same node. -/
theorem mkdir_walk (files : List (Node × Bytes)) (rooted : Bool) (elems : List (List Char))
    (dirs0 dirsF : List Node) (st0 stF : List (List Char))
    (h0 : isDirIn dirs0 (rooted, st0) = true)
    (h : elems.foldl (mkdirStep files rooted) (dirs0, some st0) = (dirsF, some stF)) :
    (∀ n, isDirIn dirs0 n = true → isDirIn dirsF n = true) ∧
    isDirIn dirsF (rooted, stF) = true ∧
    ∀ D, (∀ n, isDirIn dirsF n = true → isDirIn D n = true) →
      elems.foldl (walkStep D rooted) (some st0) = some stF := by
  induction elems generalizing dirs0 st0 with
  | nil =>
    simp only [List.foldl_nil, Prod.mk.injEq, Option.some.injEq] at h
    obtain ⟨h1, h2⟩ := h
    subst h1 h2
    exact ⟨fun _ hn => hn, h0, fun _ _ => rfl⟩
  | cons c elems ih =>
    rw [List.foldl_cons] at h
    by_cases hd : isDirIn dirs0 (rooted, cleanStep rooted st0 c) = true
    · have hs : mkdirStep files rooted (dirs0, some st0) c
          = (dirs0, some (cleanStep rooted st0 c)) := by
        simp only [mkdirStep, hd, if_true]
      rw [hs] at h
      obtain ⟨h1, h2, h3⟩ := ih dirs0 (cleanStep rooted st0 c) hd h
      refine ⟨h1, h2, fun D hD => ?_⟩
      rw [List.foldl_cons]
      have : walkStep D rooted (some st0) c = some (cleanStep rooted st0 c) := by
        simp only [walkStep, hD _ (h1 _ h0), if_true]
      rw [this]
      exact h3 D hD
    · by_cases hf : (lookupNode (rooted, cleanStep rooted st0 c) files).isSome = true
      · have hs : mkdirStep files rooted (dirs0, some st0) c = (dirs0, none) := by
          simp only [mkdirStep, hd, hf, if_true, Bool.false_eq_true, if_false]
        rw [hs, mkdir_walk_none] at h
        simp at h
      · have hs : mkdirStep files rooted (dirs0, some st0) c
            = ((rooted, cleanStep rooted st0 c) :: dirs0, some (cleanStep rooted st0 c)) := by
          simp only [mkdirStep, hd, hf, Bool.false_eq_true, if_false]
        rw [hs] at h
        obtain ⟨h1, h2, h3⟩ := ih _ (cleanStep rooted st0 c) (isDirIn_self _ _) h
        have h1b : ∀ n, isDirIn dirs0 n = true → isDirIn dirsF n = true :=
          fun n hn => h1 n (isDirIn_cons _ _ _ hn)
        refine ⟨h1b, h2, fun D hD => ?_⟩
        rw [List.foldl_cons]
        have : walkStep D rooted (some st0) c = some (cleanStep rooted st0 c) := by
          simp only [walkStep, hD _ (h1b _ h0), if_true]
        rw [this]
        exact h3 D hD

/-- What `os.MkdirAll` has done when it returns nil: no file is touched, every
directory is still one, and the path names a directory. -/
theorem MkdirAll_ok (fs fs1 : FS) (p : String) (h : fs.MkdirAll p = (none, fs1)) :
    fs1.files = fs.files ∧ fs1.deny = fs.deny ∧
    (∀ n, isDirIn fs.dirs n = true → isDirIn fs1.dirs n = true) ∧
    ∃ n, resolveIn fs1.dirs p = some n ∧ isDirIn fs1.dirs n = true := by
  unfold FS.MkdirAll at h
  by_cases hd : fs.deny p = true
  · simp [hd] at h
  · by_cases hp : p = ""
    · subst hp
      simp [hd] at h
    · simp only [hd, hp, Bool.false_eq_true, if_false] at h
      cases hw : (splitSlash p.data).foldl
          (mkdirStep fs.files (decide (p.data.head? = some '/'))) (fs.dirs, some []) with
      | mk dirs st =>
        cases st with
        | none => simp [hw] at h
        | some stF =>
          simp only [hw, Prod.mk.injEq, true_and] at h
          subst h
          obtain ⟨h1, h2, h3⟩ := mkdir_walk fs.files _ _ fs.dirs dirs [] stF (by rfl) hw
          refine ⟨rfl, rfl, h1, (decide (p.data.head? = some '/'), stF), ?_, h2⟩
          simp only [resolveIn, hp, if_false]
          rw [h3 dirs (fun _ hn => hn)]
          rfl

theorem Clean_congr (p q : String) (hp : p ≠ "") (hq : q ≠ "")
    (hh : p.data.head? = q.data.head?)
    (he : ∀ r, cleanElems r p.data = cleanElems r q.data) :
    filepath.Clean p = filepath.Clean q := by
  unfold filepath.Clean
  simp only [hp, hq, if_false, hh, he]

theorem cleanElems_trailing (r : Bool) (S : List Char) :
    cleanElems r (S ++ ['/']) = cleanElems r (S ++ ['/', '/']) := by
  unfold cleanElems
  rw [splitSlash_append_slash S [], splitSlash_append_slash S ['/'], List.foldl_append,
    List.foldl_append]
  simp [splitSlash, cleanStep]

theorem Join_data_snoc (l : List String) (a x : String) :
    (Join (l ++ [a, x])).data = (Join (l ++ [a])).data ++ '/' :: x.data := by
  have h := joinSlash_append ((l ++ [a]).map String.data) [x.data] (by simp) (by simp)
  simp only [Join, List.map_append, List.map_cons, List.map_nil] at h ⊢
  have e : List.map String.data l ++ [a.data, x.data]
      = List.map String.data l ++ [a.data] ++ [x.data] := by simp
  rw [e, h]
  rfl

/-- The path of the manifest with the empty reference is the path of the
directory of the manifests. -/
theorem manifestPath_empty (location cid : String) :
    filepath.Join [location, cid, "manifests", ""]
      = filepath.Join [location, cid, "manifests", "/"] := by
  have pre_eq : ∃ pre : List String,
      filepath.Join [location, cid, "manifests", ""]
        = filepath.Clean (Join (pre ++ ["manifests", ""])) ∧
      filepath.Join [location, cid, "manifests", "/"]
        = filepath.Clean (Join (pre ++ ["manifests", "/"])) := by
    by_cases hl : location = ""
    · by_cases hc : cid = ""
      · exact ⟨[], by simp [filepath.Join, List.dropWhile, hl, hc],
          by simp [filepath.Join, List.dropWhile, hl, hc]⟩
      · exact ⟨[cid], by simp [filepath.Join, List.dropWhile, hl, hc],
          by simp [filepath.Join, List.dropWhile, hl, hc]⟩
    · exact ⟨[location, cid], by simp [filepath.Join, List.dropWhile, hl],
        by simp [filepath.Join, List.dropWhile, hl]⟩
  obtain ⟨pre, h1, h2⟩ := pre_eq
  rw [h1, h2]
  have d1 := Join_data_snoc pre "manifests" ""
  have d2 := Join_data_snoc pre "manifests" "/"
  have e1 : ("" : String).data = [] := rfl
  have e2 : ("/" : String).data = ['/'] := rfl
  rw [e1] at d1
  rw [e2] at d2
  apply Clean_congr
  · intro h
    have := congrArg String.data h
    rw [d1] at this
    simp at this
  · intro h
    have := congrArg String.data h
    rw [d2] at this
    simp at this
  · rw [d1, d2]
    cases (Join (pre ++ ["manifests"])).data <;> rfl
  · intro r
    rw [d1, d2]
    exact cleanElems_trailing r _

/-- An image with a manifest under the empty reference is not saved:
`saveImage` has made the directory of the manifests, and the file of that
manifest would be written over it. -/
theorem saveImage_no_empty_key (fs fs2 : FS) (location cid : String) (image : Image)
    (h : saveImage fs location cid image = (none, fs2)) : "" ∉ image.Manifests.keys := by
  intro hk
  unfold saveImage at h
  simp only at h
  cases hm : fs.MkdirAll (filepath.Join [location, cid, "manifests", "/"]) with
  | mk e1 fs1 =>
    cases e1 with
    | some err => simp [hm] at h
    | none =>
      simp only [hm] at h
      obtain ⟨_, _, _, n, hn, hdir⟩ := MkdirAll_ok fs fs1 _ hm
      cases hw : fs1.writeEach (image.Manifests.entries.map
          (fun e => (filepath.Join [location, cid, "manifests", e.1], e.2))) with
      | mk e2 fs3 =>
        cases e2 with
        | some err => simp [hw] at h
        | none =>
          obtain ⟨_, _, _, hall⟩ := writeEach_ok fs1 fs3 _ hw
          obtain ⟨e, he, hek⟩ := List.mem_map.mp hk
          have hit : (filepath.Join [location, cid, "manifests", e.1], e.2)
              ∈ image.Manifests.entries.map
                (fun e => (filepath.Join [location, cid, "manifests", e.1], e.2)) :=
            List.mem_map.mpr ⟨e, he, rfl⟩
          obtain ⟨n2, hn2, hdir2⟩ := hall _ hit
          simp only [hek, manifestPath_empty] at hn2
          rw [hn] at hn2
          cases hn2
          rw [hdir] at hdir2
          cases hdir2

/-- What `saveCID` has done when it returns nil: the image has a name, the
directory of the name was made, and one file per manifest key that is no digest
was written, each holding the identifier. -/
theorem saveCID_ok (fs fs2 : FS) (location cid : String) (image : Image)
    (h : saveCID fs location cid image = (none, fs2)) :
    image.Name ≠ "" ∧
    ∃ fsm, fs.MkdirAll (filepath.Dir (saveCID.cidPath location image.Name "/")) = (none, fsm) ∧
      fsm.writeEach ((image.Manifests.keys.filter (fun k => !HasPrefix k "sha256:")).map
        (fun k => (saveCID.cidPath location image.Name k, toBytes cid))) = (none, fs2) := by
  unfold saveCID at h
  by_cases hn : image.Name = ""
  · simp [hn] at h
  · simp only [hn, if_false] at h
    cases hm : fs.MkdirAll (filepath.Dir (saveCID.cidPath location image.Name "/")) with
    | mk e1 fsm =>
      cases e1 with
      | some err => simp [hm] at h
      | none =>
        simp only [hm] at h
        exact ⟨hn, fsm, rfl, h⟩

theorem fileSave_ok (L : Lib) (C : CidLib) (r : FileStore) (fs fs2 : FS) (I : Image)
    (cid : String) (h : r.Save L C fs (some I) = ((cid, none), fs2)) :
    ∃ fs1, saveImage fs r.location cid I = (none, fs1) ∧
      saveCID fs1 r.location cid I = (none, fs2) := by
  unfold FileStore.Save at h
  simp only at h
  split_ifs at h with h1
  · simp at h
  · cases hc : computeCID L C I with
    | mk c e =>
      cases e with
      | some err => simp [hc] at h
      | none =>
        cases hi : saveImage fs r.location c I with
        | mk e1 fs1 =>
          cases e1 with
          | some err => simp [hc, hi] at h
          | none =>
            cases hs : saveCID fs1 r.location c I with
            | mk e2 fs3 =>
              cases e2 with
              | some err => simp [hc, hi, hs] at h
              | none =>
                simp [hc, hi, hs] at h
                obtain ⟨h2, h3⟩ := h
                subst h2 h3
                exact ⟨fs1, hi, hs⟩

/-- The files `saveCID` has written, read back: for a key that is no digest the
file at its path holds the identifier. -/
theorem saveCID_read (fs fs2 : FS) (location cid : String) (image : Image)
    (h : saveCID fs location cid image = (none, fs2))
    (t : String) (ht : t ∈ image.Manifests.keys) (hsha : HasPrefix t "sha256:" = false) :
    fs2.ReadFile (saveCID.cidPath location image.Name t) = .ok (toBytes cid) := by
  obtain ⟨_, fsm, _, hw⟩ := saveCID_ok fs fs2 location cid image h
  obtain ⟨hdirs, _, hfiles, hall⟩ := writeEach_ok fsm fs2 _ hw
  have hit : (saveCID.cidPath location image.Name t, toBytes cid)
      ∈ (image.Manifests.keys.filter (fun k => !HasPrefix k "sha256:")).map
        (fun k => (saveCID.cidPath location image.Name k, toBytes cid)) :=
    List.mem_map.mpr ⟨t, List.mem_filter.mpr ⟨ht, by simp [hsha]⟩, rfl⟩
  obtain ⟨n, hn, hdir⟩ := hall _ hit
  have hread : lookupNode n fs2.files = some (toBytes cid) := by
    rw [hfiles]
    apply lookupNode_append_of_mem
    · intro e he
      simp only [List.mem_reverse, List.mem_filterMap, List.mem_map] at he
      obtain ⟨it, ⟨k, _, rfl⟩, hmap⟩ := he
      cases hr : resolveIn fsm.dirs (saveCID.cidPath location image.Name k) with
      | none => simp [hr] at hmap
      | some m =>
        simp only [hr, Option.map_some', Option.some.injEq] at hmap
        rw [← hmap]
    · have hmem : (n, toBytes cid) ∈ ((image.Manifests.keys.filter
            (fun k => !HasPrefix k "sha256:")).map
            (fun k => (saveCID.cidPath location image.Name k, toBytes cid))).filterMap
            (fun it => (resolveIn fsm.dirs it.1).map (fun n => (n, it.2))) :=
        List.mem_filterMap.mpr ⟨_, hit, by rw [hn]; rfl⟩
      exact List.mem_map.mpr ⟨(n, toBytes cid), List.mem_reverse.mpr hmem, rfl⟩
  simp only [FS.ReadFile, FS.resolve, FS.isDir, hdirs, hn, hdir, Bool.false_eq_true, if_false,
    hread]

/-- C18, the claim as stated, at concrete inputs. On the empty file system and
the store at `/data`, an image named `lib` with one manifest under the reference
`x/../y`, `a/` or `a/.` is saved without error: `filepath.Join` cleans the path
of the side-table file to `/data/cids/lib/y` or `/data/cids/lib/:a`. `Resolve`
of the name and that reference then opens `/data/cids/lib/:x/../y`,
`/data/cids/lib/:a/` or `/data/cids/lib/:a/.` as it is written, which names no
file, and returns the error. -/
theorem C18_file_round_trip_counterexample :
    (∀ t ∈ ["x/../y", "a/", "a/."],
      PathSafe "lib" = true ∧ HasPrefix t "sha256:" = false ∧
      ∃ fs2 cid err,
        (NewFileStore "/data").Save exampleLib exampleCidLib exampleFS
            (some { Name := "lib",
                    Manifests := { entries := [(t, [77])], nodup := by simp },
                    Blobs := Table.empty }) = ((cid, none), fs2) ∧
        (NewFileStore "/data").Resolve fs2 "lib" t = .error err) ∧
    ¬ (∀ (L : Lib) (C : CidLib) (path : String) (fs fs2 : FS) (I : Image) (cid : String),
        PathSafe I.Name = true → I.Manifests.len ≠ 0 →
        (NewFileStore path).Save L C fs (some I) = ((cid, none), fs2) →
        ∀ t ∈ I.Manifests.keys, HasPrefix t "sha256:" = false →
          (NewFileStore path).Resolve fs2 I.Name t = .ok (some [cid])) := by
  have h3 : ∀ t ∈ ["x/../y", "a/", "a/."],
      PathSafe "lib" = true ∧ HasPrefix t "sha256:" = false ∧
      ∃ fs2 cid err,
        (NewFileStore "/data").Save exampleLib exampleCidLib exampleFS
            (some { Name := "lib",
                    Manifests := { entries := [(t, [77])], nodup := by simp },
                    Blobs := Table.empty }) = ((cid, none), fs2) ∧
        (NewFileStore "/data").Resolve fs2 "lib" t = .error err := by
    intro t ht
    simp only [List.mem_cons, List.mem_singleton, List.not_mem_nil, or_false] at ht
    rcases ht with rfl | rfl | rfl
    · exact ⟨by decide, by decide, _, _, _, by rfl, by rfl⟩
    · exact ⟨by decide, by decide, _, _, _, by rfl, by rfl⟩
    · exact ⟨by decide, by decide, _, _, _, by rfl, by rfl⟩
  refine ⟨h3, ?_⟩
  intro h
  obtain ⟨_, hsha, fs2, cid, err, hsave, hres⟩ := h3 "x/../y" (by simp)
  have h1 := h exampleLib exampleCidLib "/data" exampleFS fs2 _ cid (by decide) (by decide)
    hsave "x/../y" (by decide) hsha
  rw [hres] at h1
  cases h1

/-- C18, amended. When `FileStore.Save` of an image with a safe name returns
the identifier `cid` (a string that `TrimSpace` leaves as it is), `Resolve` of
the image's name and of a manifest key `t` returns `[cid]` for every `t` that
does not start with `sha256:` and whose file name `":" + t` has no empty, `.`
or `..` path element; and every file `saveCID` writes holds the identifier and
is the file of a key that does not start with `sha256:`. -/
theorem C18_file_round_trip (L : Lib) (C : CidLib) (path : String) (fs fs2 : FS)
    (I : Image) (cid : String)
    (hname : PathSafe I.Name = true)
    (hsave : (NewFileStore path).Save L C fs (some I) = ((cid, none), fs2))
    (hcid : TrimSpace cid = cid) :
    (∀ t ∈ I.Manifests.keys, HasPrefix t "sha256:" = false →
      PathSafe (":" ++ t) = true →
      (NewFileStore path).Resolve fs2 I.Name t = .ok (some [cid])) ∧
    (∀ (fa fb : FS), saveCID fa path cid I = (none, fb) →
      ∃ written, fb.files = written ++ fa.files ∧
        ∀ e ∈ written, e.2 = toBytes cid ∧
          ∃ t ∈ I.Manifests.keys, HasPrefix t "sha256:" = false ∧
            fb.resolve (saveCID.cidPath path I.Name t) = some e.1) := by
  constructor
  · intro t ht hsha hsafe
    obtain ⟨fs1, hi, hs⟩ := fileSave_ok L C (NewFileStore path) fs fs2 I cid hsave
    have hloc : (NewFileStore path).location = path := rfl
    rw [hloc] at hs hi
    have hne : t ≠ "" := by
      intro e
      subst e
      exact saveImage_no_empty_key fs fs1 path cid I hi ht
    have hpath := cidPath_eq_resolver_path path I.Name t hname hsafe
    have hread := saveCID_read fs1 fs2 path cid I hs t ht hsha
    simp only [FileStore.Resolve, fileResolver.Resolve, hne, if_false]
    rw [← hpath, hread]
    simp [ofBytes_toBytes, hcid]
  · intro fa fb hs
    obtain ⟨_, fsm, hm, hw⟩ := saveCID_ok fa fb path cid I hs
    obtain ⟨hmf, _, _, _⟩ := MkdirAll_ok fa fsm _ hm
    obtain ⟨hdirs, _, hfiles, _⟩ := writeEach_ok fsm fb _ hw
    refine ⟨_, by rw [hfiles, hmf], ?_⟩
    intro e he
    simp only [List.mem_reverse, List.mem_filterMap, List.mem_map] at he
    obtain ⟨it, ⟨k, hk, rfl⟩, hmap⟩ := he
    cases hr : resolveIn fsm.dirs (saveCID.cidPath path I.Name k) with
    | none => simp [hr] at hmap
    | some m =>
      simp only [hr, Option.map_some', Option.some.injEq] at hmap
      subst hmap
      have hk2 := List.mem_filter.mp hk
      exact ⟨rfl, k, hk2.1, by simpa using hk2.2, by simp only [FS.resolve, hdirs, hr]⟩

/-- C18 amended, on the store at `/data` and `exampleImage`: after `Save`,
`Resolve("lib/foo", "latest")` returns the identifier. -/
theorem C18_file_round_trip_witness :
    (NewFileStore "/data").Resolve
      ((NewFileStore "/data").Save exampleLib exampleCidLib exampleFS (some exampleImage)).2
      "lib/foo" "latest"
      = .ok (some [(computeCID exampleLib exampleCidLib exampleImage).1]) :=
  (C18_file_round_trip exampleLib exampleCidLib "/data" exampleFS
    ((NewFileStore "/data").Save exampleLib exampleCidLib exampleFS (some exampleImage)).2
    exampleImage (computeCID exampleLib exampleCidLib exampleImage).1
    (by decide) (by rfl) (by rfl)).1 "latest" (by decide) (by decide) (by decide)


/-- An image whose one manifest has the empty reference is refused by
`FileStore.Save` on the empty file system: the file would be written over the
directory of the manifests. -/
theorem save_empty_reference_fails :
    ((NewFileStore "/data").Save exampleLib exampleCidLib exampleFS
        (some exampleImageNoRef)).1
      = ("", some (.other "open /data/b7368613235363a/manifests: is a directory")) := by
  rfl

/-- The walk to a file in a directory goes through the directory. -/
theorem resolve_child (dirs : List Node) (d n : String) (k : Node)
    (hd : d ≠ "") (hn : realElem n.data = true) (hs : '/' ∉ n.data)
    (h : resolveIn dirs (d ++ "/" ++ n) = some k) :
    ∃ st, resolveIn dirs d = some (decide (d.data.head? = some '/'), st) ∧
      isDirIn dirs (decide (d.data.head? = some '/'), st) = true ∧
      k = (decide (d.data.head? = some '/'), n.data :: st) := by
  have hsl : ("/" : String).data = ['/'] := rfl
  have hdata : (d ++ "/" ++ n).data = d.data ++ '/' :: n.data := by
    simp [String.data_append, hsl]
  have hne : d ++ "/" ++ n ≠ "" := by
    intro e
    have := congrArg String.data e
    rw [hdata] at this
    simp at this
  have hhead : (d ++ "/" ++ n).data.head? = d.data.head? := by
    rw [hdata]
    exact head_append_of_ne_nil _ _ (String.data_ne_nil d hd)
  unfold resolveIn at h
  rw [if_neg hne, hhead, hdata, splitSlash_append_slash, splitSlash_of_not_mem n.data hs,
    List.foldl_append, List.foldl_cons, List.foldl_nil] at h
  cases hw : (splitSlash d.data).foldl (walkStep dirs (decide (d.data.head? = some '/')))
      (some []) with
  | none => simp [hw, walkStep] at h
  | some st =>
    rw [hw] at h
    by_cases hdir : isDirIn dirs (decide (d.data.head? = some '/'), st) = true
    · simp only [walkStep, hdir, if_true, Option.map_some', Option.some.injEq] at h
      refine ⟨st, ?_, hdir, ?_⟩
      · simp only [resolveIn, hd, if_false, hw, Option.map_some']
      · rw [← h, cleanStep_real _ _ _ hn]
    · simp [walkStep, hdir] at h

/-- A file `dir/n` that can be read shows in the listing of `dir` under its name `n`. -/
theorem ReadDir_mem_of_file (fs : FS) (dir n : String) (b : Bytes)
    (hd : dir ≠ "") (hn : realElem n.data = true) (hs : '/' ∉ n.data)
    (h : fs.ReadFile (dir ++ "/" ++ n) = .ok b) :
    ∃ names, fs.ReadDir dir = .ok names ∧ n ∈ names := by
  unfold FS.ReadFile FS.resolve FS.isDir at h
  cases hr : resolveIn fs.dirs (dir ++ "/" ++ n) with
  | none => simp [hr] at h
  | some k =>
    simp only [hr] at h
    obtain ⟨st, hdres, hdir, hk⟩ := resolve_child fs.dirs dir n k hd hn hs hr
    by_cases hkd : isDirIn fs.dirs k = true
    · simp [hkd] at h
    · simp only [hkd, Bool.false_eq_true, if_false] at h
      cases hl : lookupNode k fs.files with
      | none => simp [hl] at h
      | some v =>
        have hmemk : k ∈ fs.files.map Prod.fst := lookupNode_mem k v fs.files hl
        have hne2 : n.data ≠ ['.', '.'] := by
          intro e
          rw [e] at hn
          exact absurd hn (by decide)
        have hchild : childName (decide (dir.data.head? = some '/'), st) k = some n := by
          rw [hk]
          simp [childName, hne2]
        have hmem : n ∈ (fs.files.map Prod.fst ++ fs.dirs).filterMap
            (childName (decide (dir.data.head? = some '/'), st)) :=
          List.mem_filterMap.mpr ⟨k, List.mem_append_left _ hmemk, hchild⟩
        refine ⟨_, ?_, (mem_sortStrings _ n).mpr ((mem_uniq _ n).mpr hmem)⟩
        simp only [FS.ReadDir, FS.resolve, FS.isDir, hdres, hdir, if_true]

/-- C19, the claim as stated fails: with the side tables of the tags `v1`, `v2`
and `v2`, `v3` written by `saveCID`, the composite `Resolve("repo", "")` does
not return `[v1, v2, v3]`. -/
theorem C19_listing_counterexample :
    exampleComposite.Resolve "repo" "" ≠ .ok (some ["v1", "v2", "v3"]) := by
  intro h
  have h2 : exampleComposite.Resolve "repo" "" = .ok (some [":v1", ":v2", ":v3"]) := by rfl
  rw [h2] at h
  injection h with h3
  injection h3 with h4
  exact absurd h4 (by decide)

/-- C19, amended. With those side tables the composite `Resolve("repo", "")`
returns `[:v1, :v2, :v3]`, the names of the files; and in general, for every
tag `t` (not empty, without separator) that a file resolver resolves, its
listing holds the name `":" + t`: the tag is that name without its colon. -/
theorem C19_listing_names :
    exampleComposite.Resolve "repo" "" = .ok (some [":v1", ":v2", ":v3"]) ∧
    ∀ (r : fileResolver) (fs : FS) (repo t : String) (cids : List String),
      t ≠ "" → '/' ∉ t.data → r.Resolve fs repo t = .ok (some cids) →
      ∃ names, r.Resolve fs repo "" = .ok (some names) ∧ (":" ++ t) ∈ names := by
  refine ⟨by rfl, ?_⟩
  intro r fs repo t cids ht hs h
  have hsl : ("/" : String).data = ['/'] := rfl
  have hcol : (":" : String).data = [':'] := rfl
  have hcs : ("/:" : String).data = ['/', ':'] := rfl
  simp only [fileResolver.Resolve, ht, if_false] at h
  cases hl : fs.ReadFile (r.root ++ "/" ++ repo ++ "/:" ++ t) with
  | error e => simp [hl] at h
  | ok b =>
    have hpath : r.root ++ "/" ++ repo ++ "/:" ++ t = (r.root ++ "/" ++ repo) ++ "/" ++ (":" ++ t) := by
      apply String.ext
      simp [String.data_append, hsl, hcol, hcs]
    rw [hpath] at hl
    have hd : r.root ++ "/" ++ repo ≠ "" := by
      intro e
      have := congrArg String.data e
      simp [String.data_append, hsl] at this
    have hn : realElem (":" ++ t).data = true := by
      simp only [String.data_append, hcol, List.singleton_append]
      cases t.data with
      | nil => decide
      | cons c cs => simp [realElem]
    have hns : '/' ∉ (":" ++ t).data := by
      simp only [String.data_append, hcol, List.singleton_append, List.mem_cons, not_or]
      exact ⟨by decide, hs⟩
    obtain ⟨names, hdir, hmem⟩ := ReadDir_mem_of_file fs (r.root ++ "/" ++ repo) (":" ++ t) b
      hd hn hns hl
    refine ⟨names, ?_, hmem⟩
    have hne : names ≠ [] := List.ne_nil_of_mem hmem
    simp [fileResolver.Resolve, hdir, hne]

/-- C19 amended, on the resolver of `/r1/cids`: the tag `v1` resolves and the
listing holds `:v1`. -/
theorem C19_listing_names_witness :
    ∃ names, (NewFileResolver "file:/r1/cids").Resolve exampleTagsFS "repo" ""
        = .ok (some names) ∧ (":" ++ "v1") ∈ names :=
  C19_listing_names.2 (NewFileResolver "file:/r1/cids") exampleTagsFS "repo" "v1" ["CID1"]
    (by decide) (by decide) (by rfl)

/-! ## More claims about the composite resolver and the blob engine -/

/-- The loop of `resolver.Resolve` when every sub-resolver still to consult
returns nil without error: it reaches the statements after the loop with the
list it started from. -/
theorem resolve_loop_all_nil (repo ref : String) (subs : List CIDResolver) (list : List String)
    (h : ∀ re ∈ subs, re repo ref = .ok none) :
    resolver.Resolve.loop repo ref subs list = .ok (some (sortStrings (uniq list))) := by
  induction subs with
  | nil => rfl
  | cons re rest ih =>
    have h1 := h re (List.mem_cons_self _ _)
    simp only [resolver.Resolve.loop, h1]
    exact ih (fun t ht => h t (List.mem_cons_of_mem _ ht))

/-- C30. Composite resolver with nothing found: when every sub-resolver returns
a nil result without error, which includes the composite of no sub-resolvers,
`Resolve` returns the empty, non-nil list and a nil error, for every reference
and so for every non-empty one; it is not a not-found error. -/
theorem C30_nothing_found (r : resolver) (repo ref : String)
    (h : ∀ re ∈ r.resolvers, re repo ref = .ok none) :
    r.Resolve repo ref = .ok (some []) ∧
      ∀ name, r.Resolve repo ref ≠ .error (.NotFound name) := by
  have h1 : r.Resolve repo ref = .ok (some []) := by
    unfold resolver.Resolve
    rw [resolve_loop_all_nil repo ref r.resolvers [] h]
    rfl
  refine ⟨h1, fun name hn => ?_⟩
  rw [h1] at hn
  cases hn

/-- C30 on the composite of no sub-resolvers and on the composite of two
resolvers that know nothing, for the reference `latest`. -/
theorem C30_nothing_found_witness :
    (({ resolvers := [] } : resolver).Resolve "repo" "latest" = .ok (some []) ∧
      ∀ name, ({ resolvers := [] } : resolver).Resolve "repo" "latest"
        ≠ .error (.NotFound name)) ∧
    (({ resolvers := [fun _ _ => .ok none, fun _ _ => .ok none] } : resolver).Resolve
        "repo" "latest" = .ok (some []) ∧
      ∀ name, ({ resolvers := [fun _ _ => .ok none, fun _ _ => .ok none] } : resolver).Resolve
        "repo" "latest" ≠ .error (.NotFound name)) :=
  ⟨C30_nothing_found { resolvers := [] } "repo" "latest" (by simp),
   C30_nothing_found { resolvers := [fun _ _ => .ok none, fun _ _ => .ok none] }
    "repo" "latest" (by
      intro re hre
      simp only [List.mem_cons, List.mem_singleton, List.not_mem_nil, or_false] at hre
      rcases hre with rfl | rfl <;> rfl)⟩

theorem foldl_delete_mem {V : Type} (ds : List String) (m : GoMap V) (d : String)
    (h : d ∈ ds) : (ds.foldl GoMap.delete m) d = none := by
  induction ds generalizing m with
  | nil => cases h
  | cons a ds ih =>
    by_cases hd : d ∈ ds
    · exact ih (m.delete a) hd
    · rcases List.mem_cons.mp h with rfl | h1
      · cases hv : (ds.foldl GoMap.delete (m.delete d)) d with
        | none => exact hv
        | some v =>
          have := foldl_delete_some ds (m.delete d) d v hv
          simp [GoMap.delete] at this
      · exact absurd h1 hd

theorem foldl_delete_not_mem {V : Type} (ds : List String) (m : GoMap V) (k : String)
    (h : k ∉ ds) : (ds.foldl GoMap.delete m) k = m k := by
  induction ds generalizing m with
  | nil => rfl
  | cons a ds ih =>
    have h1 : k ∉ ds := fun hm => h (List.mem_cons_of_mem _ hm)
    have h2 : k ≠ a := fun e => h (e ▸ List.mem_cons_self _ _)
    rw [List.foldl_cons, ih (m.delete a) h1]
    simp [GoMap.delete, h2]

/-- C22. Repository tear-down cascade: called with the mutex free, `remove(repo)`
returns. When `layers[repo]` exists, afterwards the repo is absent from
`layers`, no digest of the former `layers[repo]` is a key of `contents`, every
`contents` entry under another key is unchanged, the layer lists of all other
repositories are unchanged and `uploads` is unchanged; when `layers[repo]` does
not exist the three tables are unchanged. -/
theorem C22_remove_cascade (b : blobs) (repo : String) (hl : b.lock = false) :
    ∃ b1, b.remove repo = .ret b1 ∧
      (∀ digests, b.layers repo = some digests →
        b1.layers repo = none ∧
        (∀ d ∈ digests, b1.contents d = none) ∧
        (∀ k, k ∉ digests → b1.contents k = b.contents k) ∧
        (∀ other, other ≠ repo → b1.layers other = b.layers other) ∧
        b1.uploads = b.uploads) ∧
      (b.layers repo = none →
        b1.contents = b.contents ∧ b1.layers = b.layers ∧ b1.uploads = b.uploads) := by
  unfold blobs.remove
  rw [hl]
  cases hd : b.layers repo with
  | none =>
    refine ⟨_, rfl, ?_, fun _ => ⟨rfl, rfl, rfl⟩⟩
    intro digests h
    cases h
  | some ds =>
    refine ⟨_, rfl, ?_, ?_⟩
    · intro digests h
      cases h
      refine ⟨by simp [GoMap.delete], ?_, ?_, ?_, rfl⟩
      · intro d hd2
        exact foldl_delete_mem ds b.contents d hd2
      · intro k hk
        exact foldl_delete_not_mem ds b.contents k hk
      · intro other ho
        simp [GoMap.delete, ho]
    · intro h
      cases h

/-- C22 on `exampleTwoRepos`: `remove("a")` drops `a`, `d1` and `d2` and keeps
`d3`, `b` and the upload. -/
theorem C22_remove_cascade_witness :
    ∃ b1, exampleTwoRepos.remove "a" = .ret b1 ∧
      b1.layers "a" = none ∧ b1.contents "d1" = none ∧ b1.contents "d2" = none ∧
      b1.contents "d3" = some [3] ∧ b1.layers "b" = some ["d3"] ∧
      b1.uploads = exampleTwoRepos.uploads := by
  obtain ⟨b1, h1, h2, _⟩ := C22_remove_cascade exampleTwoRepos "a" rfl
  obtain ⟨h3, h4, h5, h6, h7⟩ := h2 ["d1", "d2"] rfl
  refine ⟨b1, h1, h3, h4 "d1" (by simp), h4 "d2" (by simp), ?_, ?_, h7⟩
  · rw [h5 "d3" (by decide)]; rfl
  · rw [h6 "b" (by decide)]; rfl

/-- A `PATCH` without `Content-Range` to an upload id that has no slot. -/
theorem stream_patch_fresh (L : Lib) (w : World) (b : blobs) (resp : ResponseWriter)
    (req : Request) (rt : Route)
    (hm : req.Method = "PATCH") (hr : blobs.handle.route req = .ret (.ok rt))
    (hsvc : rt.service = "uploads") (hcr : rt.contentRange = "")
    (hl : b.lock = false) (hu : b.uploads rt.target = none) :
    ∃ name, b.handle L w resp req = .ret
      { err := none,
        resp := ((resp.Set "Location"
                    ("/" ++ L.pathJoin ["v2", L.pathJoin name, "blobs/uploads", rt.target])).Set
                  "Range" ("0-" ++ toString ((req.Body.length : Int) - 1))).WriteHeader 204,
        state := { b with uploads := b.uploads.set rt.target req.Body } } := by
  obtain ⟨name, hname⟩ := (route_location_slices req rt hr).2
  refine ⟨name, ?_⟩
  unfold blobs.handle
  simp only [hr, hm, hsvc, hcr]
  simp [blobs.handle.patchStream, hl, hu, hname]

/-- A `PATCH` without `Content-Range` to an upload id that has a slot. -/
theorem stream_patch_refused (L : Lib) (w : World) (b : blobs) (resp : ResponseWriter)
    (req : Request) (rt : Route) (slot : Bytes)
    (hm : req.Method = "PATCH") (hr : blobs.handle.route req = .ret (.ok rt))
    (hsvc : rt.service = "uploads") (hcr : rt.contentRange = "")
    (hl : b.lock = false) (hu : b.uploads rt.target = some slot) :
    b.handle L w resp req = .ret
      { err := some { Status := 400, Code := "BLOB_UPLOAD_INVALID",
                      Message := "Stream uploads after first write are not allowed" },
        resp := resp, state := b } := by
  unfold blobs.handle
  simp only [hr, hm, hsvc, hcr]
  simp [blobs.handle.patchStream, hl, hu]

/-- C26. Stream `PATCH` (no `Content-Range`), the mutex being free: if the upload
id has no slot, the request returns no error, with status 204 on a fresh
response writer, and the slot becomes exactly the request body; if the upload id
already has a slot, of one or more bytes or of none, the request fails with 400
`BLOB_UPLOAD_INVALID` and `contents`, `uploads` and `layers` are unchanged. -/
theorem C26_stream_patch (L : Lib) (w : World) (b : blobs) (resp : ResponseWriter)
    (req : Request) (rt : Route) (id : String)
    (hm : req.Method = "PATCH") (hr : blobs.handle.route req = .ret (.ok rt))
    (hsvc : rt.service = "uploads") (hid : rt.target = id)
    (hcr : rt.contentRange = "") (hl : b.lock = false) :
    (b.uploads id = none →
      ∃ r, b.handle L w resp req = .ret r ∧ r.err = none ∧
        (resp.status = none → r.resp.status = some 204) ∧
        r.state.uploads id = some req.Body) ∧
    (∀ slot, b.uploads id = some slot →
      ∃ r, b.handle L w resp req = .ret r ∧
        r.err = some { Status := 400, Code := "BLOB_UPLOAD_INVALID",
                       Message := "Stream uploads after first write are not allowed" } ∧
        r.state.contents = b.contents ∧ r.state.uploads = b.uploads ∧
        r.state.layers = b.layers) := by
  subst hid
  constructor
  · intro hu
    obtain ⟨name, h⟩ := stream_patch_fresh L w b resp req rt hm hr hsvc hcr hl hu
    refine ⟨_, h, rfl, ?_, ?_⟩
    · intro hs
      exact status_WriteHeader _ _ (by simp [status_Set, hs])
    · simp [GoMap.set]
  · intro slot hu
    exact ⟨_, stream_patch_refused L w b resp req rt slot hm hr hsvc hcr hl hu,
      rfl, rfl, rfl, rfl⟩

/-- C26 on the empty engine, where the upload `7` takes the body 1 2, and on
`exampleOpen`, where the upload `7` holds two bytes and the request is refused. -/
theorem C26_stream_patch_witness :
    (∃ r, blobs.new.handle exampleLib exampleWorld ResponseWriter.fresh
        (mkRequest "PATCH" "/v2/a/blobs/uploads/7" "" "" [1, 2]) = .ret r ∧ r.err = none ∧
        (ResponseWriter.fresh.status = none → r.resp.status = some 204) ∧
        r.state.uploads "7" = some [1, 2]) ∧
    (∃ r, exampleOpen.handle exampleLib exampleWorld ResponseWriter.fresh
        (mkRequest "PATCH" "/v2/a/blobs/uploads/7" "" "" [3]) = .ret r ∧
        r.err = some { Status := 400, Code := "BLOB_UPLOAD_INVALID",
                       Message := "Stream uploads after first write are not allowed" } ∧
        r.state.contents = exampleOpen.contents ∧ r.state.uploads = exampleOpen.uploads ∧
        r.state.layers = exampleOpen.layers) :=
  ⟨(C26_stream_patch exampleLib exampleWorld blobs.new ResponseWriter.fresh
      (mkRequest "PATCH" "/v2/a/blobs/uploads/7" "" "" [1, 2])
      { elem := ["v2", "a", "blobs", "uploads", "7"], target := "7", service := "uploads",
        digest := "", contentRange := "", repo := "a" }
      "7" rfl rfl rfl rfl rfl rfl).1 rfl,
   (C26_stream_patch exampleLib exampleWorld exampleOpen ResponseWriter.fresh
      (mkRequest "PATCH" "/v2/a/blobs/uploads/7" "" "" [3])
      { elem := ["v2", "a", "blobs", "uploads", "7"], target := "7", service := "uploads",
        digest := "", contentRange := "", repo := "a" }
      "7" rfl rfl rfl rfl rfl rfl).2 [1, 2] rfl⟩

/-- C21, the claim as stated, at a concrete input: on the empty engine a `POST`
of `/v2/x/blobs/uploads/` without a digest, with `rand.Int63()` giving 42,
returns 202 with `Range: 0-0` and `Location: /v2/x/blobs/uploads/42`, and
afterwards `uploads["42"]` does not exist: no slot, empty or not, was created. -/
theorem C21_post_creates_no_slot :
    ∃ r, blobs.new.handle exampleLib exampleWorld ResponseWriter.fresh
        (mkRequest "POST" "/v2/x/blobs/uploads/" "" "" []) = .ret r ∧
      r.err = none ∧ r.resp.status = some 202 ∧
      r.resp.header "Range" = some "0-0" ∧
      r.resp.header "Location" = some "/v2/x/blobs/uploads/42" ∧
      r.state.uploads "42" = none ∧ r.state.uploads "42" ≠ some [] :=
  ⟨{ err := none,
     resp := ((ResponseWriter.fresh.Set "Location" "/v2/x/blobs/uploads/42").Set
                "Range" "0-0").WriteHeader 202,
     state := blobs.new },
   by rfl, rfl, by rfl, by rfl, by rfl, by rfl, by
    intro h
    cases h⟩

/-- C21, amended. A `POST` of `/v2/<name>/blobs/uploads/` without a digest
parameter returns no error, status 202 on a fresh response writer, `Range: 0-0`
and a `Location` joined from `v2`, the name, `blobs/uploads` and the decimal
form of `rand.Int63()`, the upload id; it leaves the engine as it was, so the
tables are unchanged and a slot that did not exist before the `POST` does not
exist after it (it reads as the empty slot). -/
theorem C21_post_start (L : Lib) (w : World) (b : blobs) (resp : ResponseWriter)
    (req : Request) (name : String)
    (hm : req.Method = "POST")
    (hp : req.Path = "/v2/" ++ name ++ "/blobs/uploads/")
    (hq : req.Query "digest" = "") :
    ∃ r, b.handle L w resp req = .ret r ∧ r.err = none ∧
      (resp.status = none → r.resp.status = some 202) ∧
      r.resp.header "Range" = some "0-0" ∧
      r.resp.header "Location"
        = some ("/" ++ L.pathJoin
            ["v2", L.pathJoin (Split name), "blobs/uploads", toString w.Int63]) ∧
      r.state = b ∧
      (b.uploads (toString w.Int63) = none →
        r.state.uploads (toString w.Int63) = none ∧
        r.state.uploads.at (toString w.Int63) = []) := by
  have hr := route_uploads req name hp
  have hRL : ("Location" : String) ≠ "Range" := by decide
  have hPH : ("POST" : String) ≠ "HEAD" := by decide
  have hPG : ("POST" : String) ≠ "GET" := by decide
  have hsl := slice_of_eq ("v2" :: (Split name ++ ["blobs", "uploads"])) ["v2"]
      (Split name) ["blobs", "uploads"] 1 2 (by simp) (by simp) (by simp)
  have hret : b.handle L w resp req = .ret
      { err := none,
        resp := ((resp.Set "Location"
                    ("/" ++ L.pathJoin
                      ["v2", L.pathJoin (Split name), "blobs/uploads", toString w.Int63])).Set
                  "Range" "0-0").WriteHeader 202,
        state := b } := by
    unfold blobs.handle
    simp only [hr, hm, hq]
    simp only [hPH, hPG, if_false, ne_eq, not_true_eq_false, and_false, and_self, if_true,
      blobs.handle.postStart, hsl]
  refine ⟨_, hret, rfl, ?_, ?_, ?_, rfl, ?_⟩
  · intro hs
    exact status_WriteHeader _ _ (by simp [status_Set, hs])
  · simp only [header_WriteHeader, header_Set_same]
  · simp only [header_WriteHeader, header_Set_other _ _ _ _ hRL, header_Set_same]
  · intro h
    simp [GoMap.at, h]

/-- C21 as amended, on the empty engine with the upload id 42. -/
theorem C21_post_start_witness :
    ∃ r, blobs.new.handle exampleLib exampleWorld ResponseWriter.fresh
        (mkRequest "POST" "/v2/x/blobs/uploads/" "" "" []) = .ret r ∧ r.err = none ∧
      (ResponseWriter.fresh.status = none → r.resp.status = some 202) ∧
      r.resp.header "Range" = some "0-0" ∧
      r.resp.header "Location"
        = some ("/" ++ exampleLib.pathJoin
            ["v2", exampleLib.pathJoin (Split "x"), "blobs/uploads",
             toString exampleWorld.Int63]) ∧
      r.state = blobs.new ∧
      (blobs.new.uploads (toString exampleWorld.Int63) = none →
        r.state.uploads (toString exampleWorld.Int63) = none ∧
        r.state.uploads.at (toString exampleWorld.Int63) = []) :=
  C21_post_start exampleLib exampleWorld blobs.new ResponseWriter.fresh
    (mkRequest "POST" "/v2/x/blobs/uploads/" "" "" []) "x" rfl rfl rfl

/-- A `PATCH` with a `Content-Range` that scans, to an upload id whose slot has
the length the range starts at. -/
theorem range_patch_appends (L : Lib) (w : World) (b : blobs) (resp : ResponseWriter)
    (req : Request) (rt : Route) (start stop : Int)
    (hm : req.Method = "PATCH") (hr : blobs.handle.route req = .ret (.ok rt))
    (hsvc : rt.service = "uploads") (hcr : rt.contentRange ≠ "")
    (hscan : L.Sscanf rt.contentRange = .ok (start, stop))
    (hst : start = ((b.uploads.at rt.target).length : Int))
    (hl : b.lock = false) :
    ∃ name, b.handle L w resp req = .ret
      { err := none,
        resp := ((resp.Set "Location"
                    ("/" ++ L.pathJoin ["v2", L.pathJoin name, "blobs/uploads", rt.target])).Set
                  "Range" ("0-" ++ toString
                    (((b.uploads.at rt.target ++ req.Body).length : Int) - 1))).WriteHeader 204,
        state := { b with uploads := b.uploads.set rt.target
                            (b.uploads.at rt.target ++ req.Body) } } := by
  obtain ⟨name, hname⟩ := (route_location_slices req rt hr).2
  refine ⟨name, ?_⟩
  unfold blobs.handle
  simp only [hr, hm, hsvc]
  simp [hcr, blobs.handle.patchRange, hscan, hl, hst, hname]

/-- A `PATCH` with a `Content-Range` that does not scan. -/
theorem range_patch_unscanned (L : Lib) (w : World) (b : blobs) (resp : ResponseWriter)
    (req : Request) (rt : Route) (e : String)
    (hm : req.Method = "PATCH") (hr : blobs.handle.route req = .ret (.ok rt))
    (hsvc : rt.service = "uploads") (hcr : rt.contentRange ≠ "")
    (hscan : L.Sscanf rt.contentRange = .error e) :
    b.handle L w resp req = .ret
      { err := some { Status := 416, Code := "BLOB_UPLOAD_UNKNOWN",
                      Message := "We don't understand your Content-Range" },
        resp := resp, state := b } := by
  unfold blobs.handle
  simp only [hr, hm, hsvc]
  simp [hcr, blobs.handle.patchRange, hscan]

/-- A `PATCH` with a `Content-Range` whose start is not the length of the slot. -/
theorem range_patch_mismatch (L : Lib) (w : World) (b : blobs) (resp : ResponseWriter)
    (req : Request) (rt : Route) (start stop : Int)
    (hm : req.Method = "PATCH") (hr : blobs.handle.route req = .ret (.ok rt))
    (hsvc : rt.service = "uploads") (hcr : rt.contentRange ≠ "")
    (hscan : L.Sscanf rt.contentRange = .ok (start, stop))
    (hst : start ≠ ((b.uploads.at rt.target).length : Int))
    (hl : b.lock = false) :
    b.handle L w resp req = .ret
      { err := some { Status := 416, Code := "BLOB_UPLOAD_UNKNOWN",
                      Message := "Your content range doesn't match what we have" },
        resp := resp, state := b } := by
  unfold blobs.handle
  simp only [hr, hm, hsvc]
  simp [hcr, blobs.handle.patchRange, hscan, hl, hst]

/-- C25, the claim as stated, at a concrete input: on the empty engine a `PATCH`
without `Content-Range` stores the bytes 1 2 as the slot of the upload `7`; the
`PATCH` with `Content-Range: 2-2` and the byte 3 that follows returns no error,
with status 204, and the slot becomes 1 2 3. -/
theorem C25_range_patch_after_stream :
    ∃ r1, blobs.new.handle exampleLib exampleWorld ResponseWriter.fresh
        (mkRequest "PATCH" "/v2/a/blobs/uploads/7" "" "" [1, 2]) = .ret r1 ∧
      r1.err = none ∧ r1.state.uploads "7" = some [1, 2] ∧
      ∃ r2, r1.state.handle exampleLib exampleWorld ResponseWriter.fresh
          (mkRequest "PATCH" "/v2/a/blobs/uploads/7" "" "2-2" [3]) = .ret r2 ∧
        r2.err = none ∧ r2.resp.status = some 204 ∧
        r2.state.uploads "7" = some [1, 2, 3] ∧
        r2.state.uploads "7" ≠ r1.state.uploads "7" :=
  ⟨{ err := none,
     resp := ((ResponseWriter.fresh.Set "Location" "/v2/a/blobs/uploads/7").Set
                "Range" "0-1").WriteHeader 204,
     state := { blobs.new with uploads := blobs.new.uploads.set "7" [1, 2] } },
   by rfl, rfl, by rfl,
   { err := none,
     resp := ((ResponseWriter.fresh.Set "Location" "/v2/a/blobs/uploads/7").Set
                "Range" "0-2").WriteHeader 204,
     state := { blobs.new with
                uploads := (blobs.new.uploads.set "7" [1, 2]).set "7" [1, 2, 3] } },
   by rfl, rfl, by rfl, by rfl, by
    intro h
    exact absurd (Option.some.inj h) (by decide)⟩

/-- C25, amended. After a `PATCH` without `Content-Range` has stored its whole
body as the slot of an upload id that had none, a later `PATCH` to the same id
without `Content-Range` returns 400 `BLOB_UPLOAD_INVALID` and leaves the engine
unchanged; one with a `Content-Range` that does not scan, or whose start is not
the length of the slot, returns 416 `BLOB_UPLOAD_UNKNOWN` and leaves the engine
unchanged; one whose start is the length of the slot returns no error and
appends its body to the slot. -/
theorem C25_after_stream_patch (L : Lib) (w1 w2 : World) (b : blobs)
    (resp1 resp2 : ResponseWriter) (req1 req2 : Request) (rt1 rt2 : Route) (id : String)
    (hm1 : req1.Method = "PATCH") (hr1 : blobs.handle.route req1 = .ret (.ok rt1))
    (hs1 : rt1.service = "uploads") (ht1 : rt1.target = id) (hc1 : rt1.contentRange = "")
    (hl : b.lock = false) (hnone : b.uploads id = none)
    (hm2 : req2.Method = "PATCH") (hr2 : blobs.handle.route req2 = .ret (.ok rt2))
    (hs2 : rt2.service = "uploads") (ht2 : rt2.target = id) :
    ∃ r1, b.handle L w1 resp1 req1 = .ret r1 ∧ r1.err = none ∧
      r1.state.uploads id = some req1.Body ∧
      ∃ r2, r1.state.handle L w2 resp2 req2 = .ret r2 ∧
        (rt2.contentRange = "" →
          r2.err = some { Status := 400, Code := "BLOB_UPLOAD_INVALID",
                          Message := "Stream uploads after first write are not allowed" } ∧
          r2.state = r1.state) ∧
        (rt2.contentRange ≠ "" →
          (∀ e, L.Sscanf rt2.contentRange = .error e →
            r2.err = some { Status := 416, Code := "BLOB_UPLOAD_UNKNOWN",
                            Message := "We don't understand your Content-Range" } ∧
            r2.state = r1.state) ∧
          (∀ start stop, L.Sscanf rt2.contentRange = .ok (start, stop) →
            (start ≠ (req1.Body.length : Int) →
              r2.err = some { Status := 416, Code := "BLOB_UPLOAD_UNKNOWN",
                              Message := "Your content range doesn't match what we have" } ∧
              r2.state = r1.state) ∧
            (start = (req1.Body.length : Int) →
              r2.err = none ∧ r2.state.uploads id = some (req1.Body ++ req2.Body)))) := by
  subst ht1
  obtain ⟨name, h1⟩ := stream_patch_fresh L w1 b resp1 req1 rt1 hm1 hr1 hs1 hc1 hl hnone
  refine ⟨_, h1, rfl, by simp [GoMap.set], ?_⟩
  have hl1 : ({ b with uploads := b.uploads.set rt1.target req1.Body } : blobs).lock = false := hl
  have hu1 : ({ b with uploads := b.uploads.set rt1.target req1.Body } : blobs).uploads rt2.target
      = some req1.Body := by simp [GoMap.set, ht2]
  have hat : ({ b with uploads := b.uploads.set rt1.target req1.Body } : blobs).uploads.at
      rt2.target = req1.Body := by simp [GoMap.at, GoMap.set, ht2]
  by_cases hc2 : rt2.contentRange = ""
  · refine ⟨_, stream_patch_refused L w2 _ resp2 req2 rt2 req1.Body hm2 hr2 hs2 hc2 hl1 hu1,
      ?_, ?_⟩
    · intro _
      exact ⟨rfl, rfl⟩
    · intro hne
      exact absurd hc2 hne
  · cases hsc : L.Sscanf rt2.contentRange with
    | error e =>
      refine ⟨_, range_patch_unscanned L w2 _ resp2 req2 rt2 e hm2 hr2 hs2 hc2 hsc, ?_, ?_⟩
      · intro h
        exact absurd h hc2
      · intro _
        constructor
        · intro _ _
          exact ⟨rfl, rfl⟩
        · intro start stop h
          cases h
    | ok p =>
      obtain ⟨start, stop⟩ := p
      by_cases hst : start = (req1.Body.length : Int)
      · obtain ⟨name2, h2⟩ := range_patch_appends L w2 _ resp2 req2 rt2 start stop hm2 hr2
          hs2 hc2 hsc (by rw [hat]; exact hst) hl1
        refine ⟨_, h2, ?_, ?_⟩
        · intro h
          exact absurd h hc2
        · intro _
          constructor
          · intro e h
            cases h
          · intro s t hs
            cases hs
            constructor
            · intro h
              exact absurd hst h
            · intro _
              refine ⟨rfl, ?_⟩
              simp [GoMap.set, GoMap.at, ht2]
      · refine ⟨_, range_patch_mismatch L w2 _ resp2 req2 rt2 start stop hm2 hr2 hs2 hc2 hsc
          (by rw [hat]; exact hst) hl1, ?_, ?_⟩
        · intro h
          exact absurd h hc2
        · intro _
          constructor
          · intro e h
            cases h
          · intro s t hs
            cases hs
            constructor
            · intro _
              exact ⟨rfl, rfl⟩
            · intro h
              exact absurd h hst

/-- C25 as amended, on the empty engine: after the stream `PATCH` of the bytes
1 2 to the upload `7`, a second stream `PATCH` is refused. -/
theorem C25_after_stream_patch_witness :
    ∃ r1, blobs.new.handle exampleLib exampleWorld ResponseWriter.fresh
        (mkRequest "PATCH" "/v2/a/blobs/uploads/7" "" "" [1, 2]) = .ret r1 ∧
      r1.state.uploads "7" = some [1, 2] ∧
      ∃ r2, r1.state.handle exampleLib exampleWorld ResponseWriter.fresh
          (mkRequest "PATCH" "/v2/a/blobs/uploads/7" "" "" [3]) = .ret r2 ∧
        r2.err = some { Status := 400, Code := "BLOB_UPLOAD_INVALID",
                        Message := "Stream uploads after first write are not allowed" } ∧
        r2.state = r1.state := by
  obtain ⟨r1, h1, _, h3, r2, h4, h5, _⟩ :=
    C25_after_stream_patch exampleLib exampleWorld exampleWorld blobs.new
      ResponseWriter.fresh ResponseWriter.fresh
      (mkRequest "PATCH" "/v2/a/blobs/uploads/7" "" "" [1, 2])
      (mkRequest "PATCH" "/v2/a/blobs/uploads/7" "" "" [3])
      { elem := ["v2", "a", "blobs", "uploads", "7"], target := "7", service := "uploads",
        digest := "", contentRange := "", repo := "a" }
      { elem := ["v2", "a", "blobs", "uploads", "7"], target := "7", service := "uploads",
        digest := "", contentRange := "", repo := "a" }
      "7" rfl rfl rfl rfl rfl rfl rfl rfl rfl rfl rfl
  exact ⟨r1, h1, h3, r2, h4, h5 rfl⟩

theorem foldl_append_join (ks : List String) (f : String → Bytes) (acc : Bytes) :
    ks.foldl (fun h k => h ++ f k) acc = acc ++ (ks.map f).flatten := by
  induction ks generalizing acc with
  | nil => simp
  | cons k ks ih => simp [ih]

theorem foldl_append_nothing (ks : List String) (f : String → Bytes) (acc : Bytes)
    (h : ∀ k ∈ ks, f k = []) : ks.foldl (fun h k => h ++ f k) acc = acc := by
  induction ks generalizing acc with
  | nil => rfl
  | cons k ks ih =>
    rw [List.foldl_cons, h k (List.mem_cons_self _ _), List.append_nil]
    exact ih acc (fun x hx => h x (List.mem_cons_of_mem _ hx))

/-- What `digest` hashes: the blob values in ascending order of the blob keys,
then whatever `Manifests` holds under those same blob keys, in the same order. -/
theorem digest_eq (L : Lib) (I : Image) :
    digest L I = "sha256:" ++ EncodeToString (L.Sum256
      (((sortStrings I.Blobs.keys).map (fun k => (I.Blobs.get k).getD [])).flatten ++
       ((sortStrings I.Blobs.keys).map (fun k => (I.Manifests.get k).getD [])).flatten)) := by
  unfold digest
  simp only [foldl_append_join, List.nil_append]

/-- C24. The source quirk of `digest`: its second pass ranges over the sorted
keys of `Blobs` and looks each of them up in `Manifests`. So for every image
whose manifest keys are disjoint from its blob keys, `digest` is `"sha256:"`
followed by the hexadecimal checksum of the blob values concatenated in
ascending order of the blob keys, and two such images with the same `Blobs`
entries have the same `digest` and the same `computeCID`, whatever their
manifests. -/
theorem C24_digest_quirk (L : Lib) (C : CidLib) (I : Image)
    (hI : ∀ k ∈ I.Manifests.keys, k ∉ I.Blobs.keys) :
    digest L I = "sha256:" ++ EncodeToString (L.Sum256
      (((sortStrings I.Blobs.keys).map (fun k => (I.Blobs.get k).getD [])).flatten ++
       ((sortStrings I.Blobs.keys).map (fun k => (I.Manifests.get k).getD [])).flatten)) ∧
    digest L I = "sha256:" ++ EncodeToString (L.Sum256
      ((sortStrings I.Blobs.keys).map (fun k => (I.Blobs.get k).getD [])).flatten) ∧
    ∀ J : Image, (∀ k ∈ J.Manifests.keys, k ∉ J.Blobs.keys) →
      (∀ k, I.Blobs.get k = J.Blobs.get k) →
      digest L I = digest L J ∧ computeCID L C I = computeCID L C J := by
  have key : ∀ K : Image, (∀ k ∈ K.Manifests.keys, k ∉ K.Blobs.keys) →
      digest L K = "sha256:" ++ EncodeToString (L.Sum256
        ((sortStrings K.Blobs.keys).map (fun k => (K.Blobs.get k).getD [])).flatten) := by
    intro K hK
    have hnone : ∀ k ∈ sortStrings K.Blobs.keys, (K.Manifests.get k).getD [] = [] := by
      intro k hk
      have hkb : k ∈ K.Blobs.keys := (mem_sortStrings _ k).mp hk
      cases hm : K.Manifests.get k with
      | none => rfl
      | some v =>
        have : k ∈ K.Manifests.keys := (Table.mem_keys_iff _ k).mpr (by simp [hm])
        exact absurd hkb (hK k this)
    unfold digest
    simp only
    rw [foldl_append_nothing _ (fun k => (K.Manifests.get k).getD []) _ hnone,
      foldl_append_join, List.nil_append]
  refine ⟨digest_eq L I, key I hI, ?_⟩
  intro J hJ hb
  have hk : sortStrings I.Blobs.keys = sortStrings J.Blobs.keys :=
    sortStrings_eq_of_perm _ _ (Table.keys_perm I.Blobs J.Blobs hb)
  have hd : digest L I = digest L J := by
    rw [key I hI, key J hJ, hk]
    simp only [hb]
  exact ⟨hd, by simp [computeCID, hd]⟩

/-- C24 on `exampleImage`, whose digest is that of the bytes `AB`, and on the
same blobs under another name with one manifest `v9`. -/
theorem C24_digest_quirk_witness :
    digest exampleLib exampleImage = "sha256:4142" ∧
    digest exampleLib exampleImage
      = digest exampleLib { exampleImage with
          Name := "other",
          Manifests := { entries := [("v9", [1, 2, 3])], nodup := by decide } } ∧
    computeCID exampleLib exampleCidLib exampleImage
      = computeCID exampleLib exampleCidLib { exampleImage with
          Name := "other",
          Manifests := { entries := [("v9", [1, 2, 3])], nodup := by decide } } :=
  ⟨by rfl,
   (C24_digest_quirk exampleLib exampleCidLib exampleImage (by decide)).2.2
    { exampleImage with
      Name := "other",
      Manifests := { entries := [("v9", [1, 2, 3])], nodup := by decide } }
    (by decide) (fun _ => rfl)⟩

/-! ## Indexing in `isBlob` and `handle` -/

theorem index_in_range {α : Type} (l : List α) (i : Int) (h0 : 0 ≤ i)
    (h1 : i < (l.length : Int)) : ∃ x, index l i = some x := by
  have h2 : i.toNat < l.length := by omega
  refine ⟨l.get ⟨i.toNat, h2⟩, ?_⟩
  unfold index
  rw [if_pos ⟨h0, h1⟩]
  exact List.get?_eq_get h2

theorem slice_in_range {α : Type} (l : List α) (lo hi : Int) (h0 : 0 ≤ lo) (h1 : lo ≤ hi)
    (h2 : hi ≤ (l.length : Int)) : ∃ s, slice l lo hi = some s := by
  unfold slice
  rw [if_pos ⟨h0, h1, h2⟩]
  exact ⟨_, rfl⟩

/-- A path that begins with `/` splits into an empty first piece and at least
one more. -/
theorem Split_leading_slash (path : String) (h : HasPrefix path "/" = true) :
    ∃ E, E ≠ [] ∧ Split path = "" :: E := by
  unfold HasPrefix at h
  have hd : ("/" : String).data = ['/'] := rfl
  rw [hd] at h
  cases hp : path.data with
  | nil => rw [hp] at h; simp at h
  | cons c rest =>
    rw [hp] at h
    simp only [List.isPrefixOf, Bool.and_true, beq_iff_eq] at h
    subst h
    refine ⟨(splitSlash rest).map String.mk, ?_, ?_⟩
    · simp [splitSlash_ne_nil]
    · simp [Split, hp, splitSlash]

/-- The first lines of `isBlob` and of `handle` on a path that begins with `/`:
the three index and slice expressions are in range and leave `segments`. -/
theorem elem_of_leading_slash (path : String) (h : HasPrefix path "/" = true) :
    ∃ E last, slice (Split path) 1 (Split path).length = some E ∧
      index E ((E.length : Int) - 1) = some last ∧
      (if last = "" then slice E 0 ((E.length : Int) - 1) else some E)
        = some (segments path) := by
  obtain ⟨E, hE, hs⟩ := Split_leading_slash path h
  have hlast := List.dropLast_append_getLast hE
  have hi : index E ((E.length : Int) - 1) = some (E.getLast hE) :=
    index_of_eq E E.dropLast [] (E.getLast hE) 1 hlast.symm (by simp)
  refine ⟨E, E.getLast hE, ?_, hi, ?_⟩
  · rw [hs]
    exact slice_tail "" E
  · have hg : E.getLast? = some (E.getLast hE) := List.getLast?_eq_getLast E hE
    unfold segments
    simp only [hs, List.tail_cons, hg, Option.some.injEq]
    by_cases he : E.getLast hE = ""
    · rw [if_pos he, if_pos he]
      exact slice_of_eq E [] E.dropLast [E.getLast hE] 0 1 (by simp [hlast]) (by simp) (by simp)
    · rw [if_neg he, if_neg he]

/-- Lines 64-84 of `handle` on a path that begins with `/`: no panic; the early
return exactly when there are fewer than four segments. -/
theorem route_of_leading_slash (req : Request) (h : HasPrefix req.Path "/" = true) :
    ((segments req.Path).length < 4 →
      blobs.handle.route req = .ret (.error
        { Status := 400, Code := "NAME_INVALID",
          Message := "blobs must be attached to a repo" })) ∧
    (¬ (segments req.Path).length < 4 → ∃ rt, blobs.handle.route req = .ret (.ok rt)) := by
  obtain ⟨E, last, h1, h2, h3⟩ := elem_of_leading_slash req.Path h
  constructor
  · intro hlt
    unfold blobs.handle.route
    simp only [h1, h2, h3, hlt, if_true]
  · intro hge
    have hlen : 4 ≤ (segments req.Path).length := by omega
    obtain ⟨target, ht⟩ := index_in_range (segments req.Path)
      (((segments req.Path).length : Int) - 1) (by omega) (by omega)
    obtain ⟨service, hsv⟩ := index_in_range (segments req.Path)
      (((segments req.Path).length : Int) - 2) (by omega) (by omega)
    obtain ⟨r2, hr2⟩ := slice_in_range (segments req.Path) 1
      (((segments req.Path).length : Int) - 2) (by omega) (by omega) (by omega)
    obtain ⟨r3, hr3⟩ := slice_in_range (segments req.Path) 1
      (((segments req.Path).length : Int) - 3) (by omega) (by omega) (by omega)
    unfold blobs.handle.route
    simp only [h1, h2, h3, hge, if_false, ht, hsv, hr2, hr3]
    split_ifs
    · exact ⟨_, rfl⟩
    · exact ⟨_, rfl⟩

/-- The function `isBlob` on a path that begins with `/`: it returns. -/
theorem isBlob_of_leading_slash (req : Request) (h : HasPrefix req.Path "/" = true) :
    ((segments req.Path).length < 3 → isBlob req = .ret false) ∧
    ∃ v, isBlob req = .ret v := by
  obtain ⟨E, last, h1, h2, h3⟩ := elem_of_leading_slash req.Path h
  by_cases hlt : (segments req.Path).length < 3
  · have e : isBlob req = .ret false := by
      unfold isBlob
      simp only [h1, h2, h3, hlt, if_true]
    exact ⟨fun _ => e, _, e⟩
  · refine ⟨fun h3 => absurd h3 hlt, ?_⟩
    obtain ⟨service, hsv⟩ := index_in_range (segments req.Path)
      (((segments req.Path).length : Int) - 2) (by omega) (by omega)
    obtain ⟨third, hth⟩ := index_in_range (segments req.Path)
      (((segments req.Path).length : Int) - 3) (by omega) (by omega)
    unfold isBlob
    simp only [h1, h2, h3, hlt, if_false, hsv, hth]
    split_ifs
    · exact ⟨_, rfl⟩
    · exact ⟨_, rfl⟩
    · exact ⟨_, rfl⟩

/-- After the route is computed, `handle` takes no index or slice out of range. -/
theorem handle_of_route (L : Lib) (w : World) (b : blobs) (resp : ResponseWriter)
    (req : Request) (rt : Route) (hr : blobs.handle.route req = .ret (.ok rt)) :
    b.handle L w resp req ≠ .panics := by
  obtain ⟨⟨n2, hn2⟩, ⟨n3, hn3⟩⟩ := route_location_slices req rt hr
  unfold blobs.handle
  simp only [hr]
  split_ifs
  · unfold blobs.handle.head
    repeat' split
    all_goals (intro hc; cases hc)
  · unfold blobs.handle.get
    repeat' split
    all_goals (intro hc; cases hc)
  · unfold blobs.handle.postDigest
    simp only
    split_ifs <;> (intro hc; cases hc)
  · unfold blobs.handle.postStart
    simp only [hn2]
    intro hc; cases hc
  · unfold blobs.handle.patchRange
    simp only [hn3]
    repeat' split
    all_goals (intro hc; cases hc)
  · unfold blobs.handle.patchStream
    simp only [hn3]
    repeat' split
    all_goals (intro hc; cases hc)
  · intro hc; cases hc
  · unfold blobs.handle.putDigest
    simp only
    split_ifs <;> (intro hc; cases hc)
  · intro hc; cases hc

/-- C27. Indexing safety of URL splitting: for every request whose URL path
begins with `/`, whatever its method, neither `isBlob` nor `handle` panics on an
index or slice expression (`isBlob` returns; `handle` returns or waits for the
mutex); a path of fewer than four segments makes `handle` return 400
`NAME_INVALID` with the engine unchanged, and one of fewer than three makes
`isBlob` return false. -/
theorem C27_index_safety (L : Lib) (w : World) (b : blobs) (resp : ResponseWriter)
    (req : Request) (h : HasPrefix req.Path "/" = true) :
    (∃ v, isBlob req = .ret v) ∧ isBlob req ≠ .panics ∧
    b.handle L w resp req ≠ .panics ∧
    ((segments req.Path).length < 4 →
      b.handle L w resp req = .ret
        { err := some { Status := 400, Code := "NAME_INVALID",
                        Message := "blobs must be attached to a repo" },
          resp := resp, state := b }) ∧
    ((segments req.Path).length < 3 → isBlob req = .ret false) := by
  obtain ⟨hb3, v, hv⟩ := isBlob_of_leading_slash req h
  obtain ⟨hr4, hrt⟩ := route_of_leading_slash req h
  refine ⟨⟨v, hv⟩, (by rw [hv]; intro hc; cases hc), ?_, ?_, hb3⟩
  · by_cases hlt : (segments req.Path).length < 4
    · unfold blobs.handle
      simp only [hr4 hlt]
      intro hc; cases hc
    · obtain ⟨rt, hr⟩ := hrt hlt
      exact handle_of_route L w b resp req rt hr
  · intro hlt
    unfold blobs.handle
    simp only [hr4 hlt]

/-- C27 on the paths `/`, of no segment, and `/v2/a/blobs/`, of three. -/
theorem C27_index_safety_witness :
    (segments "/").length = 0 ∧
    isBlob (mkRequest "GET" "/" "" "" []) = .ret false ∧
    blobs.new.handle exampleLib exampleWorld ResponseWriter.fresh (mkRequest "GET" "/" "" "" [])
      = .ret { err := some { Status := 400, Code := "NAME_INVALID",
                             Message := "blobs must be attached to a repo" },
               resp := ResponseWriter.fresh, state := blobs.new } ∧
    (segments "/v2/a/blobs/").length = 3 ∧
    (∃ v, isBlob (mkRequest "DELETE" "/v2/a/blobs/" "" "" []) = .ret v) ∧
    blobs.new.handle exampleLib exampleWorld ResponseWriter.fresh
      (mkRequest "DELETE" "/v2/a/blobs/" "" "" []) ≠ .panics :=
  ⟨by decide,
   (C27_index_safety exampleLib exampleWorld blobs.new ResponseWriter.fresh
      (mkRequest "GET" "/" "" "" []) rfl).2.2.2.2 (by decide),
   (C27_index_safety exampleLib exampleWorld blobs.new ResponseWriter.fresh
      (mkRequest "GET" "/" "" "" []) rfl).2.2.2.1 (by decide),
   by decide,
   (C27_index_safety exampleLib exampleWorld blobs.new ResponseWriter.fresh
      (mkRequest "DELETE" "/v2/a/blobs/" "" "" []) rfl).1,
   (C27_index_safety exampleLib exampleWorld blobs.new ResponseWriter.fresh
      (mkRequest "DELETE" "/v2/a/blobs/" "" "" []) rfl).2.2.1⟩

/-! ## The mutex of the engine -/

/-- C28. The code at the failing inputs: on the empty engine, with the mutex
free, `remove` and `get` of any repo take the early return `!ok` and leave the
mutex held; so does `get("a")` on `exampleDangling`, where a listed digest is
missing from `contents`; a `remove` that follows waits forever. On known
repositories with all their blobs both helpers release the mutex. -/
theorem C28_helpers_leak_lock (repo : String) :
    blobs.new.remove repo = .ret { blobs.new with lock := true } ∧
    blobs.new.get repo = .ret ((none, false), { blobs.new with lock := true }) ∧
    exampleDangling.get "a" = .ret ((none, false), { exampleDangling with lock := true }) ∧
    ({ blobs.new with lock := true } : blobs).remove repo = .blocks ∧
    (∃ b1, exampleTwoRepos.remove "a" = .ret b1 ∧ b1.lock = false) ∧
    (∃ layers b1, exampleTwoRepos.get "a" = .ret ((some layers, true), b1) ∧ b1.lock = false) :=
  ⟨rfl, rfl, by rfl, rfl, ⟨_, by rfl, rfl⟩, ⟨_, _, by rfl, rfl⟩⟩

/-- The outcome computed next to the events is the outcome of `HEAD`. -/
theorem headT_outcome (w : World) (b : blobs) (resp : ResponseWriter) (rt : Route) :
    (blobs.handle.headT w b resp rt).1 = blobs.handle.head w b resp rt := by
  unfold blobs.handle.headT blobs.handle.head
  cases b.lock
  · simp only [Bool.false_eq_true, if_false]
    cases b.contents rt.target with
    | some c => rfl
    | none =>
      simp only
      cases w.resolveCID rt.repo rt.target with
      | error e => rfl
      | ok cid =>
        simp only
        cases w.Head (w.ipfsURL [cid, "blobs", rt.target]) with
        | error e => rfl
        | ok ipfsResp =>
          simp only
          split_ifs
          · rfl
          · cases ipfsResp.ReadErr <;> rfl
  · rfl

/-- The span of the mutex in `HEAD`, for every engine with the mutex free and
every world: it is taken before the local lookup and released when the call
returns, and nowhere in between; on a local miss `resolveCID` is called, and the
upstream `HEAD` request is issued when the reference resolves, both while the
mutex is held. -/
theorem head_lock_span (L : Lib) (w : World) (b : blobs) (resp : ResponseWriter)
    (req : Request) (rt : Route)
    (hm : req.Method = "HEAD") (hr : blobs.handle.route req = .ret (.ok rt))
    (hl : b.lock = false) :
    b.handle L w resp req = (blobs.handle.headT w b resp rt).1 ∧
    (∃ r, b.handle L w resp req = .ret r ∧ r.state.lock = false) ∧
    (∃ mid, (blobs.handle.headT w b resp rt).2 = .Lock :: (mid ++ [.Unlock]) ∧
      (∀ e ∈ mid, e.remote = true) ∧
      (∀ c, b.contents rt.target = some c → mid = []) ∧
      (b.contents rt.target = none → .resolveCID rt.repo rt.target ∈ mid) ∧
      (∀ cid, b.contents rt.target = none → w.resolveCID rt.repo rt.target = .ok cid →
        .Head (w.ipfsURL [cid, "blobs", rt.target]) ∈ mid)) ∧
    (∀ p ∈ heldAt false (blobs.handle.headT w b resp rt).2, p.1.remote = true → p.2 = true) := by
  have h1 : b.handle L w resp req = (blobs.handle.headT w b resp rt).1 := by
    rw [headT_outcome]
    unfold blobs.handle
    simp only [hr, hm, if_true]
  have hT : blobs.handle.headT w b resp rt
      = (blobs.handle.head w b resp rt,
         match b.contents rt.target with
         | some _ => [.Lock, .Unlock]
         | none =>
           match w.resolveCID rt.repo rt.target with
           | .error _ => [.Lock, .resolveCID rt.repo rt.target, .Unlock]
           | .ok cid =>
             [.Lock, .resolveCID rt.repo rt.target,
              .Head (w.ipfsURL [cid, "blobs", rt.target]), .Unlock]) := by
    unfold blobs.handle.headT blobs.handle.head
    simp only [hl, Bool.false_eq_true, if_false]
    cases b.contents rt.target with
    | some c => rfl
    | none =>
      simp only
      cases w.resolveCID rt.repo rt.target with
      | error e => rfl
      | ok cid =>
        simp only
        cases w.Head (w.ipfsURL [cid, "blobs", rt.target]) with
        | error e => rfl
        | ok ipfsResp =>
          simp only
          split_ifs
          · rfl
          · cases ipfsResp.ReadErr <;> rfl
  refine ⟨h1, ?_, ?_, ?_⟩
  · rw [h1, headT_outcome]
    unfold blobs.handle.head
    simp only [hl, Bool.false_eq_true, if_false]
    repeat' split
    all_goals exact ⟨_, rfl, hl⟩
  · rw [hT]
    simp only
    cases hc : b.contents rt.target with
    | some c =>
      refine ⟨[], rfl, ?_, ?_, ?_, ?_⟩
      · intro e he
        cases he
      · intro _ _
        rfl
      · intro h
        cases h
      · intro _ h
        cases h
    | none =>
      cases hres : w.resolveCID rt.repo rt.target with
      | error e =>
        refine ⟨[.resolveCID rt.repo rt.target], rfl, ?_, ?_, ?_, ?_⟩
        · intro e he
          rw [List.mem_singleton.mp he]
          rfl
        · intro c h
          cases h
        · intro _
          exact List.mem_singleton.mpr rfl
        · intro cid _ h
          cases h
      | ok cid =>
        refine ⟨[.resolveCID rt.repo rt.target, .Head (w.ipfsURL [cid, "blobs", rt.target])],
          rfl, ?_, ?_, ?_, ?_⟩
        · intro e he
          simp only [List.mem_cons, List.mem_singleton, List.not_mem_nil, or_false] at he
          rcases he with rfl | rfl <;> rfl
        · intro c h
          cases h
        · intro _
          exact List.mem_cons_self _ _
        · intro cid2 _ h
          cases h
          exact List.mem_cons_of_mem _ (List.mem_cons_self _ _)
  · rw [hT]
    simp only
    cases b.contents rt.target with
    | some c => simp [heldAt, Event.remote]
    | none =>
      cases w.resolveCID rt.repo rt.target with
      | error e => simp [heldAt, Event.remote]
      | ok cid => simp [heldAt, Event.remote]

/-- C23. The code at the failing input: on the empty engine, a world in which
the reference resolves and the gateway answers, and the request
`HEAD /v2/a/blobs/sha256:x`, a local miss, the mutex is taken first and released
last, and `resolveCID` and the upstream `HEAD` request both happen while it is
held. The `GET` of the same blob makes the same lookup and fetch without the
mutex: it is served while another call holds the mutex, where the `HEAD` waits. -/
theorem C23_head_fetches_under_lock :
    blobs.handle.route (mkRequest "HEAD" "/v2/a/blobs/sha256:x" "" "" [])
      = .ret (.ok { elem := ["v2", "a", "blobs", "sha256:x"], target := "sha256:x",
                    service := "blobs", digest := "", contentRange := "", repo := "a" }) ∧
    blobs.new.contents "sha256:x" = none ∧
    blobs.new.handle exampleLib exampleGateway ResponseWriter.fresh
        (mkRequest "HEAD" "/v2/a/blobs/sha256:x" "" "" [])
      = (blobs.handle.headT exampleGateway blobs.new ResponseWriter.fresh
          { elem := ["v2", "a", "blobs", "sha256:x"], target := "sha256:x",
            service := "blobs", digest := "", contentRange := "", repo := "a" }).1 ∧
    (blobs.handle.headT exampleGateway blobs.new ResponseWriter.fresh
        { elem := ["v2", "a", "blobs", "sha256:x"], target := "sha256:x",
          service := "blobs", digest := "", contentRange := "", repo := "a" }).2
      = [.Lock, .resolveCID "a" "sha256:x", .Head "cid/blobs/sha256:x", .Unlock] ∧
    heldAt false (blobs.handle.headT exampleGateway blobs.new ResponseWriter.fresh
        { elem := ["v2", "a", "blobs", "sha256:x"], target := "sha256:x",
          service := "blobs", digest := "", contentRange := "", repo := "a" }).2
      = [(.Lock, false), (.resolveCID "a" "sha256:x", true),
         (.Head "cid/blobs/sha256:x", true), (.Unlock, true)] ∧
    ¬ (∀ p ∈ heldAt false (blobs.handle.headT exampleGateway blobs.new ResponseWriter.fresh
        { elem := ["v2", "a", "blobs", "sha256:x"], target := "sha256:x",
          service := "blobs", digest := "", contentRange := "", repo := "a" }).2,
        p.1.remote = true → p.2 = false) ∧
    (∃ r, ({ blobs.new with lock := true } : blobs).handle exampleLib exampleGateway
        ResponseWriter.fresh (mkRequest "GET" "/v2/a/blobs/sha256:x" "" "" []) = .ret r ∧
      r.err = none ∧ r.resp.status = some 200) ∧
    ({ blobs.new with lock := true } : blobs).handle exampleLib exampleGateway
        ResponseWriter.fresh (mkRequest "HEAD" "/v2/a/blobs/sha256:x" "" "" []) = .blocks := by
  refine ⟨by rfl, rfl, by rfl, by rfl, by rfl, ?_, ⟨_, by rfl, rfl, by rfl⟩, by rfl⟩
  intro h
  have h1 := h (.resolveCID "a" "sha256:x", true) (by
    have e : heldAt false (blobs.handle.headT exampleGateway blobs.new ResponseWriter.fresh
        { elem := ["v2", "a", "blobs", "sha256:x"], target := "sha256:x",
          service := "blobs", digest := "", contentRange := "", repo := "a" }).2
      = [(.Lock, false), (.resolveCID "a" "sha256:x", true),
         (.Head "cid/blobs/sha256:x", true), (.Unlock, true)] := by rfl
    rw [e]
    simp) rfl
  cases h1

/-! ## The memory store as a resolver -/

/-- An image that does not carry the name with the reference is passed over by
the loop of `MemoryStore.Resolve`. -/
theorem memory_resolve_skip (n ref cid : String) (I : Image) (rest : List (String × Image))
    (href : ref ≠ "") (h : I.Name ≠ n ∨ ref ∉ I.Manifests.keys) :
    MemoryStore.Resolve.loop n ref ((cid, I) :: rest) = MemoryStore.Resolve.loop n ref rest := by
  by_cases hn : I.Name = n
  · have hk : ref ∉ I.Manifests.keys := by
      rcases h with h | h
      · exact absurd hn h
      · exact h
    have hany : I.Manifests.keys.any (fun digest => digest == ref) = false := by
      rw [List.any_eq_false]
      intro x hx
      simp only [beq_iff_eq]
      intro e
      exact hk (e ▸ hx)
    rw [MemoryStore.Resolve.loop]
    simp only [hn, href, hany, if_true, if_false, Bool.false_eq_true]
  · rw [MemoryStore.Resolve.loop]
    simp only [hn, if_false]

/-- An image that carries the name with the reference ends the loop. -/
theorem memory_resolve_hit (n ref cid : String) (I : Image) (rest : List (String × Image))
    (href : ref ≠ "") (hn : I.Name = n) (hk : ref ∈ I.Manifests.keys) :
    MemoryStore.Resolve.loop n ref ((cid, I) :: rest) = .ok (some [cid]) := by
  have hany : I.Manifests.keys.any (fun digest => digest == ref) = true := by
    rw [List.any_eq_true]
    exact ⟨ref, hk, by simp⟩
  rw [MemoryStore.Resolve.loop]
  simp only [hn, href, hany, if_true, if_false]

/-- A loop that returns a one-element list has met an entry that carries the
name with the reference, under the key it returns. -/
theorem memory_resolve_found (n ref c : String) (entries : List (String × Image))
    (href : ref ≠ "") (h : MemoryStore.Resolve.loop n ref entries = .ok (some [c])) :
    ∃ I, (c, I) ∈ entries ∧ I.Name = n ∧ ref ∈ I.Manifests.keys := by
  induction entries with
  | nil => simp [MemoryStore.Resolve.loop] at h
  | cons e rest ih =>
    obtain ⟨cid, I⟩ := e
    by_cases hm : I.Name = n ∧ ref ∈ I.Manifests.keys
    · rw [memory_resolve_hit n ref cid I rest href hm.1 hm.2] at h
      have hc : cid = c := by
        injection h with h1
        injection h1 with h2
        injection h2
      subst hc
      exact ⟨I, List.mem_cons_self _ _, hm.1, hm.2⟩
    · have hskip : I.Name ≠ n ∨ ref ∉ I.Manifests.keys := by
        by_cases hn : I.Name = n
        · exact Or.inr (fun hk2 => hm ⟨hn, hk2⟩)
        · exact Or.inl hn
      rw [memory_resolve_skip n ref cid I rest href hskip] at h
      obtain ⟨J, hJ, h1, h2⟩ := ih h
      exact ⟨J, List.mem_cons_of_mem _ hJ, h1, h2⟩

/-- When every entry that carries the name with the reference stands under the
key `c`, and there is one, the loop returns `[c]` in whatever order it visits
the entries. -/
theorem memory_resolve_unique (n ref c : String) (entries : List (String × Image))
    (href : ref ≠ "")
    (hall : ∀ e ∈ entries, e.2.Name = n → ref ∈ e.2.Manifests.keys → e.1 = c)
    (hex : ∃ e ∈ entries, e.2.Name = n ∧ ref ∈ e.2.Manifests.keys) :
    MemoryStore.Resolve.loop n ref entries = .ok (some [c]) := by
  induction entries with
  | nil =>
    obtain ⟨e, he, _⟩ := hex
    cases he
  | cons e rest ih =>
    obtain ⟨cid, I⟩ := e
    by_cases hm : I.Name = n ∧ ref ∈ I.Manifests.keys
    · have hc : cid = c := hall (cid, I) (List.mem_cons_self _ _) hm.1 hm.2
      rw [memory_resolve_hit n ref cid I rest href hm.1 hm.2, hc]
    · have hskip : I.Name ≠ n ∨ ref ∉ I.Manifests.keys := by
        by_cases hn : I.Name = n
        · exact Or.inr (fun hk2 => hm ⟨hn, hk2⟩)
        · exact Or.inl hn
      rw [memory_resolve_skip n ref cid I rest href hskip]
      apply ih (fun e he => hall e (List.mem_cons_of_mem _ he))
      obtain ⟨e, he, h1, h2⟩ := hex
      rcases List.mem_cons.mp he with rfl | he2
      · exact absurd ⟨h1, h2⟩ hm
      · exact ⟨e, he2, h1, h2⟩

/-- When the loop returns `[c]` in every order, every entry that carries the
name with the reference stands under the key `c`. -/
theorem memory_resolve_all_orders (n ref c : String) (entries : List (String × Image))
    (href : ref ≠ "")
    (h : ∀ visit : List (String × Image), visit.Perm entries →
      MemoryStore.Resolve.loop n ref visit = .ok (some [c])) :
    ∀ e ∈ entries, e.2.Name = n → ref ∈ e.2.Manifests.keys → e.1 = c := by
  intro e he h1 h2
  obtain ⟨s, t, hst⟩ := List.append_of_mem he
  have hperm : (e :: (s ++ t)).Perm entries := by
    rw [hst]
    exact List.perm_middle.symm
  have hv := h _ hperm
  obtain ⟨k, I⟩ := e
  rw [memory_resolve_hit n ref k I _ href h1 h2] at hv
  injection hv with h3
  injection h3 with h4
  injection h4

/-- C29, the claim as stated, at concrete inputs. In `exampleStore`, the memory
store after `exampleImage` was saved, `Resolve("lib/foo", "latest")` returns the
identifier `c` of that image, in the one order there is. A successful `Save` of
`exampleImageSwapped`, the same maps under the name `other`, returns the same
identifier and replaces the entry: `Resolve("lib/foo", "latest")` then returns a
`NotFoundError`. A successful `Save` of `exampleImageRetag`, another image under
the same name and reference, returns another identifier: `Resolve` then returns
`[c]` when its `range` meets the old entry first and the new identifier when it
meets the new entry first, and so it still does after one more `Save`, of an
image under another name. -/
theorem C29_save_changes_resolution :
    (NewMemoryStore "").Save exampleLib exampleCidLib exampleFS (some exampleImage)
      = .ret { cid := "b7368613235363a34313432", err := none, store := exampleStore,
               fs := exampleFS } ∧
    (∀ visit : exampleStore.images.Range,
      exampleStore.Resolve visit "lib/foo" "latest"
        = .ret (.ok (some ["b7368613235363a34313432"]))) ∧
    (∃ s, exampleStore.Save exampleLib exampleCidLib exampleFS (some exampleImageSwapped)
        = .ret s ∧ s.err = none ∧ s.cid = "b7368613235363a34313432" ∧
      ∀ visit : s.store.images.Range,
        s.store.Resolve visit "lib/foo" "latest" = .ret (.error (.NotFound "lib/foo"))) ∧
    (∃ s, exampleStore.Save exampleLib exampleCidLib exampleFS (some exampleImageRetag)
        = .ret s ∧ s.err = none ∧ s.cid = "b7368613235363a3433" ∧
      (∃ visit : s.store.images.Range,
        s.store.Resolve visit "lib/foo" "latest"
          = .ret (.ok (some ["b7368613235363a34313432"]))) ∧
      (∃ visit : s.store.images.Range,
        s.store.Resolve visit "lib/foo" "latest"
          = .ret (.ok (some ["b7368613235363a3433"]))) ∧
      ∃ s2, s.store.Save exampleLib exampleCidLib exampleFS
          (some { exampleImage with Name := "other", Blobs := Table.empty })
          = .ret s2 ∧ s2.err = none ∧ s2.cid = "b7368613235363a" ∧
        ∃ visit : s2.store.images.Range,
          s2.store.Resolve visit "lib/foo" "latest"
            = .ret (.ok (some ["b7368613235363a3433"]))) := by
  refine ⟨by rfl, ?_, ?_, ?_⟩
  · intro visit
    have hp : visit.1.Perm [("b7368613235363a34313432", exampleImage)] := visit.2
    have hv : visit.1 = [("b7368613235363a34313432", exampleImage)] := List.perm_singleton.mp hp
    unfold MemoryStore.Resolve
    rw [hv]
    rfl
  · refine ⟨{ cid := "b7368613235363a34313432", err := none,
              store := { exampleStore with
                images := exampleStore.images.set "b7368613235363a34313432"
                  exampleImageSwapped },
              fs := exampleFS }, by rfl, rfl, rfl, ?_⟩
    intro visit
    have hp : visit.1.Perm [("b7368613235363a34313432", exampleImageSwapped)] := visit.2
    have hv : visit.1 = [("b7368613235363a34313432", exampleImageSwapped)] :=
      List.perm_singleton.mp hp
    unfold MemoryStore.Resolve
    rw [hv]
    rfl
  · refine ⟨{ cid := "b7368613235363a3433", err := none,
              store := { exampleStore with
                images := exampleStore.images.set "b7368613235363a3433" exampleImageRetag },
              fs := exampleFS }, by rfl, rfl, rfl, ?_, ?_, ?_⟩
    · exact ⟨⟨[("b7368613235363a34313432", exampleImage),
               ("b7368613235363a3433", exampleImageRetag)], List.Perm.swap _ _ _⟩, by rfl⟩
    · exact ⟨⟨[("b7368613235363a3433", exampleImageRetag),
               ("b7368613235363a34313432", exampleImage)], List.Perm.refl _⟩, by rfl⟩
    · refine ⟨{ cid := "b7368613235363a", err := none,
                store := { exampleStore with
                  images := (exampleStore.images.set "b7368613235363a3433"
                    exampleImageRetag).set "b7368613235363a"
                    { exampleImage with Name := "other", Blobs := Table.empty } },
                fs := exampleFS }, by rfl, rfl, rfl, ?_⟩
      exact ⟨⟨[("b7368613235363a", { exampleImage with Name := "other", Blobs := Table.empty }),
               ("b7368613235363a3433", exampleImageRetag),
               ("b7368613235363a34313432", exampleImage)], List.Perm.refl _⟩, by rfl⟩

/-- C29, amended. Memory backend: if before a successful `Save` the call
`Resolve(n, r)` with a non-empty reference `r` returns `[c]` in whatever order
its `range` visits the stored images, the saved image does not itself carry the
name `n` with a manifest `r`, and the `Save` returns an identifier other than
`c`, then after it `Resolve(n, r)` returns `[c]`, again in whatever order. -/
theorem C29_save_keeps_resolution (L : Lib) (C : CidLib) (r : MemoryStore) (fs : FS)
    (I : Image) (s : Saved) (n ref c : String)
    (hsave : r.Save L C fs (some I) = .ret s) (herr : s.err = none)
    (href : ref ≠ "")
    (hbefore : ∀ visit : r.images.Range, r.Resolve visit n ref = .ret (.ok (some [c])))
    (hcid : s.cid ≠ c)
    (hother : I.Name ≠ n ∨ ref ∉ I.Manifests.keys) :
    ∀ visit : s.store.images.Range, s.store.Resolve visit n ref = .ret (.ok (some [c])) := by
  obtain ⟨_, _, hl, himg⟩ := save_memory_ok L C r fs I s hsave herr
  have hloop : ∀ visit : List (String × Image), visit.Perm r.images.entries →
      MemoryStore.Resolve.loop n ref visit = .ok (some [c]) := by
    intro visit hp
    have h := hbefore ⟨visit, hp⟩
    unfold MemoryStore.Resolve at h
    split_ifs at h
    injection h
  have hall := memory_resolve_all_orders n ref c r.images.entries href hloop
  obtain ⟨J, hJ, hJ1, hJ2⟩ :=
    memory_resolve_found n ref c r.images.entries href (hloop _ (List.Perm.refl _))
  intro visit
  have hp : visit.1.Perm ((s.cid, I) :: r.images.entries.filter (fun e => e.1 ≠ s.cid)) := by
    have e : s.store.images.entries = (r.images.set s.cid I).entries :=
      congrArg Table.entries himg
    exact visit.2.trans (List.Perm.of_eq e)
  unfold MemoryStore.Resolve
  simp only [hl, Bool.false_eq_true, if_false]
  congr 1
  apply memory_resolve_unique n ref c visit.1 href
  · intro e he h1 h2
    rcases List.mem_cons.mp (hp.mem_iff.mp he) with rfl | he2
    · rcases hother with ho | ho
      · exact absurd h1 ho
      · exact absurd h2 ho
    · exact hall e (List.mem_filter.mp he2).1 h1 h2
  · refine ⟨(c, J), hp.mem_iff.mpr (List.mem_cons_of_mem _ (List.mem_filter.mpr ⟨hJ, ?_⟩)),
      hJ1, hJ2⟩
    simp only [ne_eq, decide_eq_true_eq]
    exact fun e => hcid e.symm

/-- C29 as amended, on `exampleStore` and a `Save` of `exampleImageRetag` under
the name `other`. -/
theorem C29_save_keeps_resolution_witness :
    ∃ s, exampleStore.Save exampleLib exampleCidLib exampleFS
        (some { exampleImageRetag with Name := "other" }) = .ret s ∧ s.err = none ∧
      ∀ visit : s.store.images.Range,
        s.store.Resolve visit "lib/foo" "latest"
          = .ret (.ok (some ["b7368613235363a34313432"])) :=
  ⟨{ cid := "b7368613235363a3433", err := none,
     store := { exampleStore with
       images := exampleStore.images.set "b7368613235363a3433"
         { exampleImageRetag with Name := "other" } },
     fs := exampleFS },
   by rfl, rfl,
   C29_save_keeps_resolution exampleLib exampleCidLib exampleStore exampleFS
    { exampleImageRetag with Name := "other" }
    { cid := "b7368613235363a3433", err := none,
      store := { exampleStore with
        images := exampleStore.images.set "b7368613235363a3433"
          { exampleImageRetag with Name := "other" } },
      fs := exampleFS }
    "lib/foo" "latest" "b7368613235363a34313432"
    (by rfl) rfl (by decide)
    (by
      intro visit
      have hp : visit.1.Perm [("b7368613235363a34313432", exampleImage)] := visit.2
      have hv : visit.1 = [("b7368613235363a34313432", exampleImage)] :=
        List.perm_singleton.mp hp
      unfold MemoryStore.Resolve
      rw [hv]
      rfl)
    (by decide) (Or.inl (by decide))⟩

end Registry
